import Mathlib

/-!
# MiniOS kernel core and drivers: heap allocator, page-frame allocator, scheduler,
interrupt controller, keyboard driver, driver registry

A shallow embedding of `src/Kernel.c` and `src/driver_manager.cpp` (built with `-m32`, so
`size_t`, `u32` and pointers are 32 bits wide) and theorems about it.

Conventions of the embedding.

* Machine integers are `Nat`; every C operation that can wrap is followed by an explicit
  `% 2 ^ 32` (`size_t`, `u32`, pointers) or `% 2 ^ 64` (`u64`).
* A pointer is the `Nat` of its address, `0` is `NULL`.
* Kernel memory that holds `memory_block_t` headers is a function from the address of a
  header to the record stored there; process control blocks likewise.  A C statement
  `p->f = v` is a point update of that function at `p`, and statements are applied one after
  the other, each reading the memory left by the previous one, so aliasing between
  pointers (`block->next == block`, a fresh block written over an old header at the same
  address) behaves as in C.
* Loops whose termination depends on the data (`while (block)` in `kmalloc_aligned`, the
  search in `schedule`) take a `fuel : Nat` and return `none` when it runs out; the loops
  only read memory, so more fuel never changes a `some` result.
* Port output is recorded in a log (`outb_log`, `port_log`), port input is an argument of
  the function that reads it, and the virtual calls the driver registry makes are recorded
  in its `calls` log; the value `driver->init()` returns is an argument of `registerDriver`.
-/

set_option linter.unusedVariables false

namespace MiniOS

/-! ## Constants (`Kernel.c` lines 38-43, 69-82, 149-164) -/

def PAGE_SIZE : Nat := 4096
def HEAP_START : Nat := 0x00400000
def HEAP_SIZE : Nat := 32 * 1024 * 1024
def MAX_PROCESSES : Nat := 256
def QUANTUM_MS : Nat := 20

/-- The sentinel stored in every heap header. -/
def HEAP_MAGIC : Nat := 0xDEADBEEF

/-- With `-m32`: `void*` 4, `size_t` 4, `bool` 1 (+3 padding), `u32` 4, two pointers 4+4. -/
def sizeof_memory_block_t : Nat := 24

/-- The wrap-around modulus of `size_t`, `u32` and pointers. -/
def W32 : Nat := 2 ^ 32

/-- The wrap-around modulus of `u64`. -/
def W64 : Nat := 2 ^ 64

/-! ## Heap allocator (`Kernel.c` lines 45-52, 172-175, 425-525) -/

/-- The header `memory_block_t`. The source types `next` and `prev` as `struct memory_block *`;
they are read as pointers to `memory_block_t`, as lines 455 and 514-523 use them. -/
structure memory_block_t where
  address : Nat
  size : Nat
  used : Bool
  magic : Nat
  next : Nat
  prev : Nat
deriving DecidableEq

/-- The heap globals: header memory, `memory_blocks_head`, `total_allocated`,
`allocation_count` and the two heap counters of `kernel_stats`. -/
structure Heap where
  mem : Nat → memory_block_t
  memory_blocks_head : Nat
  total_allocated : Nat
  allocation_count : Nat
  memory_allocations : Nat
  memory_frees : Nat

/-- Point update of header memory: the header at `a` becomes `f` of what it was. -/
def setBlock (m : Nat → memory_block_t) (a : Nat) (f : memory_block_t → memory_block_t) :
    Nat → memory_block_t :=
  fun x => if x = a then f (m a) else m x

/-- The function `init_memory`: resets the three allocator globals; memory is not touched. -/
def init_memory (h : Heap) : Heap :=
  { h with memory_blocks_head := 0, total_allocated := 0, allocation_count := 0 }

/-- The C expression `(size + alignment - 1) & ~(alignment - 1)` on 32-bit operands. -/
def align_up (size alignment : Nat) : Nat :=
  ((size + alignment + W32 - 1) % W32) &&& ((W32 - 1) ^^^ ((alignment + W32 - 1) % W32))

/-- The size the allocator looks for: the rounded request plus the header, as a `size_t`. -/
def block_need (size alignment : Nat) : Nat :=
  (align_up size alignment + sizeof_memory_block_t) % W32

/-- Lines 446-458 of `kmalloc_aligned`: split the free block `block` when what is left
after `size` bytes exceeds a header plus 64 bytes. -/
def kmalloc_split (m0 : Nat → memory_block_t) (size block : Nat) : Nat → memory_block_t :=
  if (m0 block).size > (size + sizeof_memory_block_t + 64) % W32 then
    let new_block := (block + size) % W32
    let m1 := setBlock m0 new_block fun b =>
      { b with address := (new_block + sizeof_memory_block_t) % W32 }
    let m2 := setBlock m1 new_block fun b =>
      { b with size := ((m1 block).size + W32 - size) % W32 }
    let m3 := setBlock m2 new_block fun b => { b with used := false }
    let m4 := setBlock m3 new_block fun b => { b with magic := HEAP_MAGIC }
    let m5 := setBlock m4 new_block fun b => { b with next := (m4 block).next }
    let m6 := setBlock m5 new_block fun b => { b with prev := block }
    let m7 := if (m6 block).next ≠ 0 then
        setBlock m6 (m6 block).next fun b => { b with prev := new_block }
      else m6
    let m8 := setBlock m7 block fun b => { b with next := new_block }
    setBlock m8 block fun b => { b with size := size }
  else m0

/-- The body of the first-fit `if` of `kmalloc_aligned` (lines 446-465), for a free block
`block` with `block->size >= size`: optional split, then hand the block out. -/
def kmalloc_take (h : Heap) (size block : Nat) : Heap × Nat :=
  let m5 := kmalloc_split h.mem size block
  let m6 := setBlock m5 block fun b => { b with used := true }
  ({ h with
      mem := m6
      total_allocated := (h.total_allocated + (m6 block).size) % W32
      allocation_count := (h.allocation_count + 1) % W32
      memory_allocations := (h.memory_allocations + 1) % W64 },
   (m6 block).address)

/-- The tail of `kmalloc_aligned` after the scan found nothing (lines 471-488): refuse when
the bump would pass `HEAP_SIZE`, else write a fresh header at `heap_start + total_allocated`
and link it after `prev`. -/
def kmalloc_bump (h : Heap) (size prev : Nat) : Heap × Nat :=
  if (h.total_allocated + size) % W32 > HEAP_SIZE then (h, 0)
  else
    let block := (HEAP_START + h.total_allocated) % W32
    let m1 := setBlock h.mem block fun _ =>
      { address := (block + sizeof_memory_block_t) % W32
        size := size
        used := true
        magic := HEAP_MAGIC
        next := 0
        prev := prev }
    let m2 := if prev ≠ 0 then setBlock m1 prev fun b => { b with next := block } else m1
    ({ h with
        mem := m2
        memory_blocks_head := if prev ≠ 0 then h.memory_blocks_head else block
        total_allocated := (h.total_allocated + size) % W32
        allocation_count := (h.allocation_count + 1) % W32
        memory_allocations := (h.memory_allocations + 1) % W64 },
     (m2 block).address)

/-- The `while (block)` scan of `kmalloc_aligned` (lines 444-469) followed by the bump. -/
def kmalloc_scan (size : Nat) : Nat → Heap → Nat → Nat → Option (Heap × Nat)
  | 0, _, _, _ => none
  | fuel + 1, h, block, prev =>
    if block = 0 then some (kmalloc_bump h size prev)
    else if (h.mem block).used = false ∧ (h.mem block).size ≥ size then
      some (kmalloc_take h size block)
    else kmalloc_scan size fuel h (h.mem block).next block

/-- The function `kmalloc_aligned`: the new heap and the returned pointer (`0` is `NULL`). -/
def kmalloc_aligned (fuel : Nat) (h : Heap) (size alignment : Nat) : Option (Heap × Nat) :=
  if size = 0 then some (h, 0)
  else kmalloc_scan (block_need size alignment) fuel h h.memory_blocks_head 0

/-- The function `kmalloc`. -/
def kmalloc (fuel : Nat) (h : Heap) (size : Nat) : Option (Heap × Nat) :=
  kmalloc_aligned fuel h size 16

/-- Lines 514-518 of `kfree`: merge `block` with its right neighbour if that one is free. -/
def kfree_merge_next (m1 : Nat → memory_block_t) (block : Nat) : Nat → memory_block_t :=
  if (m1 block).next ≠ 0 ∧ (m1 (m1 block).next).used = false then
    let m2 := setBlock m1 block fun b =>
      { b with size := (b.size + (m1 (m1 block).next).size) % W32 }
    let m3 := setBlock m2 block fun b => { b with next := (m2 (m2 block).next).next }
    if (m3 block).next ≠ 0 then
      setBlock m3 (m3 block).next fun b => { b with prev := block }
    else m3
  else m1

/-- Lines 520-524 of `kfree`: merge `block` into its left neighbour if that one is free. -/
def kfree_merge_prev (m4 : Nat → memory_block_t) (block : Nat) : Nat → memory_block_t :=
  if (m4 block).prev ≠ 0 ∧ (m4 (m4 block).prev).used = false then
    let m5 := setBlock m4 (m4 block).prev fun b =>
      { b with size := (b.size + (m4 block).size) % W32 }
    let m6 := setBlock m5 (m5 block).prev fun b => { b with next := (m5 block).next }
    if (m6 block).next ≠ 0 then
      setBlock m6 (m6 block).next fun b => { b with prev := (m6 block).prev }
    else m6
  else m4

/-- The function `kfree` (lines 502-525). -/
def kfree (h : Heap) (ptr : Nat) : Heap :=
  if ptr = 0 then h
  else
    let block := (ptr + W32 - sizeof_memory_block_t) % W32
    if (h.mem block).magic ≠ HEAP_MAGIC then h
    else
      let m1 := setBlock h.mem block fun b => { b with used := false }
      let m4 := kfree_merge_next m1 block
      let m7 := kfree_merge_prev m4 block
      { h with mem := m7, memory_frees := (h.memory_frees + 1) % W64 }

/-- All-zero header, the content of memory nobody has written. -/
def zero_block : memory_block_t :=
  { address := 0, size := 0, used := false, magic := 0, next := 0, prev := 0 }

/-- The heap globals as the loader leaves them (static initialisers, zeroed RAM). -/
def boot_heap : Heap :=
  { mem := fun _ => zero_block
    memory_blocks_head := 0
    total_allocated := 0
    allocation_count := 0
    memory_allocations := 0
    memory_frees := 0 }

/-! ## Page-frame allocator (`Kernel.c` lines 54-60, 188, 527-574) -/

/-- The record `page_frame_allocator_t`, together with `words`, the `u32` array that the
pointer `bitmap` designates (`words idx` is `bitmap[idx]`). -/
structure page_frame_allocator_t where
  bitmap : Nat
  words : Nat → Nat
  total_frames : Nat
  used_frames : Nat
  free_frames : Nat
  first_free : Nat

/-- The test `bitmap[i / 32] & (1 << (i % 32))` of `alloc_frame` and `free_frame`. -/
def frame_bit (fa : page_frame_allocator_t) (i : Nat) : Nat :=
  fa.words (i / 32) &&& (1 <<< (i % 32))

/-- The allocator after the body of the `if` in `alloc_frame` ran for frame `i`: bit set,
counters moved, `first_free = i + 1`. -/
def take_frame (fa : page_frame_allocator_t) (i : Nat) : page_frame_allocator_t :=
  { fa with
      words := fun x => if x = i / 32 then fa.words (i / 32) ||| (1 <<< (i % 32))
                        else fa.words x
      used_frames := (fa.used_frames + 1) % W32
      free_frames := (fa.free_frames + W32 - 1) % W32
      first_free := (i + 1) % W32 }

/-- The `for` loop of `alloc_frame`; `fuel` counts the iterations left until
`i = total_frames`.  (`i++` cannot wrap: it runs only while `i < total_frames`.) -/
def alloc_frame_loop (fa : page_frame_allocator_t) : Nat → Nat → page_frame_allocator_t × Nat
  | 0, _ => (fa, 0)
  | fuel + 1, i =>
    if i < fa.total_frames then
      if frame_bit fa i = 0 then (take_frame fa i, (i * PAGE_SIZE) % W32)
      else alloc_frame_loop fa fuel (i + 1)
    else (fa, 0)

/-- The function `alloc_frame`: the new allocator and the returned physical address. -/
def alloc_frame (fa : page_frame_allocator_t) : page_frame_allocator_t × Nat :=
  alloc_frame_loop fa (fa.total_frames - fa.first_free) fa.first_free

/-- The allocator after the body of the `if` in `free_frame` ran for frame `i`: bit
cleared, counters moved, `first_free` lowered to `i` if it was above. -/
def release_frame (fa : page_frame_allocator_t) (i : Nat) : page_frame_allocator_t :=
  { fa with
      words := fun x => if x = i / 32
                        then fa.words (i / 32) &&& ((W32 - 1) ^^^ (1 <<< (i % 32)))
                        else fa.words x
      used_frames := (fa.used_frames + W32 - 1) % W32
      free_frames := (fa.free_frames + 1) % W32
      first_free := if i < fa.first_free then i else fa.first_free }

/-- The function `free_frame`. -/
def free_frame (fa : page_frame_allocator_t) (frame : Nat) : page_frame_allocator_t :=
  let i := frame / PAGE_SIZE
  if frame_bit fa i ≠ 0 then release_frame fa i else fa

/-! ## Processes (`Kernel.c` lines 68-119, 177-183) -/

/-- The enumeration `process_state_t`, in declaration order (so `NEW` is the value 0). -/
inductive process_state_t where
  | PROC_STATE_NEW
  | PROC_STATE_READY
  | PROC_STATE_RUNNING
  | PROC_STATE_BLOCKED
  | PROC_STATE_WAITING
  | PROC_STATE_ZOMBIE
  | PROC_STATE_TERMINATED
deriving DecidableEq

open process_state_t

/-- The fields of `process_t` that the kernel core reads or writes. -/
structure process_t where
  pid : Nat
  name : List Char
  state : process_state_t
  quantum : Nat
  cpu_time : Nat
  sleep_until : Nat
  next : Nat
  exit_code : Nat

/-- The result of `memset(p, 0, sizeof(process_t))`. -/
def zero_process : process_t :=
  { pid := 0, name := [], state := PROC_STATE_NEW, quantum := 0, cpu_time := 0,
    sleep_until := 0, next := 0, exit_code := 0 }

/-- With `-m32` (`u64` aligned to 4): the sum of the field sizes of `process_t`. -/
def sizeof_process_t : Nat := 748

/-- The kernel globals the core works on. `outb_log` records every `outb(port, val)`. -/
structure Kernel where
  heap : Heap
  frame_allocator : page_frame_allocator_t
  page_directory : Nat
  mapped_pages : Nat
  procs : Nat → process_t
  process_list : Nat → Nat
  current_process : Nat
  idle_process : Nat
  system_ticks : Nat
  system_time_ms : Nat
  context_switches : Nat
  interrupts_handled : Nat
  syscalls : Nat
  keyboard_buffer : Nat → Nat
  kb_read_pos : Nat
  kb_write_pos : Nat
  outb_log : List (Nat × Nat)

/-- Point update of process memory. -/
def setProc (m : Nat → process_t) (a : Nat) (f : process_t → process_t) : Nat → process_t :=
  fun x => if x = a then f (m a) else m x

/-- The function `outb`. -/
def outb (k : Kernel) (port val : Nat) : Kernel :=
  { k with outb_log := k.outb_log ++ [(port, val)] }

/-! ## Paging set-up (`Kernel.c` lines 528-545) -/

/-- The function `init_paging`; `none` when a `kmalloc` scan runs out of fuel or when an
allocation returns `NULL` (the `memset` through the null pointer is undefined). -/
def init_paging (fuel : Nat) (k : Kernel) : Option Kernel :=
  let total := (128 * 1024 * 1024) / PAGE_SIZE
  let bitmap_size := ((total + 31) % W32) / 32
  match kmalloc fuel k.heap ((bitmap_size * 4) % W32) with
  | none => none
  | some (h1, bitmap) =>
    if bitmap = 0 then none
    else
      let fa : page_frame_allocator_t :=
        { bitmap := bitmap
          words := fun idx => if idx < bitmap_size then 0 else k.frame_allocator.words idx
          total_frames := total
          used_frames := 0
          free_frames := total
          first_free := 0 }
      match kmalloc_aligned fuel h1 PAGE_SIZE PAGE_SIZE with
      | none => none
      | some (h2, pd) =>
        if pd = 0 then none
        else
          some { k with
            heap := h2, frame_allocator := fa, page_directory := pd, mapped_pages := 0 }

/-! ## Scheduler, timer, keyboard, system calls (`Kernel.c` lines 652-769, 818-828) -/

/-- The function `init_tasking`; `none` when the `kmalloc` scan runs out of fuel or when
`kmalloc` returns `NULL` (the `memset` through the null pointer is undefined). -/
def init_tasking (fuel : Nat) (k : Kernel) : Option Kernel :=
  match kmalloc fuel k.heap sizeof_process_t with
  | none => none
  | some (h1, idle) =>
    if idle = 0 then none
    else
      let p1 := setProc k.procs idle fun _ => zero_process
      let p2 := setProc p1 idle fun p => { p with pid := 0 }
      let p3 := setProc p2 idle fun p => { p with state := PROC_STATE_RUNNING }
      let p4 := setProc p3 idle fun p => { p with name := ['i', 'd', 'l', 'e'] }
      some { k with
        heap := h1
        procs := p4
        idle_process := idle
        current_process := idle
        process_list := fun i => if i = 0 then idle else k.process_list i }

/-- The `while` loop of `schedule` (lines 718-722): from `next`, the process the loop
leaves in `next`; `none` when the fuel runs out. -/
def schedule_search (k : Kernel) : Nat → Nat → Option Nat
  | 0, _ => none
  | fuel + 1, next =>
    if next ≠ 0 ∧ (k.procs next).state ≠ PROC_STATE_READY
        ∧ (k.procs next).state ≠ PROC_STATE_RUNNING then
      let n1 := (k.procs next).next
      let n2 := if n1 = 0 then k.process_list 0 else n1
      if n2 = k.current_process then some n2 else schedule_search k fuel n2
    else some next

/-- The function `schedule`. -/
def schedule (fuel : Nat) (k : Kernel) : Option Kernel :=
  if k.current_process = 0 then some k
  else
    let k1 := { k with context_switches := (k.context_switches + 1) % W64 }
    let n0 := (k1.procs k1.current_process).next
    let n1 := if n0 = 0 then k1.process_list 0 else n0
    match schedule_search k1 fuel n1 with
    | none => none
    | some next =>
      if next ≠ 0 ∧ next ≠ k1.current_process then
        let prev := k1.current_process
        let p1 := if (k1.procs prev).state = PROC_STATE_RUNNING then
            setProc k1.procs prev fun p => { p with state := PROC_STATE_READY }
          else k1.procs
        let p2 := setProc p1 next fun p => { p with state := PROC_STATE_RUNNING }
        let p3 := setProc p2 next fun p => { p with quantum := QUANTUM_MS }
        some { k1 with procs := p3, current_process := next }
      else some k1

/-- The function `timer_handler`. -/
def timer_handler (fuel : Nat) (k : Kernel) : Option Kernel :=
  let ticks := (k.system_ticks + 1) % W64
  let k1 := { k with
    system_ticks := ticks
    system_time_ms := (ticks * 10) % W64
    interrupts_handled := (k.interrupts_handled + 1) % W64 }
  let k4 :=
    if k1.current_process ≠ 0 then
      let cur := k1.current_process
      let p1 := setProc k1.procs cur fun p => { p with cpu_time := (p.cpu_time + 1) % W64 }
      let p2 := setProc p1 cur fun p => { p with quantum := (p.quantum + W32 - 1) % W32 }
      let k2 := { k1 with procs := p2 }
      if (k2.procs cur).quantum = 0 then schedule fuel k2 else some k2
    else some k1
  k4.map fun k5 => outb k5 0x20 0x20

/-- The table `scancode_to_ascii` (58 entries). -/
def scancode_to_ascii : List Char :=
  ['\x00', '\x00', '1', '2', '3', '4', '5', '6', '7', '8', '9', '0', '-', '=', '\x08',
   '\t', 'q', 'w', 'e', 'r', 't', 'y', 'u', 'i', 'o', 'p', '[', ']', '\n',
   '\x00', 'a', 's', 'd', 'f', 'g', 'h', 'j', 'k', 'l', ';', '\'', '\x60',
   '\x00', '\\', 'z', 'x', 'c', 'v', 'b', 'n', 'm', ',', '.', '/', '\x00', '*',
   '\x00', ' ']

/-- The function `keyboard_handler`; `scancode` is the byte `inb(0x60)` delivers. -/
def keyboard_handler (k : Kernel) (scancode : Nat) : Kernel :=
  let k2 :=
    if scancode < 128 ∧ scancode < scancode_to_ascii.length then
      let c := (scancode_to_ascii.getD scancode '\x00').toNat
      if c ≠ 0 then
        { k with
          keyboard_buffer := fun i => if i = k.kb_write_pos then c else k.keyboard_buffer i
          kb_write_pos := (k.kb_write_pos + 1) % 256 }
      else k
    else k
  outb { k2 with interrupts_handled := (k2.interrupts_handled + 1) % W64 } 0x20 0x20

/-- The function `irq_handler`, for a frame with interrupt number `int_no`. -/
def irq_handler (fuel : Nat) (k : Kernel) (int_no scancode : Nat) : Option Kernel :=
  if int_no = 32 then timer_handler fuel k
  else if int_no = 33 then some (keyboard_handler k scancode)
  else
    let k1 := outb { k with interrupts_handled := (k.interrupts_handled + 1) % W64 } 0x20 0x20
    some (if int_no ≥ 40 then outb k1 0xA0 0x20 else k1)

/-- The function `syscall_handler`: the new state and the 32-bit result. Console output of
`SYSCALL_WRITE` and of the `default` branch is not part of the state. -/
def syscall_handler (fuel : Nat) (k : Kernel) (syscall_num arg1 arg2 arg3 arg4 : Nat) :
    Option (Kernel × Nat) :=
  let k1 := { k with syscalls := (k.syscalls + 1) % W64 }
  if syscall_num = 1 then
    if k1.current_process ≠ 0 then
      let cur := k1.current_process
      let p1 := setProc k1.procs cur fun p => { p with state := PROC_STATE_TERMINATED }
      let p2 := setProc p1 cur fun p => { p with exit_code := arg1 }
      (schedule fuel { k1 with procs := p2 }).map fun k2 => (k2, 0)
    else some (k1, 0)
  else if syscall_num = 9 then
    some (k1, if k1.current_process ≠ 0 then (k1.procs k1.current_process).pid else 0)
  else if syscall_num = 4 then
    if arg1 = 1 then some (k1, arg3) else some (k1, W32 - 1)
  else if syscall_num = 11 then
    (schedule fuel k1).map fun k2 => (k2, 0)
  else some (k1, W32 - 1)

/-- The kernel globals as the loader leaves them: static initialisers, zeroed RAM. -/
def boot_kernel : Kernel :=
  { heap := boot_heap
    frame_allocator :=
      { bitmap := 0, words := fun _ => 0, total_frames := 0, used_frames := 0,
        free_frames := 0, first_free := 0 }
    page_directory := 0
    mapped_pages := 0
    procs := fun _ => zero_process
    process_list := fun _ => 0
    current_process := 0
    idle_process := 0
    system_ticks := 0
    system_time_ms := 0
    context_switches := 0
    interrupts_handled := 0
    syscalls := 0
    keyboard_buffer := fun _ => 0
    kb_read_pos := 0
    kb_write_pos := 0
    outb_log := [] }

/-! ## Reachable states and the properties the theorems speak about -/

/-- A `kmalloc_aligned(size, alignment)` call in heap `h` wraps no 32-bit computation on
its sizes: the running total plus the heap size, and the running total plus the rounded
request plus the header, stay below `2 ^ 32`. (The rounding is `align_up` as the code
computes it.) -/
def NoWrap (h : Heap) (size alignment : Nat) : Prop :=
  h.total_allocated + HEAP_SIZE < W32 ∧
  h.total_allocated + align_up size alignment + sizeof_memory_block_t < W32

/-- Heap states reachable from `init_memory` through `kmalloc_aligned` calls (32-bit
arguments, power-of-two alignment, each satisfying `ok`) and `kfree` calls on live
pointers; the second index is the set of live pointers (returned and not yet freed). -/
inductive HeapReachWith (ok : Heap → Nat → Nat → Prop) : Heap → Set Nat → Prop
  | init (h0 : Heap) : HeapReachWith ok (init_memory h0) ∅
  | alloc {h : Heap} {live : Set Nat} (fuel size k : Nat) (h' : Heap) (p : Nat) :
      HeapReachWith ok h live → size < W32 → 2 ^ k < W32 → ok h size (2 ^ k) →
      kmalloc_aligned fuel h size (2 ^ k) = some (h', p) →
      HeapReachWith ok h' (if p = 0 then live else insert p live)
  | free {h : Heap} {live : Set Nat} (p : Nat) :
      HeapReachWith ok h live → p ∈ live → HeapReachWith ok (kfree h p) (live \ {p})

/-- Every call allowed. -/
def HeapReach : Heap → Set Nat → Prop := HeapReachWith fun _ _ _ => True

/-- Only calls that wrap no 32-bit computation. -/
def HeapReachNoWrap : Heap → Set Nat → Prop := HeapReachWith NoWrap

/-- Block `b` is in the block list: reached from `memory_blocks_head` by `next` links. -/
inductive InList (h : Heap) : Nat → Prop
  | head : h.memory_blocks_head ≠ 0 → InList h h.memory_blocks_head
  | next {b : Nat} : InList h b → (h.mem b).next ≠ 0 → InList h (h.mem b).next

/-- Some block of the list and its (distinct) `next` neighbour are both free. -/
def AdjacentFree (h : Heap) : Prop :=
  ∃ b, InList h b ∧ (h.mem b).next ≠ 0 ∧ (h.mem b).next ≠ b ∧
    (h.mem b).used = false ∧ (h.mem (h.mem b).next).used = false

/-- The heap left by `kmalloc(size)` (the heap itself if the scan ran out of fuel). -/
def heap_after (h : Heap) (size : Nat) : Heap :=
  match kmalloc 8 h size with
  | some (h', _) => h'
  | none => h

/-- Scenario: `X = kmalloc(16)` on the fresh heap. -/
def scen_h1 : Heap := heap_after (init_memory boot_heap) 16
/-- Scenario: then `A = kmalloc(16)`. -/
def scen_h2 : Heap := heap_after scen_h1 16
/-- Scenario: then `H = kmalloc(0xFFFFFFC0)`. -/
def scen_h3 : Heap := heap_after scen_h2 0xFFFFFFC0
/-- Scenario: then `kfree(X)`. -/
def scen_h4 : Heap := kfree scen_h3 0x400018
/-- Scenario: then `kfree(H)`. -/
def scen_h5 : Heap := kfree scen_h4 0x400068
/-- Scenario: then `kmalloc(0xFFFFFFC0)` again. -/
def scen_h6 : Heap := heap_after scen_h5 0xFFFFFFC0

/-- Scenario: `X = kmalloc(16); A = kmalloc(16); kfree(X)`. -/
def scen_g3 : Heap := kfree scen_h2 0x400018

/-- The number of set bits among the `total_frames` bits of the bitmap. -/
def popcount (fa : page_frame_allocator_t) : Nat :=
  (List.range fa.total_frames).countP fun i => decide (frame_bit fa i ≠ 0)

/-- Frame-allocator states reachable from `init_paging` through `alloc_frame` and
`free_frame` on frame addresses below 128 MiB. -/
inductive FrameReach : page_frame_allocator_t → Prop
  | init (fuel : Nat) (k0 k : Kernel) : init_paging fuel k0 = some k →
      FrameReach k.frame_allocator
  | alloc {fa : page_frame_allocator_t} : FrameReach fa → FrameReach (alloc_frame fa).1
  | free {fa : page_frame_allocator_t} (frame : Nat) : FrameReach fa →
      frame < 128 * 1024 * 1024 → FrameReach (free_frame fa frame)

/-- The state after `n` consecutive timer interrupts (`irq_handler` with `int_no = 32`). -/
def timer_ticks (fuel : Nat) : Nat → Kernel → Option Kernel
  | 0, k => some k
  | n + 1, k => (irq_handler fuel k 32 0).bind (timer_ticks fuel n)

/-- Kernel states reachable from `init_tasking` (run on a kernel whose process table still
has its static all-`NULL` content) through `schedule`, timer interrupts and
`syscall_handler` calls with a number satisfying `allowed`. -/
inductive TaskReachWith (allowed : Nat → Prop) : Kernel → Prop
  | init (fuel : Nat) (k0 k : Kernel) : (∀ i, k0.process_list i = 0) →
      init_tasking fuel k0 = some k → TaskReachWith allowed k
  | sched {k : Kernel} (fuel : Nat) (k' : Kernel) : TaskReachWith allowed k →
      schedule fuel k = some k' → TaskReachWith allowed k'
  | timer {k : Kernel} (fuel : Nat) (k' : Kernel) : TaskReachWith allowed k →
      irq_handler fuel k 32 0 = some k' → TaskReachWith allowed k'
  | syscall {k : Kernel} (fuel num a1 a2 a3 a4 : Nat) (k' : Kernel) (r : Nat) :
      TaskReachWith allowed k → allowed num → num < W32 → a1 < W32 →
      syscall_handler fuel k num a1 a2 a3 a4 = some (k', r) → TaskReachWith allowed k'

/-- Every system call allowed. -/
def TaskReach : Kernel → Prop := TaskReachWith fun _ => True

/-- Every system call but `SYSCALL_EXIT`. -/
def TaskReachNoExit : Kernel → Prop := TaskReachWith fun num => num ≠ 1

/-- Exactly one process of the process table is `RUNNING`, and it is `current_process`. -/
def OneRunning (k : Kernel) : Prop :=
  k.current_process ≠ 0 ∧ (∃ i, i < MAX_PROCESSES ∧ k.process_list i = k.current_process) ∧
  (k.procs k.current_process).state = PROC_STATE_RUNNING ∧
  ∀ i, i < MAX_PROCESSES → k.process_list i ≠ 0 →
    (k.procs (k.process_list i)).state = PROC_STATE_RUNNING →
    k.process_list i = k.current_process

/-- The kernel right after `init_memory` and `init_tasking` on the boot state. -/
def idle_kernel : Kernel :=
  (init_tasking 1 { boot_kernel with heap := init_memory boot_heap }).getD boot_kernel

/-- A kernel with two processes `A` (at `0x1000`, current, `RUNNING`, quantum `q`) and `B`
(at `0x2000`, `READY`), linked in a ring. -/
def two_procs (q : Nat) : Kernel :=
  { boot_kernel with
    procs := fun a =>
      if a = 0x1000 then
        { zero_process with pid := 1, state := PROC_STATE_RUNNING, quantum := q, next := 0x2000 }
      else if a = 0x2000 then
        { zero_process with pid := 2, state := PROC_STATE_READY, quantum := 0, next := 0x1000 }
      else zero_process
    process_list := fun i => if i = 0 then 0x1000 else if i = 1 then 0x2000 else 0
    current_process := 0x1000 }

/-- The kernel after the idle process calls `exit(0)` as its first action. -/
def exited_kernel : Kernel :=
  ((syscall_handler 1 idle_kernel 1 0 0 0 0).getD (boot_kernel, 0)).1

/-- What a run of timer ticks keeps true until the quantum of `A` runs out. -/
structure TickInv (k : Kernel) (A B r cs : Nat) : Prop where
  cur : k.current_process = A
  stA : (k.procs A).state = PROC_STATE_RUNNING
  qA : (k.procs A).quantum = r
  nxt : (k.procs A).next = B
  stB : (k.procs B).state = PROC_STATE_READY
  cs : k.context_switches = cs

/-- What every reachable frame-allocator state satisfies. -/
structure FrameInv (fa : page_frame_allocator_t) : Prop where
  total : fa.total_frames = 32768
  count : popcount fa = fa.used_frames
  sum : fa.used_frames + fa.free_frames = fa.total_frames
  hint : ∀ i, i < fa.total_frames → frame_bit fa i = 0 → fa.first_free ≤ i

/-- The frame allocator right after `init_paging` on the boot state. -/
def boot_frames : page_frame_allocator_t :=
  ((init_paging 2 { boot_kernel with heap := init_memory boot_heap }).getD
    boot_kernel).frame_allocator

/-- What every state reachable from `init_tasking` satisfies: the idle process is the only
process, it is current, and its `next` link is null. -/
structure TaskInv (k : Kernel) : Prop where
  idle_ne : k.idle_process ≠ 0
  cur : k.current_process = k.idle_process
  slot0 : k.process_list 0 = k.idle_process
  others : ∀ i, i ≠ 0 → k.process_list i = 0
  nxt : (k.procs k.idle_process).next = 0
  st : (k.procs k.idle_process).state = PROC_STATE_RUNNING ∨
    (k.procs k.idle_process).state = PROC_STATE_TERMINATED

/-- Structural well-formedness of the block list. `S` is the set of addresses of the
blocks of the list, `B` an upper bound of their byte ranges: the head is the block without
a left neighbour, headers carry the sentinel and their payload address, `next` and `prev`
are inverse to each other inside `S`, and `next` is the closest block above. -/
structure HeapStruct (m : Nat → memory_block_t) (head : Nat) (S : Set Nat) (B : Nat) :
    Prop where
  head_mem : head ≠ 0 → head ∈ S ∧ (m head).prev = 0
  head_zero : head = 0 → ∀ a, a ∉ S
  node : ∀ a, a ∈ S → HEAP_START ≤ a ∧ 0 < (m a).size ∧ a + (m a).size ≤ B ∧
    (m a).magic = HEAP_MAGIC ∧ (m a).address = a + sizeof_memory_block_t
  next_ok : ∀ a, a ∈ S → (m a).next ≠ 0 →
    (m a).next ∈ S ∧ (m (m a).next).prev = a ∧ a + (m a).size ≤ (m a).next
  prev_ok : ∀ a, a ∈ S → (m a).prev ≠ 0 → (m a).prev ∈ S ∧ (m (m a).prev).next = a
  next_least : ∀ a c, a ∈ S → c ∈ S → a < c → (m a).next ≠ 0 ∧ (m a).next ≤ c

/-- The invariant of the heap: the list is well formed and lies inside the heap below the
bump pointer, no block and its right neighbour are both free, and the live pointers are
exactly the payload addresses of the used blocks. -/
structure HeapInv (h : Heap) (S : Set Nat) (live : Set Nat) : Prop where
  struct : HeapStruct h.mem h.memory_blocks_head S
    (HEAP_START + min h.total_allocated HEAP_SIZE)
  nofree : ∀ a, a ∈ S → (h.mem a).next ≠ 0 →
    (h.mem a).used = true ∨ (h.mem (h.mem a).next).used = true
  live : ∀ p, p ∈ live ↔ ∃ a, a ∈ S ∧ (h.mem a).used = true ∧ p = a + sizeof_memory_block_t

/-- Header memory after block `x` absorbed its right neighbour `y`, field by field. -/
def absorbed (m : Nat → memory_block_t) (x y : Nat) : Nat → memory_block_t :=
  fun a =>
    if a = x then { m x with size := ((m x).size + (m y).size) % W32, next := (m y).next }
    else if a = (m y).next ∧ (m y).next ≠ 0 then { m a with prev := x }
    else m a

/-- Header memory after the free block `b` was split at `nb = b + size`, field by field. -/
def splitted (m : Nat → memory_block_t) (b nb size : Nat) : Nat → memory_block_t :=
  fun a =>
    if a = nb then
      { address := nb + sizeof_memory_block_t, size := (m b).size - size, used := false,
        magic := HEAP_MAGIC, next := (m b).next, prev := b }
    else if a = b then { m b with next := nb, size := size }
    else if a = (m b).next ∧ (m b).next ≠ 0 then { m a with prev := nb }
    else m a

/-- Header memory after a fresh used block `nb` was linked behind the tail `t` (`t = 0`:
the list was empty), field by field. -/
def appended (m : Nat → memory_block_t) (nb size t : Nat) : Nat → memory_block_t :=
  fun a =>
    if a = nb then
      { address := nb + sizeof_memory_block_t, size := size, used := true,
        magic := HEAP_MAGIC, next := 0, prev := t }
    else if a = t ∧ t ≠ 0 then { m a with next := nb }
    else m a

/-- The state between the two merges of `kfree`: the list is well formed, `b` is in it and
free, and only a pair whose right block is `b` may consist of two free blocks. -/
structure FreeMid (m : Nat → memory_block_t) (head : Nat) (S : Set Nat) (B b : Nat) :
    Prop where
  struct : HeapStruct m head S B
  mem : b ∈ S
  free : (m b).used = false
  nofree : ∀ a, a ∈ S → (m a).next ≠ 0 → (m a).next ≠ b →
    (m a).used = true ∨ (m (m a).next).used = true

/-! ## Interrupt controller (`Kernel.c` lines 121-126, 212-244, 614-640) -/

def PIC1_COMMAND : Nat := 0x20
def PIC1_DATA : Nat := 0x21
def PIC2_COMMAND : Nat := 0xA0
def PIC2_DATA : Nat := 0xA1

/-- The function `io_wait`. -/
def io_wait (k : Kernel) : Kernel := outb k 0x80 0

/-- The function `pic_remap` (the console message is not part of the state). -/
def pic_remap (k : Kernel) : Kernel :=
  let k1 := io_wait (outb k PIC1_COMMAND 0x11)
  let k2 := io_wait (outb k1 PIC2_COMMAND 0x11)
  let k3 := io_wait (outb k2 PIC1_DATA 0x20)
  let k4 := io_wait (outb k3 PIC2_DATA 0x28)
  let k5 := io_wait (outb k4 PIC1_DATA 0x04)
  let k6 := io_wait (outb k5 PIC2_DATA 0x02)
  let k7 := io_wait (outb k6 PIC1_DATA 0x01)
  let k8 := io_wait (outb k7 PIC2_DATA 0x01)
  let k9 := outb k8 PIC1_DATA 0xFD
  outb k9 PIC2_DATA 0xFF

/-- The value of the last `outb` to `port`, if there was one. -/
def last_outb (k : Kernel) (port : Nat) : Option Nat :=
  k.outb_log.foldl (fun acc w => if w.1 = port then some w.2 else acc) none

/-- Interrupt line `irq` (0 to 7) is masked by the mask byte `mask` of a PIC: its bit is
set. -/
def irq_masked (mask irq : Nat) : Bool := mask.testBit irq

/-! ## Keyboard driver (`driver_manager.cpp` lines 69-204) -/

/-- The class `KeyboardDriver`: the ring buffer with its two indices and the modifier
flags. `port_log` records every `PortIO::outb(port, val)` of the driver. -/
structure KeyboardDriver where
  initialized : Bool
  buffer : Nat → Nat
  readPos : Nat
  writePos : Nat
  shiftPressed : Bool
  ctrlPressed : Bool
  altPressed : Bool
  capsLock : Bool
  port_log : List (Nat × Nat)

/-- The constant `KeyboardDriver::BUFFER_SIZE`. -/
def BUFFER_SIZE : Nat := 256

/-- The table `KeyboardDriver::scancodeToAscii`: its 58 initialisers; the other entries of
the 128-element array are zero. -/
def scancodeToAscii : List Char :=
  ['\x00', '\x00', '1', '2', '3', '4', '5', '6', '7', '8', '9', '0', '-', '=', '\x08',
   '\t', 'q', 'w', 'e', 'r', 't', 'y', 'u', 'i', 'o', 'p', '[', ']', '\n',
   '\x00', 'a', 's', 'd', 'f', 'g', 'h', 'j', 'k', 'l', ';', '\'', '\x60',
   '\x00', '\\', 'z', 'x', 'c', 'v', 'b', 'n', 'm', ',', '.', '/', '\x00', '*',
   '\x00', ' ']

/-- The table `KeyboardDriver::scancodeToAsciiShift`: its 58 initialisers; the other
entries of the 128-element array are zero. -/
def scancodeToAsciiShift : List Char :=
  ['\x00', '\x00', '!', '@', '\x23', '$', '%', '^', '&', '*', '(', ')', '_', '+', '\x08',
   '\t', 'Q', 'W', 'E', 'R', 'T', 'Y', 'U', 'I', 'O', 'P', '\x7b', '\x7d', '\n',
   '\x00', 'A', 'S', 'D', 'F', 'G', 'H', 'J', 'K', 'L', ':', '\x22', '~',
   '\x00', '|', 'Z', 'X', 'C', 'V', 'B', 'N', 'M', '<', '>', '?', '\x00', '*',
   '\x00', ' ']

/-- The constructor `KeyboardDriver()`; the buffer keeps what memory held. -/
def KeyboardDriver.create (buffer : Nat → Nat) : KeyboardDriver :=
  { initialized := false, buffer := buffer, readPos := 0, writePos := 0,
    shiftPressed := false, ctrlPressed := false, altPressed := false, capsLock := false,
    port_log := [] }

/-- The method `KeyboardDriver::setLEDs`. -/
def KeyboardDriver.setLEDs (d : KeyboardDriver) : KeyboardDriver :=
  let leds := if d.capsLock then 0 ||| 0x04 else 0
  { d with port_log := d.port_log ++ [(0x60, 0xED), (0x80, 0), (0x60, leds), (0x80, 0)] }

/-- The method `KeyboardDriver::handleInterrupt`; `scancode` is the byte that
`PortIO::inb(0x60)` delivers. -/
def KeyboardDriver.handleInterrupt (d : KeyboardDriver) (scancode : Nat) : KeyboardDriver :=
  if scancode = 0x2A ∨ scancode = 0x36 then { d with shiftPressed := true }
  else if scancode = 0xAA ∨ scancode = 0xB6 then { d with shiftPressed := false }
  else if scancode = 0x1D then { d with ctrlPressed := true }
  else if scancode = 0x9D then { d with ctrlPressed := false }
  else if scancode = 0x38 then { d with altPressed := true }
  else if scancode = 0xB8 then { d with altPressed := false }
  else if scancode = 0x3A then KeyboardDriver.setLEDs { d with capsLock := !d.capsLock }
  else if scancode < 128 then
    let c0 := ((if d.shiftPressed then scancodeToAsciiShift else scancodeToAscii).getD
      scancode '\x00').toNat
    let c := if d.capsLock = true ∧ c0 ≥ 'a'.toNat ∧ c0 ≤ 'z'.toNat then c0 - 32 else c0
    if c ≠ 0 then
      { d with
        buffer := fun i => if i = d.writePos then c else d.buffer i
        writePos := (d.writePos + 1) % BUFFER_SIZE }
    else d
  else d

/-- The method `KeyboardDriver::hasKey`. -/
def KeyboardDriver.hasKey (d : KeyboardDriver) : Bool :=
  decide (d.readPos ≠ d.writePos)

/-- The method `KeyboardDriver::getKey`: the driver afterwards and the byte returned
(`0` when the buffer is reported empty). -/
def KeyboardDriver.getKey (d : KeyboardDriver) : KeyboardDriver × Nat :=
  if d.readPos = d.writePos then (d, 0)
  else ({ d with readPos := (d.readPos + 1) % BUFFER_SIZE }, d.buffer d.readPos)

/-- The driver after `handleInterrupt` ran once for each scancode of the list, in order. -/
def KeyboardDriver.feed (d : KeyboardDriver) (codes : List Nat) : KeyboardDriver :=
  codes.foldl KeyboardDriver.handleInterrupt d

/-- The results of `n` consecutive `getKey` calls, and the driver afterwards. -/
def KeyboardDriver.read_keys : Nat → KeyboardDriver → List Nat × KeyboardDriver
  | 0, d => ([], d)
  | n + 1, d =>
    let r := d.getKey
    let rest := KeyboardDriver.read_keys n r.1
    (r.2 :: rest.1, rest.2)

/-- The kernel after `keyboard_handler` ran once for each scancode of the list, in order. -/
def keyboard_feed (k : Kernel) (codes : List Nat) : Kernel :=
  codes.foldl keyboard_handler k

/-- The characters the specification expects for a scancode sequence: a shift make code
(`0x2A`, `0x36`) switches to the shifted table, a shift break code (`0xAA`, `0xB6`) back
to the base table, and every other code contributes its table entry unless that is zero. -/
def expected_keys : Bool → List Nat → List Nat
  | _, [] => []
  | shift, code :: rest =>
    if code = 0x2A ∨ code = 0x36 then expected_keys true rest
    else if code = 0xAA ∨ code = 0xB6 then expected_keys false rest
    else
      let c := ((if shift then scancodeToAsciiShift else scancodeToAscii).getD
        code '\x00').toNat
      if c ≠ 0 then c :: expected_keys shift rest else expected_keys shift rest

/-- The items `L` were stored in the ring buffer of the driver, oldest first, from index
`readPos` on, and `writePos` is `L.length` slots ahead of `readPos` (modulo `BUFFER_SIZE`:
with exactly `BUFFER_SIZE` items stored the two indices coincide). -/
structure Holds (d : KeyboardDriver) (L : List Nat) : Prop where
  rd : d.readPos < BUFFER_SIZE
  wr : d.writePos = (d.readPos + L.length) % BUFFER_SIZE
  len : L.length ≤ BUFFER_SIZE
  item : ∀ i, i < L.length → d.buffer ((d.readPos + i) % BUFFER_SIZE) = L.getD i 0

/-! ## Driver registry (`driver_manager.cpp` lines 8-29, 466-583) -/

/-- The virtual methods of `Driver` that the registry calls. -/
inductive driver_call where
  | init
  | shutdown
  | handleInterrupt
deriving DecidableEq

/-- The fields of the base class `Driver` that the registry reads through `getId` and
`getIRQ`; the constructor sets them and nothing writes them afterwards. -/
structure Driver where
  id : Nat
  irq : Nat

/-- The constant `DriverManager::MAX_DRIVERS`. -/
def MAX_DRIVERS : Nat := 32

/-- The singleton `DriverManager`: the array `drivers` of pointers and `driverCount` (an
`int`; it starts at 0 and the code never takes it below 0), together with `objs`, the
`Driver` object at each address, and `calls`, the virtual calls the registry has made
(object address and method), oldest first. -/
structure DriverManager where
  objs : Nat → Driver
  drivers : Nat → Nat
  driverCount : Nat
  calls : List (Nat × driver_call)

/-- The constructor `DriverManager()`. -/
def DriverManager.create (objs : Nat → Driver) : DriverManager :=
  { objs := objs, drivers := fun _ => 0, driverCount := 0, calls := [] }

/-- The method `registerDriver`; `init_result` is the value that `driver->init()` returns.
`none` when the virtual call would go through a null pointer. -/
def DriverManager.registerDriver (dm : DriverManager) (driver : Nat) (init_result : Bool) :
    Option (DriverManager × Bool) :=
  if dm.driverCount ≥ MAX_DRIVERS then some (dm, false)
  else if driver = 0 then none
  else
    let dm1 := { dm with calls := dm.calls ++ [(driver, driver_call.init)] }
    if init_result = true then
      some ({ dm1 with
          drivers := fun i => if i = dm1.driverCount then driver else dm1.drivers i
          driverCount := dm1.driverCount + 1 }, true)
    else some (dm1, false)

/-- The inner loop of `unregisterDriver` (lines 505-507): `drivers[j] = drivers[j + 1]` while
`j < driverCount - 1`; `fuel` counts the iterations left. -/
def unregister_shift (driverCount : Nat) : Nat → (Nat → Nat) → Nat → (Nat → Nat)
  | 0, drivers, _ => drivers
  | fuel + 1, drivers, j =>
    if j < driverCount - 1 then
      unregister_shift driverCount fuel (fun x => if x = j then drivers (j + 1) else drivers x)
        (j + 1)
    else drivers

/-- The outer loop of `unregisterDriver` from index `i` on; `fuel` counts the iterations
left until `i = driverCount`. -/
def unregister_loop (id : Nat) : Nat → DriverManager → Nat → DriverManager
  | 0, dm, _ => dm
  | fuel + 1, dm, i =>
    if i < dm.driverCount then
      if dm.drivers i ≠ 0 ∧ (dm.objs (dm.drivers i)).id = id then
        let dm1 := { dm with calls := dm.calls ++ [(dm.drivers i, driver_call.shutdown)] }
        let shifted := unregister_shift dm1.driverCount (dm1.driverCount - 1 - i) dm1.drivers i
        { dm1 with
          drivers := fun x => if x = dm1.driverCount - 1 then 0 else shifted x
          driverCount := dm1.driverCount - 1 }
      else unregister_loop id fuel dm (i + 1)
    else dm

/-- The method `unregisterDriver`. -/
def DriverManager.unregisterDriver (dm : DriverManager) (id : Nat) : DriverManager :=
  unregister_loop id dm.driverCount dm 0

/-- The loop of `getDriverByIRQ` from index `i` on. -/
def getDriverByIRQ_loop (dm : DriverManager) (irq : Nat) : Nat → Nat → Nat
  | 0, _ => 0
  | fuel + 1, i =>
    if i < dm.driverCount then
      if dm.drivers i ≠ 0 ∧ (dm.objs (dm.drivers i)).irq = irq then dm.drivers i
      else getDriverByIRQ_loop dm irq fuel (i + 1)
    else 0

/-- The method `getDriverByIRQ`: the pointer found, `0` for `nullptr`. -/
def DriverManager.getDriverByIRQ (dm : DriverManager) (irq : Nat) : Nat :=
  getDriverByIRQ_loop dm irq dm.driverCount 0

/-- The loop of `shutdownAll` from index `i` on: the call log afterwards. -/
def shutdownAll_loop (dm : DriverManager) :
    Nat → Nat → List (Nat × driver_call) → List (Nat × driver_call)
  | 0, _, calls => calls
  | fuel + 1, i, calls =>
    if i < dm.driverCount then
      shutdownAll_loop dm fuel (i + 1)
        (if dm.drivers i ≠ 0 then calls ++ [(dm.drivers i, driver_call.shutdown)] else calls)
    else calls

/-- The method `shutdownAll`. -/
def DriverManager.shutdownAll (dm : DriverManager) : DriverManager :=
  { dm with calls := shutdownAll_loop dm dm.driverCount 0 dm.calls, driverCount := 0 }

/-- The function `driver_manager_handle_irq` of the C interface. -/
def driver_manager_handle_irq (dm : DriverManager) (irq : Nat) : DriverManager :=
  let driver := dm.getDriverByIRQ irq
  if driver ≠ 0 then
    { dm with calls := dm.calls ++ [(driver, driver_call.handleInterrupt)] }
  else dm

/-- Registry states reachable from the constructor through the methods that write the
registry and through `driver_manager_handle_irq`. -/
inductive DriverReach : DriverManager → Prop
  | create (objs : Nat → Driver) : DriverReach (DriverManager.create objs)
  | register {dm : DriverManager} (driver : Nat) (init_result : Bool) (dm' : DriverManager)
      (r : Bool) : DriverReach dm → dm.registerDriver driver init_result = some (dm', r) →
      DriverReach dm'
  | unregister {dm : DriverManager} (id : Nat) : DriverReach dm →
      DriverReach (dm.unregisterDriver id)
  | shutdownAll {dm : DriverManager} : DriverReach dm → DriverReach dm.shutdownAll
  | handle_irq {dm : DriverManager} (irq : Nat) : DriverReach dm →
      DriverReach (driver_manager_handle_irq dm irq)

/-- Index `i` holds a registered driver with identifier `id`. -/
def HasId (dm : DriverManager) (id i : Nat) : Prop :=
  dm.drivers i ≠ 0 ∧ (dm.objs (dm.drivers i)).id = id

/-- A registry with the RTC driver (identifier 4, interrupt line 8) at address `0x1000`. -/
def rtc_registry : DriverManager :=
  (((DriverManager.create fun _ => { id := 4, irq := 8 }).registerDriver 0x1000 true).getD
    (DriverManager.create fun _ => { id := 4, irq := 8 }, false)).1

/-- A registry with three drivers: identifiers 1, 2, 1 at `0x1000`, `0x2000`, `0x3000`. -/
def three_drivers : DriverManager :=
  { objs := fun a => if a = 0x2000 then { id := 2, irq := 14 } else { id := 1, irq := 1 }
    drivers := fun i => if i = 0 then 0x1000 else if i = 1 then 0x2000
      else if i = 2 then 0x3000 else 0
    driverCount := 3
    calls := [] }

/-! ## Real-time clock (`driver_manager.cpp` lines 397-464) -/

/-- The method `RTCDriver::readRegister`: `cmos reg` is the byte that `inb(0x71)` delivers
after `outb(0x70, reg)` selected register `reg`; the result is a `uint8_t`. -/
def readRegister (cmos : Nat → Nat) (reg : Nat) : Nat := cmos reg % 256

/-- The method `RTCDriver::bcdToBinary` on a `uint8_t` argument, with its `uint8_t` result. -/
def bcdToBinary (bcd : Nat) : Nat := (((bcd >>> 4) * 10) + (bcd &&& 0x0F)) % 256

/-- The record `RTCDriver::DateTime`. -/
structure DateTime where
  second : Nat
  minute : Nat
  hour : Nat
  day : Nat
  month : Nat
  year : Nat

/-- The loop `while (readRegister(0x0A) & 0x80);` of `getDateTime`: `status i` is what the
`i`-th read of register `0x0A` delivers; the result is the number of reads made, `none` when
the fuel runs out before a read has bit 7 clear. -/
def rtc_wait (status : Nat → Nat) : Nat → Nat → Option Nat
  | 0, _ => none
  | fuel + 1, i =>
    if readRegister status i &&& 0x80 ≠ 0 then rtc_wait status fuel (i + 1) else some (i + 1)

/-- The method `RTCDriver::getDateTime`; `cmos` is the content of the clock registers when
they are read after the wait. -/
def getDateTime (fuel : Nat) (status cmos : Nat → Nat) : Option DateTime :=
  match rtc_wait status fuel 0 with
  | none => none
  | some _ =>
    some
      { second := bcdToBinary (readRegister cmos 0x00)
        minute := bcdToBinary (readRegister cmos 0x02)
        hour := bcdToBinary (readRegister cmos 0x04)
        day := bcdToBinary (readRegister cmos 0x07)
        month := bcdToBinary (readRegister cmos 0x08)
        year := (bcdToBinary (readRegister cmos 0x09) + 2000) % 65536 }

/-- The packed-BCD byte of a number below 100: tens in the high nibble, units in the low. -/
def bcd_encode (n : Nat) : Nat := ((n / 10) <<< 4) ||| (n % 10)

/-! ## Further states and properties the theorems speak about -/

/-- A frame allocator with every one of its 32768 frames allocated. -/
def full_frames : page_frame_allocator_t :=
  { bitmap := 0x400018, words := fun _ => 0xFFFFFFFF, total_frames := 32768,
    used_frames := 32768, free_frames := 0, first_free := 32768 }

/-- The successor in the walk of `schedule`: `p->next`, or `process_list[0]` when that is
null. -/
def sched_succ (k : Kernel) (p : Nat) : Nat :=
  if (k.procs p).next = 0 then k.process_list 0 else (k.procs p).next

/-- The `i`-th process the walk of `schedule` meets after `current_process`. -/
def sched_walk (k : Kernel) : Nat → Nat
  | 0 => sched_succ k k.current_process
  | i + 1 => sched_succ k (sched_walk k i)

/-- Process `p` is in state `READY` or `RUNNING`. -/
def Runnable (k : Kernel) (p : Nat) : Prop :=
  (k.procs p).state = PROC_STATE_READY ∨ (k.procs p).state = PROC_STATE_RUNNING

/-- The kernel after `schedule` switched from `current_process` to `next`. -/
def switched_to (k : Kernel) (next : Nat) : Kernel :=
  let prev := k.current_process
  let p1 := if (k.procs prev).state = PROC_STATE_RUNNING then
      setProc k.procs prev fun p => { p with state := PROC_STATE_READY }
    else k.procs
  let p2 := setProc p1 next fun p => { p with state := PROC_STATE_RUNNING }
  let p3 := setProc p2 next fun p => { p with quantum := QUANTUM_MS }
  { k with
    context_switches := (k.context_switches + 1) % W64, procs := p3, current_process := next }

/-- A process table with null-terminated chains where `current_process` (at `0x3000`,
`RUNNING`, `next` null) is not on the chain of `process_list[0]`, which holds the single
`BLOCKED` process at `0x1000`. -/
def off_chain : Kernel :=
  { boot_kernel with
    procs := fun a =>
      if a = 0x1000 then { zero_process with pid := 1, state := PROC_STATE_BLOCKED }
      else if a = 0x3000 then { zero_process with pid := 2, state := PROC_STATE_RUNNING }
      else zero_process
    process_list := fun i => if i = 0 then 0x1000 else 0
    current_process := 0x3000 }

/-- A process table with null-terminated chains: `current_process` (at `0x3000`,
`TERMINATED`) links to the chain `0x1000 -> 0x2000 -> NULL` of `process_list[0]`, whose two
processes are `BLOCKED` and `ZOMBIE`; no link leads back to `0x3000`. -/
def off_chain_exited : Kernel :=
  { boot_kernel with
    procs := fun a =>
      if a = 0x1000 then
        { zero_process with pid := 1, state := PROC_STATE_BLOCKED, next := 0x2000 }
      else if a = 0x2000 then { zero_process with pid := 2, state := PROC_STATE_ZOMBIE }
      else if a = 0x3000 then
        { zero_process with pid := 3, state := PROC_STATE_TERMINATED, next := 0x1000 }
      else zero_process
    process_list := fun i => if i = 0 then 0x1000 else 0
    current_process := 0x3000 }

/-- Address `a` lies in the byte range `[b, b + size)` of block `b`, with addresses taken
modulo `2 ^ 32` as the machine does. -/
def InBlock (h : Heap) (b a : Nat) : Prop :=
  (a + W32 - b) % W32 < (h.mem b).size

/-- The block reached from block `c` by `i` steps along `next`. -/
def nth_from (m : Nat → memory_block_t) : Nat → Nat → Nat
  | c, 0 => c
  | c, i + 1 => nth_from m (m c).next i

/-- The `i`-th block of the list (`0` past its end). -/
def nth_block (h : Heap) (i : Nat) : Nat := nth_from h.mem h.memory_blocks_head i

/-- Lines 653-659 of `timer_handler` for a non-null `current_process`: the kernel at the
moment the test `--current_process->quantum == 0` is made (tick counters, `cpu_time` and the
quantum already updated). -/
def timer_count (k : Kernel) : Kernel :=
  let ticks := (k.system_ticks + 1) % W64
  let k1 := { k with
    system_ticks := ticks
    system_time_ms := (ticks * 10) % W64
    interrupts_handled := (k.interrupts_handled + 1) % W64 }
  let cur := k1.current_process
  let p1 := setProc k1.procs cur fun p => { p with cpu_time := (p.cpu_time + 1) % W64 }
  let p2 := setProc p1 cur fun p => { p with quantum := (p.quantum + W32 - 1) % W32 }
  { k1 with procs := p2 }

/-- The `i`-th process of the chain that starts at `process_list[0]` and follows `next`
links; it is read up to the first null link only. -/
def list_chain (k : Kernel) : Nat → Nat
  | 0 => k.process_list 0
  | i + 1 => (k.procs (list_chain k i)).next

/-- The chain that starts at `process_list[0]` is finite and null-terminated, and
`current_process` is on it: the chain has `L` processes, the `next` link of the last one is
null, and `current_process` is its `m`-th process. -/
structure OnChain (k : Kernel) (L m : Nat) : Prop where
  nonnull : ∀ i, i < L → list_chain k i ≠ 0
  ends : list_chain k L = 0
  pos : m < L
  cur : list_chain k m = k.current_process

/-- The search loop of `schedule` leaves at step `n` of the walk at the latest: the `n`-th
process of the walk is null (an empty `process_list[0]`), or `READY` or `RUNNING`, or the
step after it leads back to `current_process`. -/
def WalkStops (k : Kernel) (n : Nat) : Prop :=
  sched_walk k n = 0 ∨ Runnable k (sched_walk k n) ∨ sched_walk k (n + 1) = k.current_process

/-- A process table with the chain `0x1000 -> 0x2000 -> NULL` of `process_list[0]`: the
process at `0x1000` is `READY`, the one at `0x2000` is current and `RUNNING`. -/
def chain_kernel : Kernel :=
  { boot_kernel with
    procs := fun a =>
      if a = 0x1000 then
        { zero_process with pid := 1, state := PROC_STATE_READY, next := 0x2000 }
      else if a = 0x2000 then { zero_process with pid := 2, state := PROC_STATE_RUNNING }
      else zero_process
    process_list := fun i => if i = 0 then 0x1000 else if i = 1 then 0x2000 else 0
    current_process := 0x2000 }

/-! # Theorems -/

/-! ## Fuel -/

/-- More fuel never changes a result of the scan of `kmalloc_aligned`. -/
theorem kmalloc_scan_fuel (need : Nat) (h : Heap) :
    ∀ (fuel extra block prev : Nat) (r : Heap × Nat),
      kmalloc_scan need fuel h block prev = some r →
      kmalloc_scan need (fuel + extra) h block prev = some r := by
  intro fuel
  induction fuel with
  | zero => intro extra block prev r hr; simp [kmalloc_scan] at hr
  | succ fuel ih =>
    intro extra block prev r hr
    rw [Nat.add_right_comm]
    unfold kmalloc_scan at hr ⊢
    split_ifs at hr ⊢ with h1 h2
    · exact hr
    · exact hr
    · exact ih extra _ _ r hr

/-- More fuel never changes a result of the search of `schedule`. -/
theorem schedule_search_fuel (k : Kernel) :
    ∀ (fuel extra next r : Nat),
      schedule_search k fuel next = some r →
      schedule_search k (fuel + extra) next = some r := by
  intro fuel
  induction fuel with
  | zero => intro extra next r hr; simp [schedule_search] at hr
  | succ fuel ih =>
    intro extra next r hr
    rw [Nat.add_right_comm]
    unfold schedule_search at hr ⊢
    simp only at hr ⊢
    split_ifs at hr ⊢ <;> first | exact hr | exact ih extra _ r hr

/-! ## Heap: concrete runs -/

theorem block_need_page : block_need 4096 4096 = 4120 := by decide

theorem block_need_100 : block_need 100 16 = 136 := by decide

theorem block_need_huge : block_need 0xFFFFFFF0 16 = 8 := by decide

/-- C1 (code defect). `kmalloc_aligned` rounds the size, not the address: on the fresh heap
`kmalloc_aligned(4096, 4096)` returns `0x400018`, 24 bytes past a page boundary, `kmalloc(100)`
returns the same address, 8 bytes past a 16-byte boundary, and the page directory that
`init_paging` obtains is `0x401030`, 48 bytes past a page boundary. -/
theorem kmalloc_aligned_returns_misaligned (h0 : Heap) (fuel : Nat) :
    (kmalloc_aligned (fuel + 1) (init_memory h0) 4096 4096).map Prod.snd = some 0x400018 ∧
    0x400018 % 4096 = 24 ∧
    (kmalloc (fuel + 1) (init_memory h0) 100).map Prod.snd = some 0x400018 ∧
    0x400018 % 16 = 8 ∧
    (init_paging (fuel + 2) { boot_kernel with heap := init_memory boot_heap }).map
      Kernel.page_directory = some 0x401030 ∧
    0x401030 % 4096 = 48 := by
  refine ⟨?_, by norm_num, ?_, by norm_num, rfl, by norm_num⟩
  · simp [kmalloc_aligned, kmalloc_scan, init_memory, kmalloc_bump, block_need_page,
      HEAP_SIZE, HEAP_START, W32, setBlock, sizeof_memory_block_t]
  · simp [kmalloc, kmalloc_aligned, kmalloc_scan, init_memory, kmalloc_bump, block_need_100,
      HEAP_SIZE, HEAP_START, W32, setBlock, sizeof_memory_block_t]

/-- C2 (counterexample). On the fresh heap `kmalloc(16)` bump-allocates the block at
`0x400000`; after `kfree` of the returned pointer the list head is still that block and
`total_allocated` is still 40, not the empty list and 0 of before. -/
theorem kfree_kmalloc_not_restored :
    kmalloc 1 (init_memory boot_heap) 16 = some (scen_h1, 0x400018) ∧
    (init_memory boot_heap).memory_blocks_head = 0 ∧
    (init_memory boot_heap).total_allocated = 0 ∧
    (kfree scen_h1 0x400018).memory_blocks_head = 0x400000 ∧
    (kfree scen_h1 0x400018).total_allocated = 40 := by
  refine ⟨rfl, rfl, rfl, rfl, rfl⟩

/-- C3 (code defect). A reachable heap with two distinct neighbouring free blocks:
`X = kmalloc(16); A = kmalloc(16); H = kmalloc(0xFFFFFFC0); kfree(X); kfree(H);
kmalloc(0xFFFFFFC0)`. The request wraps to a need of `0xFFFFFFD8`, the split of `H` places
its remainder header at `H + 0xFFFFFFD8 = A` (mod `2 ^ 32`) and marks `A` free next to the
free `X`. -/
theorem adjacent_free_reachable : ∃ live, HeapReach scen_h6 live ∧ AdjacentFree scen_h6 := by
  have r0 : HeapReach (init_memory boot_heap) ∅ := HeapReachWith.init _
  have r1 := HeapReachWith.alloc 8 16 4 scen_h1 0x400018 r0
    (by decide) (by decide) trivial rfl
  have r2 := HeapReachWith.alloc 8 16 4 scen_h2 0x400040 r1
    (by decide) (by decide) trivial rfl
  have r3 := HeapReachWith.alloc 8 0xFFFFFFC0 4 scen_h3 0x400068 r2
    (by decide) (by decide) trivial rfl
  have r4 := HeapReachWith.free 0x400018 r3 (by simp)
  have r5 := HeapReachWith.free 0x400068 r4 (by simp)
  have r6 := HeapReachWith.alloc 8 0xFFFFFFC0 4 scen_h6 0x400068 r5
    (by decide) (by decide) trivial rfl
  exact ⟨_, r6, 0x400000, InList.head (by decide), by decide, by decide, by decide, by decide⟩

/-- C4 (counterexample). After `X = kmalloc(16); A = kmalloc(16); kfree(X)`, the pointer
`A` is live; `kfree(A)` merges `A` into `X` (size 80), and a second `kfree(A)` is not
ignored: it adds the stale size of `A` to `X` again (size 120). -/
theorem double_free_changes_list :
    ∃ live, HeapReach scen_g3 live ∧ 0x400040 ∈ live ∧
      InList (kfree scen_g3 0x400040) 0x400000 ∧
      ((kfree scen_g3 0x400040).mem 0x400000).size = 80 ∧
      ((kfree (kfree scen_g3 0x400040) 0x400040).mem 0x400000).size = 120 := by
  have r0 : HeapReach (init_memory boot_heap) ∅ := HeapReachWith.init _
  have r1 := HeapReachWith.alloc 8 16 4 scen_h1 0x400018 r0
    (by decide) (by decide) trivial rfl
  have r2 := HeapReachWith.alloc 8 16 4 scen_h2 0x400040 r1
    (by decide) (by decide) trivial rfl
  have r3 := HeapReachWith.free 0x400018 r2 (by simp)
  exact ⟨_, r3, by simp, InList.head (by decide), rfl, rfl⟩

/-- C5 (code defect). On the fresh heap `kmalloc(0xFFFFFFF0)`, a request far above
`HEAP_SIZE`, does not return `NULL`: the rounded size plus the header wraps to 8, the bump
check passes, and the call returns `0x400018`, links a block at `0x400000` and sets
`total_allocated` to 8. -/
theorem kmalloc_huge_not_null (h0 : Heap) (fuel : Nat) :
    (kmalloc (fuel + 1) (init_memory h0) 0xFFFFFFF0).map
      (fun r => (r.2, r.1.total_allocated, r.1.memory_blocks_head)) =
      some (0x400018, 8, 0x400000) ∧ HEAP_SIZE < 0xFFFFFFF0 ∧ 0xFFFFFFF0 < W32 := by
  refine ⟨?_, by decide, by decide⟩
  simp [kmalloc, kmalloc_aligned, kmalloc_scan, init_memory, kmalloc_bump, block_need_huge,
    HEAP_SIZE, HEAP_START, W32, setBlock, sizeof_memory_block_t]

/-! ## Scheduler and timer -/

theorem dec32 (q : Nat) (h1 : 1 ≤ q) (h2 : q < W32) : (q + W32 - 1) % W32 = q - 1 := by
  unfold W32 at *
  omega

theorem tick_keeps (fuel : Nat) (k : Kernel) (A B r cs : Nat) (hA : A ≠ 0) (hr : 2 ≤ r)
    (hr2 : r < W32) (h : TickInv k A B r cs) :
    ∃ k', irq_handler fuel k 32 0 = some k' ∧ TickInv k' A B (r - 1) cs := by
  obtain ⟨cur, stA, qA, nxt, stB, hcs⟩ := h
  have hAB : B ≠ A := by
    intro e; rw [e, stA] at stB; cases stB
  have hq : (r + W32 - 1) % W32 = r - 1 := dec32 r (by omega) hr2
  have hne : r - 1 ≠ 0 := by omega
  have e : irq_handler fuel k 32 0 = some (outb
      { k with
        system_ticks := (k.system_ticks + 1) % W64
        system_time_ms := ((k.system_ticks + 1) % W64 * 10) % W64
        interrupts_handled := (k.interrupts_handled + 1) % W64
        procs := setProc
          (setProc k.procs A fun p => { p with cpu_time := (p.cpu_time + 1) % W64 })
          A fun p => { p with quantum := (p.quantum + W32 - 1) % W32 } } 0x20 0x20) := by
    simp [irq_handler, timer_handler, cur, hA, setProc, qA, hq, hne]
  refine ⟨_, e, ?_⟩
  constructor <;> simp [outb, setProc, cur, hAB, stA, qA, nxt, stB, hcs, hq]

theorem tick_switches (fuel : Nat) (k : Kernel) (A B cs : Nat) (hA : A ≠ 0) (hB : B ≠ 0)
    (h : TickInv k A B 1 cs) :
    ∃ k', irq_handler (fuel + 1) k 32 0 = some k' ∧ k'.current_process = B ∧
      (k'.procs A).state = PROC_STATE_READY ∧ (k'.procs B).state = PROC_STATE_RUNNING ∧
      k'.context_switches = (cs + 1) % W64 := by
  obtain ⟨cur, stA, qA, nxt, stB, hcs⟩ := h
  have hAB : B ≠ A := by
    intro e; rw [e, stA] at stB; cases stB
  have hq : (1 + W32 - 1) % W32 = 0 := by decide
  simp [irq_handler, timer_handler, cur, hA, setProc, qA, hq, schedule, nxt, hB,
    schedule_search, stB, hAB, stA, outb, hAB.symm, hcs]

theorem ticks_keep (fuel A B cs : Nat) (hA : A ≠ 0) :
    ∀ (j : Nat) (k : Kernel) (r : Nat), TickInv k A B r cs → j < r → r < W32 →
      ∃ kj, timer_ticks fuel j k = some kj ∧ TickInv kj A B (r - j) cs := by
  intro j
  induction j with
  | zero => intro k r h _ _; exact ⟨k, rfl, h⟩
  | succ j ih =>
    intro k r h hj hr
    obtain ⟨k1, e1, h1⟩ := tick_keeps fuel k A B r cs hA (by omega) hr h
    obtain ⟨kj, ej, hj2⟩ := ih k1 (r - 1) h1 (by omega) (by omega)
    refine ⟨kj, ?_, ?_⟩
    · simp [timer_ticks, e1, ej]
    · have : r - (j + 1) = r - 1 - j := by omega
      rw [this]; exact hj2

theorem ticks_switch (fuel A B cs : Nat) (hA : A ≠ 0) (hB : B ≠ 0) :
    ∀ (r : Nat) (k : Kernel), TickInv k A B r cs → 1 ≤ r → r < W32 →
      ∃ kq, timer_ticks (fuel + 1) r k = some kq ∧ kq.current_process = B ∧
        (kq.procs A).state = PROC_STATE_READY ∧ (kq.procs B).state = PROC_STATE_RUNNING ∧
        kq.context_switches = (cs + 1) % W64 := by
  intro r
  induction r with
  | zero => intro k _ h0; omega
  | succ r ih =>
    intro k h h1 hr
    by_cases hr1 : r = 0
    · subst hr1
      obtain ⟨k1, e1, h2⟩ := tick_switches fuel k A B cs hA hB h
      exact ⟨k1, by simp [timer_ticks, e1], h2⟩
    · obtain ⟨k1, e1, h2⟩ := tick_keeps (fuel + 1) k A B (r + 1) cs hA (by omega) hr h
      obtain ⟨kq, eq, h3⟩ := ih k1 h2 (by omega) (by omega)
      exact ⟨kq, by simp [timer_ticks, e1, eq], h3⟩

/-- C8. Timer preemption: with `current = A` (`RUNNING`, quantum `q ≥ 1`) whose `next` is
`B` (`READY`), after each of the first `q - 1` timer interrupts `current` is still `A`,
and after the `q`-th `current = B`, `A` is `READY`, `B` is `RUNNING` and
`context_switches` has grown by exactly one (as a `u64`). -/
theorem timer_preemption (fuel : Nat) (k : Kernel) (A B q : Nat)
    (hcur : k.current_process = A) (hA : A ≠ 0)
    (hst : (k.procs A).state = PROC_STATE_RUNNING) (hq : (k.procs A).quantum = q)
    (hq1 : 1 ≤ q) (hq2 : q < W32) (hn : (k.procs A).next = B) (hB : B ≠ 0)
    (hstB : (k.procs B).state = PROC_STATE_READY) :
    (∀ j, j < q → ∃ kj, timer_ticks (fuel + 1) j k = some kj ∧ kj.current_process = A) ∧
    ∃ kq, timer_ticks (fuel + 1) q k = some kq ∧ kq.current_process = B ∧
      (kq.procs A).state = PROC_STATE_READY ∧ (kq.procs B).state = PROC_STATE_RUNNING ∧
      kq.context_switches = (k.context_switches + 1) % W64 := by
  have inv : TickInv k A B q k.context_switches := ⟨hcur, hst, hq, hn, hstB, rfl⟩
  constructor
  · intro j hj
    obtain ⟨kj, e, h⟩ := ticks_keep (fuel + 1) A B _ hA j k q inv hj hq2
    exact ⟨kj, e, h.cur⟩
  · exact ticks_switch fuel A B _ hA hB q k inv hq1 hq2

/-- C8, the scenario of the specification: quantum 2, two timer interrupts. -/
theorem timer_preemption_witness :
    (∀ j, j < 2 → ∃ kj, timer_ticks 1 j (two_procs 2) = some kj ∧
      kj.current_process = 0x1000) ∧
    ∃ kq, timer_ticks 1 2 (two_procs 2) = some kq ∧ kq.current_process = 0x2000 ∧
      (kq.procs 0x1000).state = PROC_STATE_READY ∧
      (kq.procs 0x2000).state = PROC_STATE_RUNNING ∧
      kq.context_switches = ((two_procs 2).context_switches + 1) % W64 :=
  timer_preemption 0 (two_procs 2) 0x1000 0x2000 2 rfl (by decide) rfl rfl (by decide)
    (by decide) rfl (by decide) rfl

/-- C9 (code defect). `schedule` resets the incoming quantum to `QUANTUM_MS = 20`, and
`timer_handler` takes one off per 10 ms tick: the process switched in by the first tick
has quantum 20, and two ticks later it is still current with quantum 18. -/
theorem quantum_is_twenty_ticks :
    QUANTUM_MS = 20 ∧
    (timer_ticks 1 1 (two_procs 1)).map
      (fun k => (k.current_process, (k.procs 0x2000).quantum)) = some (0x2000, 20) ∧
    (timer_ticks 1 3 (two_procs 1)).map
      (fun k => (k.current_process, (k.procs 0x2000).quantum)) = some (0x2000, 18) := by
  refine ⟨rfl, rfl, rfl⟩

/-- C10 (counterexample). After `init_tasking`, an `exit` system call by the idle process
leaves it current and `TERMINATED`: no process is `RUNNING`. -/
theorem exit_leaves_no_running : TaskReach exited_kernel ∧ ¬ OneRunning exited_kernel := by
  constructor
  · have r0 : TaskReach idle_kernel :=
      TaskReachWith.init 1 { boot_kernel with heap := init_memory boot_heap } _
        (fun _ => rfl) rfl
    exact TaskReachWith.syscall 1 1 0 0 0 0 _ 0 r0 trivial (by decide) (by decide) rfl
  · intro h
    have := h.2.2.1
    revert this
    decide


/-! ## Page-frame allocator -/

theorem and_two_pow_ne_zero (x c : Nat) : x &&& 2 ^ c ≠ 0 ↔ x.testBit c = true := by
  constructor
  · intro h
    obtain ⟨i, hi⟩ := Nat.ne_zero_implies_bit_true h
    rw [Nat.testBit_and, Nat.testBit_two_pow] at hi
    simp only [Bool.and_eq_true, decide_eq_true_eq] at hi
    rw [hi.2]; exact hi.1
  · intro h e
    have : (x &&& 2 ^ c).testBit c = true := by
      rw [Nat.testBit_and, h, Nat.testBit_two_pow_self]; rfl
    rw [e, Nat.zero_testBit] at this
    cases this

theorem frame_bit_ne_zero (fa : page_frame_allocator_t) (i : Nat) :
    frame_bit fa i ≠ 0 ↔ (fa.words (i / 32)).testBit (i % 32) = true := by
  unfold frame_bit
  rw [Nat.one_shiftLeft]
  exact and_two_pow_ne_zero _ _

theorem frame_bit_take (fa : page_frame_allocator_t) (i j : Nat) :
    frame_bit (take_frame fa i) j ≠ 0 ↔ (j = i ∨ frame_bit fa j ≠ 0) := by
  rw [frame_bit_ne_zero, frame_bit_ne_zero]
  simp only [take_frame]
  by_cases hw : j / 32 = i / 32
  · rw [if_pos hw, Nat.testBit_or, Nat.one_shiftLeft, Nat.testBit_two_pow, hw]
    simp only [Bool.or_eq_true, decide_eq_true_eq]
    constructor
    · rintro (h | h)
      · exact Or.inr h
      · exact Or.inl (by omega)
    · rintro (h | h)
      · exact Or.inr (by rw [h])
      · exact Or.inl h
  · rw [if_neg hw]
    constructor
    · intro h; exact Or.inr h
    · rintro (h | h)
      · exact absurd (by rw [h]) hw
      · exact h

theorem frame_bit_release (fa : page_frame_allocator_t) (i j : Nat) :
    frame_bit (release_frame fa i) j ≠ 0 ↔ (j ≠ i ∧ frame_bit fa j ≠ 0) := by
  rw [frame_bit_ne_zero, frame_bit_ne_zero]
  simp only [release_frame]
  have h32 : j % 32 < 32 := Nat.mod_lt _ (by decide)
  by_cases hw : j / 32 = i / 32
  · rw [if_pos hw, Nat.testBit_and, Nat.testBit_xor, Nat.one_shiftLeft, Nat.testBit_two_pow, hw]
    have : (W32 - 1).testBit (j % 32) = true := by
      unfold W32
      rw [Nat.testBit_two_pow_sub_one]
      exact decide_eq_true h32
    rw [this]
    by_cases hb : i % 32 = j % 32
    · have : j = i := by omega
      simp [hb, this]
    · have : j ≠ i := by intro e; rw [e] at hb; exact hb rfl
      simp [hb, this]
  · rw [if_neg hw]
    have : j ≠ i := by intro e; rw [e] at hw; exact hw rfl
    simp [this]

theorem countP_range_flip (p q : Nat → Bool) (i : Nat) (hq : q i = true) (hp : p i = false)
    (hpq : ∀ j, j ≠ i → q j = p j) :
    ∀ n, (List.range n).countP q = (List.range n).countP p + if i < n then 1 else 0 := by
  intro n
  induction n with
  | zero => simp
  | succ n ih =>
    rw [List.range_succ, List.countP_append, List.countP_append, ih,
      List.countP_singleton, List.countP_singleton]
    by_cases hin : n = i
    · subst hin
      simp [hq, hp]
    · rw [hpq n hin]
      by_cases hlt : i < n
      · have : i < n + 1 := by omega
        simp [hlt, this]; omega
      · have : ¬ i < n + 1 := by omega
        simp [hlt, this]

theorem popcount_take (fa : page_frame_allocator_t) (i : Nat) (hi : i < fa.total_frames)
    (hc : frame_bit fa i = 0) : popcount (take_frame fa i) = popcount fa + 1 := by
  have h := countP_range_flip (fun j => decide (frame_bit fa j ≠ 0))
    (fun j => decide (frame_bit (take_frame fa i) j ≠ 0)) i
    (by simpa using (frame_bit_take fa i i).2 (Or.inl rfl))
    (by simp [hc])
    (by
      intro j hj
      have := frame_bit_take fa i j
      simp only [hj, false_or] at this
      exact decide_eq_decide.2 this)
    fa.total_frames
  rw [if_pos hi] at h
  exact h

theorem popcount_release (fa : page_frame_allocator_t) (i : Nat) (hi : i < fa.total_frames)
    (hc : frame_bit fa i ≠ 0) : popcount fa = popcount (release_frame fa i) + 1 := by
  have h := countP_range_flip (fun j => decide (frame_bit (release_frame fa i) j ≠ 0))
    (fun j => decide (frame_bit fa j ≠ 0)) i
    (by simpa using hc)
    (by
      have := (frame_bit_release fa i i)
      simp only [ne_eq, not_true_eq_false, false_and, iff_false, not_not] at this
      simp [this])
    (by
      intro j hj
      have := frame_bit_release fa i j
      simp only [ne_eq, hj, not_false_eq_true, true_and] at this
      exact (decide_eq_decide.2 this).symm)
    fa.total_frames
  rw [if_pos hi] at h
  exact h




theorem popcount_le (fa : page_frame_allocator_t) : popcount fa ≤ fa.total_frames := by
  unfold popcount
  calc List.countP _ (List.range fa.total_frames) ≤ (List.range fa.total_frames).length :=
        List.countP_le_length _
    _ = fa.total_frames := List.length_range _

theorem alloc_frame_loop_spec (fa : page_frame_allocator_t) :
    ∀ fuel i,
      (alloc_frame_loop fa fuel i = (fa, 0) ∧
        ∀ x, i ≤ x → x < i + fuel → x < fa.total_frames → frame_bit fa x ≠ 0) ∨
      ∃ j, i ≤ j ∧ j < i + fuel ∧ j < fa.total_frames ∧ frame_bit fa j = 0 ∧
        (∀ x, i ≤ x → x < j → frame_bit fa x ≠ 0) ∧
        alloc_frame_loop fa fuel i = (take_frame fa j, (j * PAGE_SIZE) % W32) := by
  intro fuel
  induction fuel with
  | zero =>
    intro i
    left
    exact ⟨rfl, fun x h1 h2 => by omega⟩
  | succ fuel ih =>
    intro i
    by_cases hlt : i < fa.total_frames
    · by_cases hb : frame_bit fa i = 0
      · right
        refine ⟨i, le_rfl, by omega, hlt, hb, fun x h1 h2 => by omega, ?_⟩
        simp [alloc_frame_loop, hlt, hb]
      · have e : alloc_frame_loop fa (fuel + 1) i = alloc_frame_loop fa fuel (i + 1) := by
          simp [alloc_frame_loop, hlt, hb]
        rcases ih (i + 1) with ⟨h1, h2⟩ | ⟨j, h1, h2, h3, h4, h5, h6⟩
        · left
          refine ⟨by rw [e, h1], fun x hx1 hx2 hx3 => ?_⟩
          by_cases hxi : x = i
          · rw [hxi]; exact hb
          · exact h2 x (by omega) (by omega) hx3
        · right
          refine ⟨j, by omega, by omega, h3, h4, fun x hx1 hx2 => ?_, by rw [e, h6]⟩
          by_cases hxi : x = i
          · rw [hxi]; exact hb
          · exact h5 x (by omega) hx2
    · left
      refine ⟨by simp [alloc_frame_loop, hlt], fun x h1 h2 h3 => by omega⟩

theorem alloc_frame_spec (fa : page_frame_allocator_t) :
    (alloc_frame fa = (fa, 0) ∧
      ∀ x, fa.first_free ≤ x → x < fa.total_frames → frame_bit fa x ≠ 0) ∨
    ∃ j, fa.first_free ≤ j ∧ j < fa.total_frames ∧ frame_bit fa j = 0 ∧
      (∀ x, fa.first_free ≤ x → x < j → frame_bit fa x ≠ 0) ∧
      alloc_frame fa = (take_frame fa j, (j * PAGE_SIZE) % W32) := by
  rcases alloc_frame_loop_spec fa (fa.total_frames - fa.first_free) fa.first_free with
    ⟨h1, h2⟩ | ⟨j, h1, h2, h3, h4, h5, h6⟩
  · left
    exact ⟨h1, fun x hx1 hx2 => h2 x hx1 (by omega) hx2⟩
  · right
    exact ⟨j, h1, h3, h4, h5, h6⟩

theorem frameInv_take (fa : page_frame_allocator_t) (inv : FrameInv fa) (j : Nat)
    (hj : j < fa.total_frames) (hc : frame_bit fa j = 0)
    (hlow : ∀ x, fa.first_free ≤ x → x < j → frame_bit fa x ≠ 0) :
    FrameInv (take_frame fa j) ∧ (take_frame fa j).used_frames = fa.used_frames + 1 ∧
      (take_frame fa j).free_frames + 1 = fa.free_frames ∧
      (take_frame fa j).first_free = j + 1 := by
  have hpc := popcount_take fa j hj hc
  have hle := popcount_le (take_frame fa j)
  have ht := inv.total
  have hcnt := inv.count
  have hsum := inv.sum
  have htt : (take_frame fa j).total_frames = fa.total_frames := rfl
  have hu : (take_frame fa j).used_frames = fa.used_frames + 1 := by
    show (fa.used_frames + 1) % W32 = _
    unfold W32; omega
  have hf : (take_frame fa j).free_frames + 1 = fa.free_frames := by
    show (fa.free_frames + W32 - 1) % W32 + 1 = _
    unfold W32; omega
  have hff : (take_frame fa j).first_free = j + 1 := by
    show (j + 1) % W32 = _
    unfold W32; omega
  refine ⟨⟨ht, by rw [hpc, hu, hcnt], by rw [htt]; omega, ?_⟩, hu, hf, hff⟩
  intro i hi hci
  rw [hff]
  have hnot : ¬ (i = j ∨ frame_bit fa i ≠ 0) := fun h => ((frame_bit_take fa j i).2 h) hci
  have h1 : i ≠ j := fun e => hnot (Or.inl e)
  have h2 : frame_bit fa i = 0 := by
    by_contra e; exact hnot (Or.inr e)
  have h3 := inv.hint i hi h2
  by_contra hlt
  exact hlow i h3 (by omega) h2

theorem frameInv_release (fa : page_frame_allocator_t) (inv : FrameInv fa) (i : Nat)
    (hi : i < fa.total_frames) (hs : frame_bit fa i ≠ 0) : FrameInv (release_frame fa i) := by
  have hpc := popcount_release fa i hi hs
  have ht := inv.total
  have hcnt := inv.count
  have hsum := inv.sum
  have hu : (release_frame fa i).used_frames + 1 = fa.used_frames := by
    show (fa.used_frames + W32 - 1) % W32 + 1 = _
    unfold W32; omega
  have hf : (release_frame fa i).free_frames = fa.free_frames + 1 := by
    show (fa.free_frames + 1) % W32 = _
    unfold W32; omega
  have htt : (release_frame fa i).total_frames = fa.total_frames := rfl
  refine ⟨ht, by omega, by rw [htt]; omega, ?_⟩
  intro x hx hcx
  show (if i < fa.first_free then i else fa.first_free) ≤ x
  by_cases hxi : x = i
  · subst hxi; split <;> omega
  · have h2 : frame_bit fa x = 0 := by
      by_contra e; exact ((frame_bit_release fa i x).2 ⟨hxi, e⟩) hcx
    have := inv.hint x hx h2
    split <;> omega

theorem frameInv_init (fuel : Nat) (k0 k : Kernel) (h : init_paging fuel k0 = some k) :
    FrameInv k.frame_allocator := by
  unfold init_paging at h
  simp only at h
  split at h
  · cases h
  · split at h
    · cases h
    · split at h
      · cases h
      · split at h
        · cases h
        · injection h with h
          subst h
          have e1 : 128 * 1024 * 1024 / PAGE_SIZE = 32768 := by norm_num [PAGE_SIZE]
          have e2 : (128 * 1024 * 1024 / PAGE_SIZE + 31) % W32 / 32 = 1024 := by
            norm_num [PAGE_SIZE, W32]
          refine ⟨e1, ?_, ?_, fun i _ _ => Nat.zero_le _⟩
          · show popcount _ = 0
            unfold popcount
            rw [List.countP_eq_zero]
            intro i hi
            rw [List.mem_range] at hi
            have hi2 : i / 32 < 1024 := by
              have : i < 128 * 1024 * 1024 / PAGE_SIZE := hi
              rw [e1] at this; omega
            simp [frame_bit, e2, hi2]
          · show 0 + 128 * 1024 * 1024 / PAGE_SIZE = 128 * 1024 * 1024 / PAGE_SIZE
            omega

theorem frameReach_inv (fa : page_frame_allocator_t) (h : FrameReach fa) : FrameInv fa := by
  induction h with
  | init fuel k0 k hk => exact frameInv_init fuel k0 k hk
  | @alloc fa0 _ ih =>
    rcases alloc_frame_spec fa0 with ⟨h1, _⟩ | ⟨j, h1, h2, h3, h4, h5⟩
    · rw [h1]; exact ih
    · rw [h5]; exact (frameInv_take fa0 ih j h2 h3 h4).1
  | @free fa0 frame _ hf ih =>
    unfold free_frame
    simp only
    split
    · rename_i hs
      refine frameInv_release fa0 ih _ ?_ hs
      rw [ih.total]; unfold PAGE_SIZE; omega
    · exact ih

/-- C7. In every frame-allocator state reachable from `init_paging` through `alloc_frame`
and `free_frame` (frame addresses below 128 MiB), the number of set bits of the bitmap is
`used_frames`, and `used_frames + free_frames = total_frames = 32768`. -/
theorem frame_counts (fa : page_frame_allocator_t) (h : FrameReach fa) :
    popcount fa = fa.used_frames ∧ fa.used_frames + fa.free_frames = fa.total_frames ∧
      fa.total_frames = 32768 :=
  have inv := frameReach_inv fa h
  ⟨inv.count, inv.sum, inv.total⟩

/-- C7, on the state after `init_paging` and one `alloc_frame`. -/
theorem frame_counts_witness :
    popcount (alloc_frame boot_frames).1 = (alloc_frame boot_frames).1.used_frames ∧
      (alloc_frame boot_frames).1.used_frames + (alloc_frame boot_frames).1.free_frames
        = (alloc_frame boot_frames).1.total_frames ∧
      (alloc_frame boot_frames).1.total_frames = 32768 :=
  frame_counts (alloc_frame boot_frames).1
    (FrameReach.alloc
      (FrameReach.init 2 { boot_kernel with heap := init_memory boot_heap }
        ((init_paging 2 { boot_kernel with heap := init_memory boot_heap }).getD boot_kernel)
        rfl))

/-- C6. In every reachable frame-allocator state the hint `first_free` is at most the index
of every clear bit; and when `i` is the lowest clear bit of the bitmap, `alloc_frame`
returns `4096 * i`, sets exactly bit `i`, adds one to `used_frames`, takes one off
`free_frames` and sets `first_free` to `i + 1`. -/
theorem alloc_frame_lowest (fa : page_frame_allocator_t) (h : FrameReach fa) (i : Nat)
    (hi : i < fa.total_frames) (hc : frame_bit fa i = 0)
    (hmin : ∀ j, j < i → frame_bit fa j ≠ 0) :
    (∀ j, j < fa.total_frames → frame_bit fa j = 0 → fa.first_free ≤ j) ∧
    (alloc_frame fa).2 = 4096 * i ∧
    (∀ j, frame_bit (alloc_frame fa).1 j ≠ 0 ↔ (j = i ∨ frame_bit fa j ≠ 0)) ∧
    (alloc_frame fa).1.used_frames = fa.used_frames + 1 ∧
    (alloc_frame fa).1.free_frames + 1 = fa.free_frames ∧
    (alloc_frame fa).1.first_free = i + 1 := by
  have inv := frameReach_inv fa h
  have hff := inv.hint i hi hc
  rcases alloc_frame_spec fa with ⟨_, h2⟩ | ⟨j, h1, h2, h3, h4, h5⟩
  · exact absurd hc (h2 i hff hi)
  · have hji : j = i := by
      have a : ¬ j < i := fun hlt => hmin j hlt h3
      have b : ¬ i < j := fun hlt => h4 i hff hlt hc
      omega
    subst hji
    obtain ⟨_, hu, hf, hfirst⟩ := frameInv_take fa inv j h2 h3 h4
    rw [h5]
    refine ⟨inv.hint, ?_, fun x => frame_bit_take fa j x, hu, hf, hfirst⟩
    have := inv.total
    show j * PAGE_SIZE % W32 = 4096 * j
    unfold PAGE_SIZE W32
    omega

/-- C6, on the state right after `init_paging`: the first `alloc_frame` hands out frame 0. -/
theorem alloc_frame_lowest_witness :
    (∀ j, j < boot_frames.total_frames → frame_bit boot_frames j = 0 →
      boot_frames.first_free ≤ j) ∧
    (alloc_frame boot_frames).2 = 4096 * 0 ∧
    (∀ j, frame_bit (alloc_frame boot_frames).1 j ≠ 0 ↔ (j = 0 ∨ frame_bit boot_frames j ≠ 0)) ∧
    (alloc_frame boot_frames).1.used_frames = boot_frames.used_frames + 1 ∧
    (alloc_frame boot_frames).1.free_frames + 1 = boot_frames.free_frames ∧
    (alloc_frame boot_frames).1.first_free = 0 + 1 :=
  alloc_frame_lowest boot_frames
    (FrameReach.init 2 { boot_kernel with heap := init_memory boot_heap }
      ((init_paging 2 { boot_kernel with heap := init_memory boot_heap }).getD boot_kernel)
      rfl)
    0 (by decide) (by decide) (fun j hj => absurd hj (Nat.not_lt_zero j))


/-! ## Scheduler: reachable states -/

theorem taskInv_init (fuel : Nat) (k0 k : Kernel) (h0 : ∀ i, k0.process_list i = 0)
    (h : init_tasking fuel k0 = some k) :
    TaskInv k ∧ (k.procs k.idle_process).state = PROC_STATE_RUNNING := by
  unfold init_tasking at h
  split at h
  · cases h
  · rename_i h1 idle _
    simp only at h
    split at h
    · cases h
    · rename_i hne
      injection h with h
      subst h
      refine ⟨⟨hne, rfl, by simp, fun i hi => by simp [hi, h0], ?_, Or.inl ?_⟩, ?_⟩ <;>
        simp [setProc, zero_process]

theorem schedule_idle (fuel : Nat) (k k' : Kernel) (inv : TaskInv k)
    (h : schedule fuel k = some k') :
    k' = { k with context_switches := (k.context_switches + 1) % W64 } := by
  obtain ⟨hne, hcur, hs0, _, hn, hst⟩ := inv
  rw [← hcur] at hne hs0 hn hst
  cases fuel with
  | zero => simp [schedule, hne, schedule_search] at h
  | succ fuel =>
    rcases hst with hst | hst
    · simp [schedule, hne, hn, hs0, schedule_search, hst] at h
      exact h.symm
    · simp [schedule, hne, hn, hs0, schedule_search, hst] at h
      exact h.symm

theorem taskInv_congr (k k' : Kernel) (inv : TaskInv k) (h1 : k'.idle_process = k.idle_process)
    (h2 : k'.current_process = k.current_process) (h3 : k'.process_list = k.process_list)
    (h4 : (k'.procs k.idle_process).next = (k.procs k.idle_process).next)
    (h5 : (k'.procs k.idle_process).state = (k.procs k.idle_process).state) : TaskInv k' := by
  obtain ⟨hne, hcur, hs0, ho, hn, hst⟩ := inv
  refine ⟨by rw [h1]; exact hne, by rw [h1, h2]; exact hcur, by rw [h1, h3]; exact hs0,
    fun i hi => by rw [h3]; exact ho i hi, by rw [h1, h4]; exact hn, by rw [h1, h5]; exact hst⟩

theorem taskInv_schedule (fuel : Nat) (k k' : Kernel) (inv : TaskInv k)
    (h : schedule fuel k = some k') :
    TaskInv k' ∧ (k'.procs k'.idle_process).state = (k.procs k.idle_process).state := by
  rw [schedule_idle fuel k k' inv h]
  exact ⟨taskInv_congr k _ inv rfl rfl rfl rfl rfl, rfl⟩

theorem taskInv_timer (fuel : Nat) (k k' : Kernel) (inv : TaskInv k)
    (h : irq_handler fuel k 32 0 = some k') :
    TaskInv k' ∧ (k'.procs k'.idle_process).state = (k.procs k.idle_process).state := by
  have hc : k.current_process ≠ 0 := by rw [inv.cur]; exact inv.idle_ne
  simp only [irq_handler, timer_handler, if_true] at h
  simp only [hc, ne_eq, not_false_eq_true, if_true] at h
  split at h
  · -- quantum ran out: schedule
    rename_i hq
    rw [Option.map_eq_some'] at h
    obtain ⟨k2, hk2, rfl⟩ := h
    have inv1 : TaskInv { k with
        system_ticks := (k.system_ticks + 1) % W64
        system_time_ms := ((k.system_ticks + 1) % W64 * 10) % W64
        interrupts_handled := (k.interrupts_handled + 1) % W64
        procs := setProc
          (setProc k.procs k.current_process fun p =>
            { p with cpu_time := (p.cpu_time + 1) % W64 })
          k.current_process fun p => { p with quantum := (p.quantum + W32 - 1) % W32 } } :=
      taskInv_congr k _ inv rfl rfl rfl (by simp [setProc, inv.cur]) (by simp [setProc, inv.cur])
    obtain ⟨i2, s2⟩ := taskInv_schedule fuel _ k2 inv1 hk2
    refine ⟨taskInv_congr k2 _ i2 rfl rfl rfl rfl rfl, ?_⟩
    show (k2.procs k2.idle_process).state = _
    rw [s2]
    simp [setProc, inv.cur]
  · rw [Option.map_eq_some'] at h
    obtain ⟨k2, hk2, rfl⟩ := h
    injection hk2 with hk2
    subst hk2
    exact ⟨taskInv_congr k _ inv rfl rfl rfl (by simp [outb, setProc, inv.cur])
      (by simp [outb, setProc, inv.cur]), by simp [outb, setProc, inv.cur]⟩




theorem taskInv_syscall (fuel num a1 a2 a3 a4 : Nat) (k k' : Kernel) (r : Nat)
    (inv : TaskInv k) (h : syscall_handler fuel k num a1 a2 a3 a4 = some (k', r)) :
    TaskInv k' ∧ (num ≠ 1 → (k'.procs k'.idle_process).state = (k.procs k.idle_process).state) := by
  have hc : k.current_process ≠ 0 := by rw [inv.cur]; exact inv.idle_ne
  unfold syscall_handler at h
  simp only at h
  by_cases h1 : num = 1
  · simp only [h1, if_true, hc, ne_eq, not_false_eq_true] at h
    rw [Option.map_eq_some'] at h
    obtain ⟨k2, hk2, e⟩ := h
    injection e with e1 _
    subst e1
    have inv1 : TaskInv { k with
        syscalls := (k.syscalls + 1) % W64
        procs := setProc
          (setProc k.procs k.current_process fun p => { p with state := PROC_STATE_TERMINATED })
          k.current_process fun p => { p with exit_code := a1 } } := by
      obtain ⟨hne, hcur, hs0, ho, hn, _⟩ := inv
      exact ⟨hne, hcur, hs0, ho, by simp [setProc, hcur, hn], Or.inr (by simp [setProc, hcur])⟩
    exact ⟨(taskInv_schedule fuel _ k2 inv1 hk2).1, fun hne => absurd h1 hne⟩
  · simp only [h1, if_false] at h
    have keep : TaskInv { k with syscalls := (k.syscalls + 1) % W64 } :=
      taskInv_congr k _ inv rfl rfl rfl rfl rfl
    by_cases h9 : num = 9
    · simp only [h9, if_true] at h
      injection h with h; injection h with e1 _
      subst e1
      exact ⟨keep, fun _ => rfl⟩
    · simp only [h9, if_false] at h
      by_cases h4 : num = 4
      · simp only [h4, if_true] at h
        split at h <;>
        · injection h with h; injection h with e1 _
          subst e1
          exact ⟨keep, fun _ => rfl⟩
      · simp only [h4, if_false] at h
        by_cases h11 : num = 11
        · simp only [h11, if_true] at h
          rw [Option.map_eq_some'] at h
          obtain ⟨k2, hk2, e⟩ := h
          injection e with e1 _
          subst e1
          obtain ⟨i2, s2⟩ := taskInv_schedule fuel _ k2 keep hk2
          exact ⟨i2, fun _ => s2⟩
        · simp only [h11, if_false] at h
          injection h with h; injection h with e1 _
          subst e1
          exact ⟨keep, fun _ => rfl⟩

theorem taskReach_inv (allowed : Nat → Prop) (k : Kernel) (h : TaskReachWith allowed k) :
    TaskInv k ∧ ((∀ n, allowed n → n ≠ 1) →
      (k.procs k.idle_process).state = PROC_STATE_RUNNING) := by
  induction h with
  | init fuel k0 k h0 hk =>
    obtain ⟨i, s⟩ := taskInv_init fuel k0 k h0 hk
    exact ⟨i, fun _ => s⟩
  | @sched k fuel k' _ hs ih =>
    obtain ⟨i, s⟩ := taskInv_schedule fuel k k' ih.1 hs
    exact ⟨i, fun ha => by rw [s]; exact ih.2 ha⟩
  | @timer k fuel k' _ hs ih =>
    obtain ⟨i, s⟩ := taskInv_timer fuel k k' ih.1 hs
    exact ⟨i, fun ha => by rw [s]; exact ih.2 ha⟩
  | @syscall k fuel num a1 a2 a3 a4 k' r _ hal _ _ hs ih =>
    obtain ⟨i, s⟩ := taskInv_syscall fuel num a1 a2 a3 a4 k k' r ih.1 hs
    exact ⟨i, fun ha => by rw [s (ha num hal)]; exact ih.2 ha⟩

/-- C10 (amended). In every state reachable from `init_tasking` through `schedule`, timer
interrupts and system calls, no process other than `current_process` is `RUNNING`, and
`current_process` is `RUNNING` or (after it called `exit` with no other runnable process)
`TERMINATED`; in every state reached without an `exit` call exactly one process is
`RUNNING` and it is `current_process`. -/
theorem only_current_runs (k : Kernel) (h : TaskReach k) :
    (∀ i, i < MAX_PROCESSES → k.process_list i ≠ 0 →
      (k.procs (k.process_list i)).state = PROC_STATE_RUNNING →
      k.process_list i = k.current_process) ∧
    ((k.procs k.current_process).state = PROC_STATE_RUNNING ∨
      (k.procs k.current_process).state = PROC_STATE_TERMINATED) ∧
    (TaskReachNoExit k → OneRunning k) := by
  obtain ⟨inv, _⟩ := taskReach_inv _ k h
  have only : ∀ i, i < MAX_PROCESSES → k.process_list i ≠ 0 →
      (k.procs (k.process_list i)).state = PROC_STATE_RUNNING →
      k.process_list i = k.current_process := by
    intro i _ hne _
    by_cases hi : i = 0
    · rw [hi, inv.slot0, inv.cur]
    · exact absurd (inv.others i hi) hne
  refine ⟨only, by rw [inv.cur]; exact inv.st, fun hne => ?_⟩
  obtain ⟨_, s⟩ := taskReach_inv _ k hne
  refine ⟨by rw [inv.cur]; exact inv.idle_ne, ⟨0, by decide, by rw [inv.slot0, inv.cur]⟩, ?_, only⟩
  rw [inv.cur]
  exact s fun n hn => hn

/-- C10 (amended), on the state right after `init_tasking`. -/
theorem only_current_runs_witness :
    (∀ i, i < MAX_PROCESSES → idle_kernel.process_list i ≠ 0 →
      (idle_kernel.procs (idle_kernel.process_list i)).state = PROC_STATE_RUNNING →
      idle_kernel.process_list i = idle_kernel.current_process) ∧
    ((idle_kernel.procs idle_kernel.current_process).state = PROC_STATE_RUNNING ∨
      (idle_kernel.procs idle_kernel.current_process).state = PROC_STATE_TERMINATED) ∧
    (TaskReachNoExit idle_kernel → OneRunning idle_kernel) :=
  only_current_runs idle_kernel
    (TaskReachWith.init 1 { boot_kernel with heap := init_memory boot_heap } _
      (fun _ => rfl) rfl)


/-! ## Heap: the invariant of the block list and what follows from it -/

theorem merge_next_eq (m : Nat → memory_block_t) (b : Nat) (hx : (m b).next ≠ 0)
    (hfree : (m (m b).next).used = false) (hne : (m b).next ≠ b)
    (hnn : (m (m b).next).next ≠ b) :
    kfree_merge_next m b = absorbed m b (m b).next := by
  funext a
  simp only [kfree_merge_next, absorbed, setBlock, hx, hfree, hne, ne_eq, not_false_eq_true,
    and_self, if_true, if_false]
  by_cases hab : a = b
  · subst hab
    by_cases h0 : (m (m a).next).next = 0
    · simp [setBlock, hne, h0]
    · simp [setBlock, hne, h0, Ne.symm hnn]
  · by_cases h0 : (m (m b).next).next = 0
    · simp [setBlock, hab, hne, h0]
    · by_cases h1 : a = (m (m b).next).next
      · simp [setBlock, hab, hne, h0, hnn, h1]
      · simp [setBlock, hab, hne, h0, hnn, h1]

theorem merge_prev_eq (m : Nat → memory_block_t) (b : Nat) (hp : (m b).prev ≠ 0)
    (hfree : (m (m b).prev).used = false) (hne : (m b).prev ≠ b)
    (hnn : (m b).next ≠ (m b).prev) :
    kfree_merge_prev m b = absorbed m (m b).prev b := by
  funext a
  simp only [kfree_merge_prev, absorbed, setBlock, hp, hfree, ne_eq, not_false_eq_true,
    and_self, if_true, if_false, Ne.symm hne]
  by_cases hab : a = (m b).prev
  · by_cases h0 : (m b).next = 0
    · simp [setBlock, hab, h0, hfree]
    · simp [setBlock, hab, h0, Ne.symm hnn, hfree]
  · by_cases h0 : (m b).next = 0
    · simp [setBlock, hab, h0, hfree]
    · by_cases h1 : a = (m b).next
      · simp [setBlock, hab, h0, hnn, h1]
      · simp [setBlock, hab, h0, hnn, h1]

theorem absorbed_next (m : Nat → memory_block_t) (x y a : Nat) :
    (absorbed m x y a).next = if a = x then (m y).next else (m a).next := by
  unfold absorbed; split_ifs <;> rfl

theorem absorbed_size (m : Nat → memory_block_t) (x y a : Nat) :
    (absorbed m x y a).size =
      if a = x then ((m x).size + (m y).size) % W32 else (m a).size := by
  unfold absorbed; split_ifs <;> simp_all

theorem absorbed_prev (m : Nat → memory_block_t) (x y a : Nat) :
    (absorbed m x y a).prev =
      if a ≠ x ∧ a = (m y).next ∧ (m y).next ≠ 0 then x else (m a).prev := by
  unfold absorbed
  by_cases hax : a = x
  · simp [hax]
  · by_cases hc : a = (m y).next ∧ (m y).next ≠ 0
    · rw [if_neg hax, if_pos hc, if_pos ⟨hax, hc⟩]
    · rw [if_neg hax, if_neg hc, if_neg (fun h => hc h.2)]

theorem absorbed_used (m : Nat → memory_block_t) (x y a : Nat) :
    (absorbed m x y a).used = (m a).used := by
  unfold absorbed; split_ifs <;> simp_all

theorem absorbed_magic (m : Nat → memory_block_t) (x y a : Nat) :
    (absorbed m x y a).magic = (m a).magic := by
  unfold absorbed; split_ifs <;> simp_all

theorem absorbed_address (m : Nat → memory_block_t) (x y a : Nat) :
    (absorbed m x y a).address = (m a).address := by
  unfold absorbed; split_ifs <;> simp_all

theorem struct_ne_zero {m : Nat → memory_block_t} {head : Nat} {S : Set Nat} {B : Nat}
    (hs : HeapStruct m head S B) {a : Nat} (ha : a ∈ S) : a ≠ 0 := by
  have := (hs.node a ha).1
  unfold HEAP_START at this
  omega

theorem struct_next_gt {m : Nat → memory_block_t} {head : Nat} {S : Set Nat} {B : Nat}
    (hs : HeapStruct m head S B) {a : Nat} (ha : a ∈ S) (hn : (m a).next ≠ 0) :
    a < (m a).next := by
  have h1 := (hs.node a ha).2.1
  have h2 := (hs.next_ok a ha hn).2.2
  omega

theorem absorbed_struct (m : Nat → memory_block_t) (head : Nat) (S : Set Nat) (B x y : Nat)
    (hs : HeapStruct m head S B) (hx : x ∈ S) (hy : (m x).next = y) (hy0 : y ≠ 0)
    (hB : B < W32) : HeapStruct (absorbed m x y) head (S \ {y}) B := by
  have hn0 : (m x).next ≠ 0 := by rw [hy]; exact hy0
  obtain ⟨hyS0, hyp0, hxy0⟩ := hs.next_ok x hx hn0
  have hyS : y ∈ S := by rw [← hy]; exact hyS0
  have hyp : (m y).prev = x := by rw [← hy]; exact hyp0
  have hxy : x + (m x).size ≤ y := by rw [← hy]; exact hxy0
  have hxlt : x < y := by rw [← hy]; exact struct_next_gt hs hx hn0
  have hx0 : x ≠ 0 := struct_ne_zero hs hx
  obtain ⟨_, hsx, _, _, _⟩ := hs.node x hx
  obtain ⟨_, hsy, hyB, _, _⟩ := hs.node y hyS
  have hnn : (m y).next ≠ 0 → y < (m y).next := fun h => struct_next_gt hs hyS h
  have hsz : ((m x).size + (m y).size) % W32 = (m x).size + (m y).size :=
    Nat.mod_eq_of_lt (by omega)
  refine ⟨?_, ?_, ?_, ?_, ?_, ?_⟩
  · -- head
    intro hh
    obtain ⟨h1, h2⟩ := hs.head_mem hh
    have hne : head ≠ y := by
      intro e; rw [e, hyp] at h2; exact hx0 h2
    refine ⟨⟨h1, hne⟩, ?_⟩
    rw [absorbed_prev]
    split_ifs with hc
    · obtain ⟨_, hc2, hc3⟩ := hc
      have := (hs.next_ok y hyS hc3).2.1
      rw [← hc2, h2] at this
      exact absurd this.symm hy0
    · exact h2
  · intro hh a ha
    exact hs.head_zero hh a ha.1
  · -- node
    intro a ha
    obtain ⟨haS, hay⟩ := ha
    have hay : a ≠ y := hay
    obtain ⟨n1, n2, n3, n4, n5⟩ := hs.node a haS
    rw [absorbed_size, absorbed_magic, absorbed_address]
    refine ⟨n1, ?_, ?_, n4, n5⟩
    · split_ifs with hc
      · rw [hsz]; omega
      · exact n2
    · split_ifs with hc
      · rw [hsz, hc]; omega
      · exact n3
  · -- next_ok
    intro a ha hnext
    obtain ⟨haS, hay⟩ := ha
    have hay : a ≠ y := hay
    rw [absorbed_next] at hnext ⊢
    rw [absorbed_prev, absorbed_size]
    by_cases hax : a = x
    · subst hax
      simp only [if_true] at hnext ⊢
      obtain ⟨k1, k2, k3⟩ := hs.next_ok y hyS hnext
      have hlt := hnn hnext
      refine ⟨⟨k1, fun e => ?_⟩, ?_, ?_⟩
      · have : (m y).next = y := e
        omega
      · rw [if_pos ⟨by omega, trivial, hnext⟩]
      · rw [hsz]; omega
    · simp only [hax, if_false] at hnext ⊢
      obtain ⟨k1, k2, k3⟩ := hs.next_ok a haS hnext
      have hne : (m a).next ≠ y := by
        intro e; rw [e, hyp] at k2; exact hax k2.symm
      refine ⟨⟨k1, hne⟩, ?_, k3⟩
      split_ifs with hc
      · obtain ⟨_, hc2, hc3⟩ := hc
        have := (hs.next_ok y hyS hc3).2.1
        rw [← hc2, k2] at this
        exact absurd this hay
      · exact k2
  · -- prev_ok
    intro a ha hprev
    obtain ⟨haS, hay⟩ := ha
    have hay : a ≠ y := hay
    rw [absorbed_prev] at hprev ⊢
    rw [absorbed_next]
    split_ifs at hprev ⊢ with hc hc2 hc2
    · exact ⟨⟨hx, fun e => by have : x = y := e; omega⟩, hc.2.1.symm⟩
    · exact absurd rfl hc2
    · obtain ⟨k1, k2⟩ := hs.prev_ok a haS hprev
      rw [hc2, hy] at k2
      exact absurd k2.symm hay
    · obtain ⟨k1, k2⟩ := hs.prev_ok a haS hprev
      refine ⟨⟨k1, fun e => ?_⟩, k2⟩
      have e' : (m a).prev = y := e
      rw [e'] at k2
      by_cases hax : a = x
      · rw [hax] at k2
        have := hnn (by rw [k2]; exact hx0)
        omega
      · exact hc ⟨hax, k2.symm, by rw [k2]; exact struct_ne_zero hs haS⟩
  · -- next_least
    intro a c ha hc hlt
    obtain ⟨haS, hay⟩ := ha
    obtain ⟨hcS, hcy⟩ := hc
    have hay : a ≠ y := hay
    have hcy : c ≠ y := hcy
    rw [absorbed_next]
    by_cases hax : a = x
    · subst hax
      simp only [if_true]
      obtain ⟨_, k2⟩ := hs.next_least a c haS hcS hlt
      rw [hy] at k2
      exact hs.next_least y c hyS hcS (by omega)
    · simp only [hax, if_false]
      exact hs.next_least a c haS hcS hlt

theorem struct_congr (m m' : Nat → memory_block_t) (head : Nat) (S : Set Nat) (B : Nat)
    (hs : HeapStruct m head S B)
    (hsz : ∀ a, (m' a).size = (m a).size) (hnx : ∀ a, (m' a).next = (m a).next)
    (hpv : ∀ a, (m' a).prev = (m a).prev) (hmg : ∀ a, (m' a).magic = (m a).magic)
    (had : ∀ a, (m' a).address = (m a).address) : HeapStruct m' head S B := by
  obtain ⟨h1, h2, h3, h4, h5, h6⟩ := hs
  refine ⟨?_, h2, ?_, ?_, ?_, ?_⟩
  · intro hh; rw [hpv]; exact h1 hh
  · intro a ha; rw [hsz, hmg, had]; exact h3 a ha
  · intro a ha hn; rw [hnx] at hn ⊢; rw [hpv, hsz]; exact h4 a ha hn
  · intro a ha hp; rw [hpv] at hp ⊢; rw [hnx]; exact h5 a ha hp
  · intro a c ha hc hlt; rw [hnx]; exact h6 a c ha hc hlt

theorem kfree_phase2 (m : Nat → memory_block_t) (head : Nat) (S : Set Nat) (B b : Nat)
    (hs : HeapStruct m head S B) (hB : B < W32) (hb : b ∈ S)
    (hnf : ∀ a, a ∈ S → (m a).next ≠ 0 → (m a).used = true ∨ (m (m a).next).used = true) :
    ∃ S4, FreeMid (kfree_merge_next (setBlock m b fun x => { x with used := false }) b)
        head S4 B b ∧
      (kfree_merge_next (setBlock m b fun x => { x with used := false }) b b).prev
        = (m b).prev ∧
      (∀ a, (a ∈ S4 ∧
          (kfree_merge_next (setBlock m b fun x => { x with used := false }) b a).used = true)
        ↔ (a ∈ S ∧ (m a).used = true ∧ a ≠ b)) := by
  have m1used : ∀ a, (setBlock m b (fun x => { x with used := false }) a).used
      = if a = b then false else (m a).used := by
    intro a; unfold setBlock; split_ifs <;> rfl
  have m1sz : ∀ a, (setBlock m b (fun x => { x with used := false }) a).size = (m a).size := by
    intro a; unfold setBlock; split_ifs with h <;> simp [h]
  have m1nx : ∀ a, (setBlock m b (fun x => { x with used := false }) a).next = (m a).next := by
    intro a; unfold setBlock; split_ifs with h <;> simp [h]
  have m1pv : ∀ a, (setBlock m b (fun x => { x with used := false }) a).prev = (m a).prev := by
    intro a; unfold setBlock; split_ifs with h <;> simp [h]
  have m1mg : ∀ a, (setBlock m b (fun x => { x with used := false }) a).magic = (m a).magic := by
    intro a; unfold setBlock; split_ifs with h <;> simp [h]
  have m1ad : ∀ a, (setBlock m b (fun x => { x with used := false }) a).address
      = (m a).address := by
    intro a; unfold setBlock; split_ifs with h <;> simp [h]
  generalize hm1 : setBlock m b (fun x => { x with used := false }) = m1 at *
  have hs1 : HeapStruct m1 head S B := struct_congr m m1 head S B hs m1sz m1nx m1pv m1mg m1ad
  by_cases hc : (m1 b).next ≠ 0 ∧ (m1 (m1 b).next).used = false
  · obtain ⟨hn0, hnfree⟩ := hc
    have hgt := struct_next_gt hs1 hb hn0
    obtain ⟨hnS, hnp, _⟩ := hs1.next_ok b hb hn0
    have hnn : (m1 (m1 b).next).next ≠ b := by
      intro e
      by_cases h0 : (m1 (m1 b).next).next = 0
      · rw [h0] at e; exact struct_ne_zero hs1 hb e.symm
      · have := struct_next_gt hs1 hnS h0
        omega
    rw [merge_next_eq m1 b hn0 hnfree (by omega) hnn]
    have hs4 := absorbed_struct m1 head S B b (m1 b).next hs1 hb rfl hn0 hB
    refine ⟨S \ {(m1 b).next}, ⟨hs4, ⟨hb, fun e => ?_⟩, ?_, ?_⟩, ?_, ?_⟩
    · have : b = (m1 b).next := e
      omega
    · rw [absorbed_used, m1used, if_pos rfl]
    · intro a ha hn hnb
      obtain ⟨haS, han⟩ := ha
      have han : a ≠ (m1 b).next := han
      rw [absorbed_next] at hn hnb
      rw [absorbed_used, absorbed_used, absorbed_next]
      by_cases hab : a = b
      · subst hab
        simp only [if_true] at hn hnb ⊢
        right
        have := hnf (m1 a).next (by exact hnS) (by rw [← m1nx]; exact hn)
        rw [m1used] at hnfree
        split_ifs at hnfree with hx
        · omega
        · rw [hnfree] at this
          rcases this with h | h
          · cases h
          · rw [m1used, if_neg hnb, m1nx]; exact h
      · simp only [hab, if_false] at hn hnb ⊢
        rw [m1used, m1used, if_neg hab, if_neg hnb, m1nx]
        rw [m1nx] at hn
        exact hnf a haS hn
    · rw [absorbed_prev, if_neg (fun h => h.1 rfl), m1pv]
    · intro a
      rw [absorbed_used, m1used]
      constructor
      · rintro ⟨⟨haS, _⟩, hu⟩
        split_ifs at hu with hab
        exact ⟨haS, hu, hab⟩
      · rintro ⟨haS, hu, hab⟩
        refine ⟨⟨haS, fun e => ?_⟩, by rw [if_neg hab]; exact hu⟩
        have e' : a = (m1 b).next := e
        rw [← e', m1used, if_neg hab, hu] at hnfree
        cases hnfree
  · have e : kfree_merge_next m1 b = m1 := by
      unfold kfree_merge_next; rw [if_neg hc]
    rw [e]
    refine ⟨S, ⟨hs1, hb, by rw [m1used, if_pos rfl], ?_⟩, m1pv b, ?_⟩
    · intro a haS hn hnb
      rw [m1used, m1used, if_neg hnb]
      by_cases hab : a = b
      · subst hab
        right
        by_contra hcon
        apply hc
        refine ⟨hn, ?_⟩
        rw [m1used, if_neg hnb]
        simpa using hcon
      · rw [if_neg hab, m1nx]
        rw [m1nx] at hn
        exact hnf a haS hn
    · intro a
      rw [m1used]
      constructor
      · rintro ⟨haS, hu⟩
        split_ifs at hu with hab
        exact ⟨haS, hu, hab⟩
      · rintro ⟨haS, hu, hab⟩
        exact ⟨haS, by rw [if_neg hab]; exact hu⟩

theorem kfree_phase3 (m4 : Nat → memory_block_t) (head : Nat) (S4 : Set Nat) (B b : Nat)
    (hm : FreeMid m4 head S4 B b) (hB : B < W32) :
    ∃ S7, HeapStruct (kfree_merge_prev m4 b) head S7 B ∧
      (∀ a, a ∈ S7 → (kfree_merge_prev m4 b a).next ≠ 0 →
        (kfree_merge_prev m4 b a).used = true ∨
        (kfree_merge_prev m4 b (kfree_merge_prev m4 b a).next).used = true) ∧
      (∀ a, (a ∈ S7 ∧ (kfree_merge_prev m4 b a).used = true) ↔
        (a ∈ S4 ∧ (m4 a).used = true)) := by
  obtain ⟨hs, hb, hfree, hnf⟩ := hm
  have hb0 : b ≠ 0 := struct_ne_zero hs hb
  by_cases hc : (m4 b).prev ≠ 0 ∧ (m4 (m4 b).prev).used = false
  · obtain ⟨hp0, hpfree⟩ := hc
    obtain ⟨hpS, hpn⟩ := hs.prev_ok b hb hp0
    have hpn0 : (m4 (m4 b).prev).next ≠ 0 := by rw [hpn]; exact hb0
    have hlt : (m4 b).prev < b := by
      have := struct_next_gt hs hpS hpn0
      rw [hpn] at this; exact this
    have hnn : (m4 b).next ≠ (m4 b).prev := by
      intro e
      by_cases h0 : (m4 b).next = 0
      · rw [h0] at e; exact hp0 e.symm
      · have := struct_next_gt hs hb h0
        omega
    rw [merge_prev_eq m4 b hp0 hpfree (by omega) hnn]
    have hs7 := absorbed_struct m4 head S4 B (m4 b).prev b hs hpS hpn hb0 hB
    refine ⟨S4 \ {b}, hs7, ?_, ?_⟩
    · intro a ha hn
      obtain ⟨haS, hab⟩ := ha
      have hab : a ≠ b := hab
      rw [absorbed_next] at hn
      rw [absorbed_used, absorbed_used, absorbed_next]
      by_cases hap : a = (m4 b).prev
      · simp only [hap, if_true] at hn ⊢
        have hnb : (m4 b).next ≠ b := by
          have := struct_next_gt hs hb hn
          omega
        rcases hnf b hb hn hnb with h | h
        · rw [hfree] at h; cases h
        · exact Or.inr h
      · simp only [hap, if_false] at hn ⊢
        refine hnf a haS hn fun e => ?_
        have := (hs.next_ok a haS hn).2.1
        rw [e] at this
        exact hap this.symm
    · intro a
      rw [absorbed_used]
      constructor
      · rintro ⟨⟨haS, _⟩, hu⟩
        exact ⟨haS, hu⟩
      · rintro ⟨haS, hu⟩
        refine ⟨⟨haS, fun e => ?_⟩, hu⟩
        have e' : a = b := e
        rw [e', hfree] at hu
        cases hu
  · have e : kfree_merge_prev m4 b = m4 := by
      unfold kfree_merge_prev; rw [if_neg hc]
    rw [e]
    refine ⟨S4, hs, ?_, fun a => Iff.rfl⟩
    intro a haS hn
    by_cases hnb : (m4 a).next = b
    · left
      have hpa := (hs.next_ok a haS hn).2.1
      rw [hnb] at hpa
      by_contra hcon
      apply hc
      rw [hpa]
      exact ⟨struct_ne_zero hs haS, by simpa using hcon⟩
    · exact hnf a haS hn hnb

theorem bound_lt (t : Nat) : HEAP_START + min t HEAP_SIZE < W32 := by
  unfold HEAP_START HEAP_SIZE W32
  omega

theorem block_of_ptr (b : Nat) (hb : b + sizeof_memory_block_t < W32) :
    (b + sizeof_memory_block_t + W32 - sizeof_memory_block_t) % W32 = b := by
  unfold sizeof_memory_block_t W32 at *
  omega

theorem inv_block_lt {h : Heap} {S live : Set Nat} (inv : HeapInv h S live) {b : Nat}
    (hb : b ∈ S) : b + sizeof_memory_block_t < W32 ∧ b ≠ 0 := by
  obtain ⟨h1, h2, h3, _, _⟩ := inv.struct.node b hb
  have := bound_lt h.total_allocated
  unfold HEAP_START HEAP_SIZE W32 sizeof_memory_block_t at *
  omega

theorem kfree_eq {h : Heap} {S live : Set Nat} (inv : HeapInv h S live) {b : Nat}
    (hb : b ∈ S) :
    kfree h (b + sizeof_memory_block_t) =
      { h with
        mem := kfree_merge_prev
          (kfree_merge_next (setBlock h.mem b fun x => { x with used := false }) b) b
        memory_frees := (h.memory_frees + 1) % W64 } := by
  obtain ⟨hlt, _⟩ := inv_block_lt inv hb
  have hmg := (inv.struct.node b hb).2.2.2.1
  have hp : b + sizeof_memory_block_t ≠ 0 := by
    unfold sizeof_memory_block_t; omega
  unfold kfree
  rw [if_neg hp]
  simp only [block_of_ptr b hlt, hmg, ne_eq, not_true_eq_false, if_false]

theorem kfree_inv (h : Heap) (S live : Set Nat) (inv : HeapInv h S live) (p : Nat)
    (hp : p ∈ live) : ∃ S7, HeapInv (kfree h p) S7 (live \ {p}) := by
  obtain ⟨b, hb, hu, rfl⟩ := (inv.live p).1 hp
  rw [kfree_eq inv hb]
  have hB := bound_lt h.total_allocated
  obtain ⟨S4, hmid, _, hu4⟩ := kfree_phase2 h.mem h.memory_blocks_head S _ b inv.struct hB hb
    inv.nofree
  obtain ⟨S7, hs7, hnf7, hu7⟩ := kfree_phase3 _ h.memory_blocks_head S4 _ b hmid hB
  refine ⟨S7, ⟨hs7, hnf7, ?_⟩⟩
  intro q
  constructor
  · rintro ⟨hq, hne⟩
    obtain ⟨a, haS, hau, rfl⟩ := (inv.live q).1 hq
    have hab : a ≠ b := by
      intro e; apply hne; rw [e]; rfl
    obtain ⟨h1, h2⟩ := (hu7 a).2 ((hu4 a).2 ⟨haS, hau, hab⟩)
    exact ⟨a, h1, h2, rfl⟩
  · rintro ⟨a, haS, hau, rfl⟩
    obtain ⟨h1, h2, h3⟩ := (hu4 a).1 ((hu7 a).1 ⟨haS, hau⟩)
    refine ⟨(inv.live _).2 ⟨a, h1, h2, rfl⟩, fun e => h3 ?_⟩
    have e' : a + sizeof_memory_block_t = b + sizeof_memory_block_t := e
    omega

theorem split_eq (m : Nat → memory_block_t) (need b : Nat)
    (hc : (m b).size > (need + sizeof_memory_block_t + 64) % W32)
    (hlt : b + need + sizeof_memory_block_t < W32) (hn0 : 0 < need)
    (hsz : need ≤ (m b).size) (hszlt : (m b).size < W32)
    (hnb1 : (m b).next ≠ b + need) (hnb2 : (m b).next ≠ b) :
    kmalloc_split m need b = splitted m b (b + need) need := by
  have e1 : (b + need) % W32 = b + need := Nat.mod_eq_of_lt (by omega)
  have e2 : (b + need + sizeof_memory_block_t) % W32 = b + need + sizeof_memory_block_t :=
    Nat.mod_eq_of_lt hlt
  have e3 : ((m b).size + W32 - need) % W32 = (m b).size - need := by
    unfold W32 at *; omega
  have hne : b ≠ b + need := by omega
  funext a
  unfold kmalloc_split
  rw [if_pos hc]
  simp only [e1]
  by_cases h1 : a = b + need
  · subst h1
    by_cases h0 : (m b).next = 0
    · simp [setBlock, splitted, hne, hne.symm, h0, e2, e3]
    · simp [setBlock, splitted, hne, hne.symm, h0, e2, e3, hnb1.symm, hnb1]
  · by_cases h2 : a = b
    · subst h2
      by_cases h0 : (m a).next = 0
      · simp [setBlock, splitted, hne, hne.symm, h0, h1]
      · simp [setBlock, splitted, hne, hne.symm, h0, h1, hnb2.symm, hnb2, hnb1, hnb1.symm]
    · by_cases h0 : (m b).next = 0
      · simp [setBlock, splitted, hne, hne.symm, h0, h1, h2]
      · by_cases h3 : a = (m b).next
        · simp [setBlock, splitted, hne, hne.symm, h0, h1, h2, h3, hnb2, hnb1]
        · simp [setBlock, splitted, hne, hne.symm, h0, h1, h2, h3, hnb2, hnb1]

theorem splitted_next (m : Nat → memory_block_t) (b nb need a : Nat) :
    (splitted m b nb need a).next =
      if a = nb then (m b).next else if a = b then nb else (m a).next := by
  unfold splitted; split_ifs <;> rfl

theorem splitted_prev (m : Nat → memory_block_t) (b nb need a : Nat) :
    (splitted m b nb need a).prev =
      if a = nb then b
      else if a ≠ b ∧ a = (m b).next ∧ (m b).next ≠ 0 then nb else (m a).prev := by
  unfold splitted
  by_cases h1 : a = nb
  · rw [if_pos h1, if_pos h1]
  · rw [if_neg h1, if_neg h1]
    by_cases h2 : a = b
    · rw [if_pos h2, if_neg (fun h => h.1 h2), h2]
    · rw [if_neg h2]
      by_cases h3 : a = (m b).next ∧ (m b).next ≠ 0
      · rw [if_pos h3, if_pos ⟨h2, h3⟩]
      · rw [if_neg h3, if_neg (fun h => h3 h.2)]

theorem splitted_size (m : Nat → memory_block_t) (b nb need a : Nat) :
    (splitted m b nb need a).size =
      if a = nb then (m b).size - need else if a = b then need else (m a).size := by
  unfold splitted; split_ifs <;> rfl

theorem splitted_used (m : Nat → memory_block_t) (b nb need a : Nat) :
    (splitted m b nb need a).used = if a = nb then false else (m a).used := by
  unfold splitted; split_ifs with h1 h2 <;> first | rfl | rw [h2]

theorem splitted_magic (m : Nat → memory_block_t) (b nb need a : Nat) :
    (splitted m b nb need a).magic = if a = nb then HEAP_MAGIC else (m a).magic := by
  unfold splitted; split_ifs with h1 h2 <;> first | rfl | rw [h2]

theorem splitted_address (m : Nat → memory_block_t) (b nb need a : Nat) :
    (splitted m b nb need a).address =
      if a = nb then nb + sizeof_memory_block_t else (m a).address := by
  unfold splitted; split_ifs with h1 h2 <;> first | rfl | rw [h2]

theorem struct_disjoint {m : Nat → memory_block_t} {head : Nat} {S : Set Nat} {B : Nat}
    (hs : HeapStruct m head S B) {a c : Nat} (ha : a ∈ S) (hc : c ∈ S) (hlt : a < c) :
    a + (m a).size ≤ c := by
  obtain ⟨h1, h2⟩ := hs.next_least a c ha hc hlt
  have := (hs.next_ok a ha h1).2.2
  omega

theorem splitted_struct (m : Nat → memory_block_t) (head : Nat) (S : Set Nat)
    (B b need : Nat) (hs : HeapStruct m head S B) (hb : b ∈ S) (hn0 : 0 < need)
    (hlt : need < (m b).size) :
    HeapStruct (splitted m b (b + need) need) head (insert (b + need) S) B := by
  obtain ⟨nb1, nb2, nb3, nb4, nb5⟩ := hs.node b hb
  have hb0 : b ≠ 0 := struct_ne_zero hs hb
  have hne : b + need ≠ b := by omega
  have hnS : b + need ∉ S := by
    intro h
    have := struct_disjoint hs hb h (by omega)
    omega
  have hn_gt : (m b).next ≠ 0 → b + (m b).size ≤ (m b).next :=
    fun h => (hs.next_ok b hb h).2.2
  have hn_ne : (m b).next ≠ b + need := by
    intro e
    by_cases h0 : (m b).next = 0
    · omega
    · have := hn_gt h0; omega
  have hn_neb : (m b).next ≠ b := by
    intro e
    by_cases h0 : (m b).next = 0
    · omega
    · have := hn_gt h0; omega
  refine ⟨?_, ?_, ?_, ?_, ?_, ?_⟩
  · intro hh
    obtain ⟨h1, h2⟩ := hs.head_mem hh
    refine ⟨Set.mem_insert_of_mem _ h1, ?_⟩
    have hhn : head ≠ b + need := fun e => hnS (e ▸ h1)
    rw [splitted_prev, if_neg hhn]
    split_ifs with hc
    · obtain ⟨_, hc2, hc3⟩ := hc
      have := (hs.next_ok b hb hc3).2.1
      rw [← hc2, h2] at this
      exact absurd this.symm hb0
    · exact h2
  · intro hh a ha
    rcases ha with ha | ha
    · exact hs.head_zero hh b hb
    · exact hs.head_zero hh a ha
  · intro a ha
    rw [splitted_size, splitted_magic, splitted_address]
    rcases ha with ha | ha
    · have ha' : a = b + need := ha
      simp only [ha', if_true]
      exact ⟨by omega, by omega, by omega, trivial, trivial⟩
    · have han : a ≠ b + need := fun e => hnS (e ▸ ha)
      obtain ⟨n1, n2, n3, n4, n5⟩ := hs.node a ha
      simp only [han, if_false]
      refine ⟨n1, ?_, ?_, n4, n5⟩
      · split_ifs <;> omega
      · split_ifs with hab
        · rw [hab]; omega
        · exact n3
  · intro a ha hnext
    rw [splitted_next] at hnext ⊢
    rw [splitted_prev, splitted_size]
    rcases ha with ha | ha
    · have ha' : a = b + need := ha
      simp only [ha', if_true] at hnext ⊢
      obtain ⟨k1, k2, k3⟩ := hs.next_ok b hb hnext
      refine ⟨Set.mem_insert_of_mem _ k1, ?_, by omega⟩
      rw [if_neg hn_ne, if_pos ⟨hn_neb, trivial, hnext⟩]
    · have han : a ≠ b + need := fun e => hnS (e ▸ ha)
      simp only [han, if_false] at hnext ⊢
      by_cases hab : a = b
      · simp only [hab, if_true] at hnext ⊢
        exact ⟨Set.mem_insert _ _, trivial, le_rfl⟩
      · simp only [hab, if_false] at hnext ⊢
        obtain ⟨k1, k2, k3⟩ := hs.next_ok a ha hnext
        have hcn : (m a).next ≠ b + need := fun e => hnS (e ▸ k1)
        refine ⟨Set.mem_insert_of_mem _ k1, ?_, k3⟩
        rw [if_neg hcn]
        split_ifs with hc
        · obtain ⟨_, hc2, hc3⟩ := hc
          have := (hs.next_ok b hb hc3).2.1
          rw [← hc2, k2] at this
          exact absurd this hab
        · exact k2
  · intro a ha hprev
    rw [splitted_prev] at hprev ⊢
    rw [splitted_next]
    rcases ha with ha | ha
    · have ha' : a = b + need := ha
      simp only [ha', if_true] at hprev ⊢
      exact ⟨Set.mem_insert_of_mem _ hb, by rw [if_neg hne.symm]⟩
    · have han : a ≠ b + need := fun e => hnS (e ▸ ha)
      simp only [han, if_false] at hprev ⊢
      by_cases hc : a ≠ b ∧ a = (m b).next ∧ (m b).next ≠ 0
      · rw [if_pos hc, if_pos rfl]
        exact ⟨Set.mem_insert _ _, hc.2.1.symm⟩
      · rw [if_neg hc] at hprev ⊢
        obtain ⟨k1, k2⟩ := hs.prev_ok a ha hprev
        have hcn : (m a).prev ≠ b + need := fun e => hnS (e ▸ k1)
        rw [if_neg hcn]
        refine ⟨Set.mem_insert_of_mem _ k1, ?_⟩
        split_ifs with h3
        · rw [h3] at k2
          exact absurd ⟨fun e => hn_neb (by rw [k2, e]), k2.symm,
            by rw [k2]; exact struct_ne_zero hs ha⟩ hc
        · exact k2
  · intro a c ha hc hlt2
    rw [splitted_next]
    rcases ha with ha | ha
    · have ha' : a = b + need := ha
      simp only [ha', if_true]
      rcases hc with hc | hc
      · have : c = b + need := hc
        omega
      · exact hs.next_least b c hb hc (by omega)
    · have han : a ≠ b + need := fun e => hnS (e ▸ ha)
      simp only [han, if_false]
      by_cases hab : a = b
      · simp only [hab, if_true]
        rcases hc with hc | hc
        · have : c = b + need := hc
          exact ⟨by omega, by omega⟩
        · have hcb : b < c := by omega
          have := struct_disjoint hs hb hc hcb
          exact ⟨by omega, by omega⟩
      · simp only [hab, if_false]
        rcases hc with hc | hc
        · have hc' : c = b + need := hc
          have hab2 : a < b := by
            by_contra hge
            have : b < a := by omega
            have := struct_disjoint hs hb ha this
            omega
          obtain ⟨k1, k2⟩ := hs.next_least a b ha hb hab2
          exact ⟨k1, by omega⟩
        · exact hs.next_least a c ha hc hlt2

theorem setUsed_used (m : Nat → memory_block_t) (b : Nat) (u : Bool) (a : Nat) :
    (setBlock m b (fun x => { x with used := u }) a).used = if a = b then u else (m a).used := by
  unfold setBlock; split_ifs <;> rfl

theorem setUsed_size (m : Nat → memory_block_t) (b : Nat) (u : Bool) (a : Nat) :
    (setBlock m b (fun x => { x with used := u }) a).size = (m a).size := by
  unfold setBlock; split_ifs with h <;> simp [h]

theorem setUsed_next (m : Nat → memory_block_t) (b : Nat) (u : Bool) (a : Nat) :
    (setBlock m b (fun x => { x with used := u }) a).next = (m a).next := by
  unfold setBlock; split_ifs with h <;> simp [h]

theorem setUsed_prev (m : Nat → memory_block_t) (b : Nat) (u : Bool) (a : Nat) :
    (setBlock m b (fun x => { x with used := u }) a).prev = (m a).prev := by
  unfold setBlock; split_ifs with h <;> simp [h]

theorem setUsed_magic (m : Nat → memory_block_t) (b : Nat) (u : Bool) (a : Nat) :
    (setBlock m b (fun x => { x with used := u }) a).magic = (m a).magic := by
  unfold setBlock; split_ifs with h <;> simp [h]

theorem setUsed_address (m : Nat → memory_block_t) (b : Nat) (u : Bool) (a : Nat) :
    (setBlock m b (fun x => { x with used := u }) a).address = (m a).address := by
  unfold setBlock; split_ifs with h <;> simp [h]

theorem setUsed_struct (m : Nat → memory_block_t) (head : Nat) (S : Set Nat) (B b : Nat)
    (u : Bool) (hs : HeapStruct m head S B) :
    HeapStruct (setBlock m b fun x => { x with used := u }) head S B :=
  struct_congr m _ head S B hs (setUsed_size m b u) (setUsed_next m b u) (setUsed_prev m b u)
    (setUsed_magic m b u) (setUsed_address m b u)

theorem struct_mono (m : Nat → memory_block_t) (head : Nat) (S : Set Nat) (B B' : Nat)
    (hs : HeapStruct m head S B) (hB : B ≤ B') : HeapStruct m head S B' := by
  obtain ⟨h1, h2, h3, h4, h5, h6⟩ := hs
  refine ⟨h1, h2, fun a ha => ?_, h4, h5, h6⟩
  obtain ⟨n1, n2, n3, n4, n5⟩ := h3 a ha
  exact ⟨n1, n2, by omega, n4, n5⟩

theorem take_inv (h : Heap) (S live : Set Nat) (inv : HeapInv h S live) (need b : Nat)
    (hb : b ∈ S) (hfree : (h.mem b).used = false) (hfit : need ≤ (h.mem b).size)
    (hneed : sizeof_memory_block_t ≤ need) (htot : h.total_allocated + HEAP_SIZE < W32) :
    (kmalloc_take h need b).2 = b + sizeof_memory_block_t ∧
    ∃ S', HeapInv (kmalloc_take h need b).1 S' (insert (b + sizeof_memory_block_t) live) := by
  obtain ⟨nb1, nb2, nb3, nb4, nb5⟩ := inv.struct.node b hb
  have hBlt := bound_lt h.total_allocated
  have hn0 : 0 < need := by unfold sizeof_memory_block_t at hneed; omega
  have hszH : (h.mem b).size ≤ HEAP_SIZE := by omega
  have e88 : (need + sizeof_memory_block_t + 64) % W32 = need + sizeof_memory_block_t + 64 := by
    apply Nat.mod_eq_of_lt
    unfold HEAP_SIZE W32 sizeof_memory_block_t at *
    omega
  have hb0 : b ≠ 0 := struct_ne_zero inv.struct hb
  have hn_gt : (h.mem b).next ≠ 0 → b + (h.mem b).size ≤ (h.mem b).next :=
    fun h0 => (inv.struct.next_ok b hb h0).2.2
  by_cases hc : (h.mem b).size > (need + sizeof_memory_block_t + 64) % W32
  · -- split
    have hc' := hc
    rw [e88] at hc'
    have hlt : b + need + sizeof_memory_block_t < W32 := by
      unfold HEAP_START HEAP_SIZE W32 sizeof_memory_block_t at *
      omega
    have hn1 : (h.mem b).next ≠ b + need := by
      intro e
      by_cases h0 : (h.mem b).next = 0
      · omega
      · have := hn_gt h0; omega
    have hn2 : (h.mem b).next ≠ b := by
      intro e
      by_cases h0 : (h.mem b).next = 0
      · omega
      · have := hn_gt h0; omega
    have hsplit := split_eq h.mem need b hc hlt hn0 hfit
      (by unfold HEAP_SIZE W32 at *; omega) hn1 hn2
    have hnS : b + need ∉ S := by
      intro hmem
      have := struct_disjoint inv.struct hb hmem (by omega)
      omega
    have hbn : b ≠ b + need := by omega
    have hmem : (kmalloc_take h need b).1.mem =
        setBlock (splitted h.mem b (b + need) need) b fun x => { x with used := true } := by
      unfold kmalloc_take; rw [hsplit]
    have hsz6 : ((kmalloc_take h need b).1.mem b).size = need := by
      rw [hmem, setUsed_size, splitted_size, if_neg hbn, if_pos rfl]
    have htotal : (kmalloc_take h need b).1.total_allocated = h.total_allocated + need := by
      show (h.total_allocated + ((kmalloc_take h need b).1.mem b).size) % W32 = _
      rw [hsz6]
      apply Nat.mod_eq_of_lt
      unfold HEAP_SIZE at *; omega
    have hhead : (kmalloc_take h need b).1.memory_blocks_head = h.memory_blocks_head := rfl
    have hs5 := splitted_struct h.mem h.memory_blocks_head S _ b need inv.struct hb hn0
      (by omega)
    have hs6 := setUsed_struct _ h.memory_blocks_head _ _ b true hs5
    refine ⟨?_, insert (b + need) S, ⟨?_, ?_, ?_⟩⟩
    · show ((kmalloc_take h need b).1.mem b).address = _
      rw [hmem, setUsed_address, splitted_address, if_neg hbn]
      exact nb5
    · rw [hmem, hhead, htotal]
      exact struct_mono _ _ _ _ _ hs6 (by omega)
    · intro a ha hnext
      rw [hmem] at hnext ⊢
      rw [setUsed_next, splitted_next] at hnext
      rw [setUsed_used, setUsed_used, setUsed_next, splitted_next, splitted_used,
        splitted_used]
      by_cases hab : a = b
      · left; rw [if_pos hab]
      · rw [if_neg hab]
        rcases ha with ha | ha
        · have ha' : a = b + need := ha
          simp only [ha', if_true] at hnext ⊢
          right
          rw [if_neg hn2, if_neg hn1]
          rcases inv.nofree b hb hnext with hh | hh
          · rw [hfree] at hh; cases hh
          · exact hh
        · have han : a ≠ b + need := fun e => hnS (e ▸ ha)
          simp only [han, hab, if_false] at hnext ⊢
          split_ifs with h1 h2
          · exact Or.inr rfl
          · exact absurd (h2 ▸ (inv.struct.next_ok a ha hnext).1) hnS
          · exact inv.nofree a ha hnext
    · intro q
      rw [hmem]
      constructor
      · intro hq
        rcases hq with hq | hq
        · refine ⟨b, Set.mem_insert_of_mem _ hb, ?_, hq⟩
          rw [setUsed_used, if_pos rfl]
        · obtain ⟨a, haS, hau, rfl⟩ := (inv.live q).1 hq
          have han : a ≠ b + need := fun e => hnS (e ▸ haS)
          refine ⟨a, Set.mem_insert_of_mem _ haS, ?_, rfl⟩
          rw [setUsed_used, splitted_used, if_neg han, hau]
          split_ifs <;> rfl
      · rintro ⟨a, haS, hau, rfl⟩
        rw [setUsed_used, splitted_used] at hau
        by_cases hab : a = b
        · left; rw [hab]
        · right
          rw [if_neg hab] at hau
          rcases haS with haS | haS
          · have : a = b + need := haS
            rw [if_pos this] at hau; cases hau
          · have han : a ≠ b + need := fun e => hnS (e ▸ haS)
            rw [if_neg han] at hau
            exact (inv.live _).2 ⟨a, haS, hau, rfl⟩
  · -- whole block
    have hsplit : kmalloc_split h.mem need b = h.mem := by
      unfold kmalloc_split; rw [if_neg hc]
    have hmem : (kmalloc_take h need b).1.mem =
        setBlock h.mem b fun x => { x with used := true } := by
      unfold kmalloc_take; rw [hsplit]
    have hsz6 : ((kmalloc_take h need b).1.mem b).size = (h.mem b).size := by
      rw [hmem, setUsed_size]
    have htotal : (kmalloc_take h need b).1.total_allocated
        = h.total_allocated + (h.mem b).size := by
      show (h.total_allocated + ((kmalloc_take h need b).1.mem b).size) % W32 = _
      rw [hsz6]
      apply Nat.mod_eq_of_lt
      omega
    have hhead : (kmalloc_take h need b).1.memory_blocks_head = h.memory_blocks_head := rfl
    have hs6 := setUsed_struct _ h.memory_blocks_head _ _ b true inv.struct
    refine ⟨?_, S, ⟨?_, ?_, ?_⟩⟩
    · show ((kmalloc_take h need b).1.mem b).address = _
      rw [hmem, setUsed_address]
      exact nb5
    · rw [hmem, hhead, htotal]
      exact struct_mono _ _ _ _ _ hs6 (by omega)
    · intro a ha hnext
      rw [hmem] at hnext ⊢
      rw [setUsed_next] at hnext
      rw [setUsed_used, setUsed_used, setUsed_next]
      by_cases hab : a = b
      · left; rw [if_pos hab]
      · rw [if_neg hab]
        split_ifs with h1
        · exact Or.inr rfl
        · exact inv.nofree a ha hnext
    · intro q
      rw [hmem]
      constructor
      · intro hq
        rcases hq with hq | hq
        · exact ⟨b, hb, by rw [setUsed_used, if_pos rfl], hq⟩
        · obtain ⟨a, haS, hau, rfl⟩ := (inv.live q).1 hq
          refine ⟨a, haS, ?_, rfl⟩
          rw [setUsed_used, hau]
          split_ifs <;> rfl
      · rintro ⟨a, haS, hau, rfl⟩
        rw [setUsed_used] at hau
        by_cases hab : a = b
        · left; rw [hab]
        · right
          rw [if_neg hab] at hau
          exact (inv.live _).2 ⟨a, haS, hau, rfl⟩

theorem appended_next (m : Nat → memory_block_t) (nb need t a : Nat) :
    (appended m nb need t a).next =
      if a = nb then 0 else if a = t ∧ t ≠ 0 then nb else (m a).next := by
  unfold appended; split_ifs <;> rfl

theorem appended_prev (m : Nat → memory_block_t) (nb need t a : Nat) :
    (appended m nb need t a).prev = if a = nb then t else (m a).prev := by
  unfold appended; split_ifs <;> rfl

theorem appended_size (m : Nat → memory_block_t) (nb need t a : Nat) :
    (appended m nb need t a).size = if a = nb then need else (m a).size := by
  unfold appended; split_ifs <;> rfl

theorem appended_used (m : Nat → memory_block_t) (nb need t a : Nat) :
    (appended m nb need t a).used = if a = nb then true else (m a).used := by
  unfold appended; split_ifs <;> rfl

theorem appended_magic (m : Nat → memory_block_t) (nb need t a : Nat) :
    (appended m nb need t a).magic = if a = nb then HEAP_MAGIC else (m a).magic := by
  unfold appended; split_ifs <;> rfl

theorem appended_address (m : Nat → memory_block_t) (nb need t a : Nat) :
    (appended m nb need t a).address =
      if a = nb then nb + sizeof_memory_block_t else (m a).address := by
  unfold appended; split_ifs <;> rfl

theorem struct_lt_bound {m : Nat → memory_block_t} {head : Nat} {S : Set Nat} {B : Nat}
    (hs : HeapStruct m head S B) {a : Nat} (ha : a ∈ S) : a < B := by
  obtain ⟨_, h2, h3, _, _⟩ := hs.node a ha
  omega

theorem appended_struct (m : Nat → memory_block_t) (head : Nat) (S : Set Nat)
    (B nb need t : Nat) (hs : HeapStruct m head S B)
    (htail : (t = 0 ∧ head = 0) ∨ (t ∈ S ∧ (m t).next = 0)) (hnb : B ≤ nb)
    (hn0 : 0 < need) (hstart : HEAP_START ≤ nb) :
    HeapStruct (appended m nb need t) (if t ≠ 0 then head else nb) (insert nb S)
      (nb + need) := by
  have hnS : nb ∉ S := fun hmem => by
    have := struct_lt_bound hs hmem; omega
  have hnb0 : nb ≠ 0 := by unfold HEAP_START at hstart; omega
  have ht : t ≠ 0 → t ∈ S ∧ (m t).next = 0 := by
    intro h0
    rcases htail with ⟨h1, _⟩ | h1
    · exact absurd h1 h0
    · exact h1
  have hempty : t = 0 → ∀ a, a ∉ S := by
    intro h0
    rcases htail with ⟨_, h1⟩ | ⟨h1, _⟩
    · exact hs.head_zero h1
    · exact absurd h0 (struct_ne_zero hs h1)
  have hlast : ∀ a, a ∈ S → (m a).next = 0 → a = t := by
    intro a ha hz
    by_cases h0 : t = 0
    · exact absurd ha (hempty h0 a)
    · obtain ⟨htS, htz⟩ := ht h0
      by_contra hne
      rcases Nat.lt_or_gt_of_ne hne with hl | hl
      · exact (hs.next_least a t ha htS hl).1 hz
      · exact (hs.next_least t a htS ha hl).1 htz
  refine ⟨?_, ?_, ?_, ?_, ?_, ?_⟩
  · intro hh
    by_cases h0 : t = 0
    · simp only [h0, ne_eq, not_true_eq_false, if_false] at hh ⊢
      exact ⟨Set.mem_insert _ _, by rw [appended_prev, if_pos rfl]⟩
    · simp only [h0, ne_eq, not_false_eq_true, if_true] at hh ⊢
      obtain ⟨h1, h2⟩ := hs.head_mem hh
      have : head ≠ nb := fun e => hnS (e ▸ h1)
      exact ⟨Set.mem_insert_of_mem _ h1, by rw [appended_prev, if_neg this]; exact h2⟩
  · intro hh
    by_cases h0 : t = 0
    · simp only [h0, ne_eq, not_true_eq_false, if_false] at hh
      exact absurd hh hnb0
    · simp only [h0, ne_eq, not_false_eq_true, if_true] at hh
      exact absurd (ht h0).1 (hs.head_zero hh t)
  · intro a ha
    rw [appended_size, appended_magic, appended_address]
    rcases ha with ha | ha
    · have ha' : a = nb := ha
      simp only [ha', if_true]
      exact ⟨hstart, hn0, le_rfl, trivial, trivial⟩
    · have han : a ≠ nb := fun e => hnS (e ▸ ha)
      obtain ⟨n1, n2, n3, n4, n5⟩ := hs.node a ha
      simp only [han, if_false]
      exact ⟨n1, n2, by omega, n4, n5⟩
  · intro a ha hnext
    rw [appended_next] at hnext ⊢
    rw [appended_prev, appended_size]
    rcases ha with ha | ha
    · have ha' : a = nb := ha
      rw [if_pos ha'] at hnext
      exact absurd rfl hnext
    · have han : a ≠ nb := fun e => hnS (e ▸ ha)
      simp only [han, if_false] at hnext ⊢
      by_cases hat : a = t ∧ t ≠ 0
      · simp only [if_pos hat]
        refine ⟨Set.mem_insert _ _, by rw [if_pos trivial]; exact hat.1.symm, ?_⟩
        have := (hs.node a ha).2.2.1
        omega
      · rw [if_neg hat] at hnext ⊢
        obtain ⟨k1, k2, k3⟩ := hs.next_ok a ha hnext
        have : (m a).next ≠ nb := fun e => hnS (e ▸ k1)
        exact ⟨Set.mem_insert_of_mem _ k1, by rw [if_neg this]; exact k2, k3⟩
  · intro a ha hprev
    rw [appended_prev] at hprev ⊢
    rw [appended_next]
    rcases ha with ha | ha
    · have ha' : a = nb := ha
      rw [if_pos ha'] at hprev ⊢
      have htn : t ≠ nb := fun e => hnS (e ▸ (ht hprev).1)
      rw [if_neg htn, if_pos ⟨rfl, hprev⟩]
      exact ⟨Set.mem_insert_of_mem _ (ht hprev).1, ha'.symm⟩
    · have han : a ≠ nb := fun e => hnS (e ▸ ha)
      simp only [han, if_false] at hprev ⊢
      obtain ⟨k1, k2⟩ := hs.prev_ok a ha hprev
      have hpn : (m a).prev ≠ nb := fun e => hnS (e ▸ k1)
      refine ⟨Set.mem_insert_of_mem _ k1, ?_⟩
      rw [if_neg hpn]
      split_ifs with hc
      · have := (ht hc.2).2
        rw [← hc.1, k2] at this
        exact absurd this (struct_ne_zero hs ha)
      · exact k2
  · intro a c ha hc hlt
    rw [appended_next]
    rcases ha with ha | ha
    · have ha' : a = nb := ha
      rcases hc with hc | hc
      · have : c = nb := hc
        omega
      · have := struct_lt_bound hs hc
        omega
    · have han : a ≠ nb := fun e => hnS (e ▸ ha)
      simp only [han, if_false]
      rcases hc with hc | hc
      · have hc' : c = nb := hc
        by_cases hat : a = t ∧ t ≠ 0
        · rw [if_pos hat]
          exact ⟨hnb0, by omega⟩
        · rw [if_neg hat]
          have hnz : (m a).next ≠ 0 := by
            intro hz
            have := hlast a ha hz
            exact hat ⟨this, by rw [← this]; exact struct_ne_zero hs ha⟩
          have := struct_lt_bound hs (hs.next_ok a ha hnz).1
          exact ⟨hnz, by omega⟩
      · have := hs.next_least a c ha hc hlt
        split_ifs with hat
        · exact absurd (by rw [hat.1]; exact (ht hat.2).2) this.1
        · exact this

theorem bump_eq (h : Heap) (need t : Nat) (hroom : h.total_allocated + need ≤ HEAP_SIZE)
    (htn : t ≠ HEAP_START + h.total_allocated) :
    kmalloc_bump h need t =
      ({ h with
          mem := appended h.mem (HEAP_START + h.total_allocated) need t
          memory_blocks_head :=
            if t ≠ 0 then h.memory_blocks_head else HEAP_START + h.total_allocated
          total_allocated := h.total_allocated + need
          allocation_count := (h.allocation_count + 1) % W32
          memory_allocations := (h.memory_allocations + 1) % W64 },
       HEAP_START + h.total_allocated + sizeof_memory_block_t) := by
  have e1 : (h.total_allocated + need) % W32 = h.total_allocated + need :=
    Nat.mod_eq_of_lt (by unfold HEAP_SIZE W32 at *; omega)
  have e2 : (HEAP_START + h.total_allocated) % W32 = HEAP_START + h.total_allocated :=
    Nat.mod_eq_of_lt (by unfold HEAP_START HEAP_SIZE W32 at *; omega)
  have e3 : (HEAP_START + h.total_allocated + sizeof_memory_block_t) % W32
      = HEAP_START + h.total_allocated + sizeof_memory_block_t :=
    Nat.mod_eq_of_lt (by unfold HEAP_START HEAP_SIZE W32 sizeof_memory_block_t at *; omega)
  have hmem : (if t ≠ 0 then
        setBlock (setBlock h.mem (HEAP_START + h.total_allocated) fun _ =>
          { address := HEAP_START + h.total_allocated + sizeof_memory_block_t, size := need,
            used := true, magic := HEAP_MAGIC, next := 0, prev := t }) t
          fun b => { b with next := HEAP_START + h.total_allocated }
      else setBlock h.mem (HEAP_START + h.total_allocated) fun _ =>
          { address := HEAP_START + h.total_allocated + sizeof_memory_block_t, size := need,
            used := true, magic := HEAP_MAGIC, next := 0, prev := t })
      = appended h.mem (HEAP_START + h.total_allocated) need t := by
    funext a
    by_cases h0 : t = 0
    · by_cases h1 : a = HEAP_START + h.total_allocated
      · simp [setBlock, appended, h0, h1]
      · simp [setBlock, appended, h0, h1]
    · by_cases h1 : a = HEAP_START + h.total_allocated
      · simp [setBlock, appended, h0, h1, htn.symm]
      · by_cases h2 : a = t
        · simp [setBlock, appended, h0, h1, h2, htn]
        · simp [setBlock, appended, h0, h1, h2]
  unfold kmalloc_bump
  rw [if_neg (by rw [e1]; omega)]
  simp only [e1, e2, e3, hmem]
  congr 1
  simp [appended]

theorem bump_inv (h : Heap) (S live : Set Nat) (inv : HeapInv h S live) (need t : Nat)
    (htail : (t = 0 ∧ h.memory_blocks_head = 0) ∨ (t ∈ S ∧ (h.mem t).next = 0))
    (hneed : sizeof_memory_block_t ≤ need)
    (hroom : h.total_allocated + need ≤ HEAP_SIZE) :
    (kmalloc_bump h need t).2 = HEAP_START + h.total_allocated + sizeof_memory_block_t ∧
    ∃ S', HeapInv (kmalloc_bump h need t).1 S'
      (insert (HEAP_START + h.total_allocated + sizeof_memory_block_t) live) := by
  have hn0 : 0 < need := by unfold sizeof_memory_block_t at hneed; omega
  have hB : HEAP_START + min h.total_allocated HEAP_SIZE = HEAP_START + h.total_allocated := by
    rw [Nat.min_eq_left (by omega)]
  have hnS : HEAP_START + h.total_allocated ∉ S := fun hmem => by
    have := struct_lt_bound inv.struct hmem; omega
  have htn : t ≠ HEAP_START + h.total_allocated := by
    intro e
    rcases htail with ⟨h1, _⟩ | ⟨h1, _⟩
    · unfold HEAP_START at e; omega
    · exact hnS (e ▸ h1)
  rw [bump_eq h need t hroom htn]
  refine ⟨rfl, insert (HEAP_START + h.total_allocated) S, ⟨?_, ?_, ?_⟩⟩
  · show HeapStruct (appended h.mem (HEAP_START + h.total_allocated) need t)
      (if t ≠ 0 then h.memory_blocks_head else HEAP_START + h.total_allocated)
      (insert (HEAP_START + h.total_allocated) S)
      (HEAP_START + min (h.total_allocated + need) HEAP_SIZE)
    have := appended_struct h.mem h.memory_blocks_head S _ (HEAP_START + h.total_allocated)
      need t inv.struct htail (by rw [hB]) hn0 (by omega)
    rw [Nat.min_eq_left hroom]
    rw [Nat.add_assoc] at this
    exact this
  · intro a ha hnext
    show (appended h.mem (HEAP_START + h.total_allocated) need t a).used = true ∨
      (appended h.mem (HEAP_START + h.total_allocated) need t
        (appended h.mem (HEAP_START + h.total_allocated) need t a).next).used = true
    have hnext' : (appended h.mem (HEAP_START + h.total_allocated) need t a).next ≠ 0 := hnext
    rw [appended_next] at hnext' ⊢
    rw [appended_used, appended_used]
    rcases ha with ha | ha
    · have ha' : a = HEAP_START + h.total_allocated := ha
      rw [if_pos ha'] at hnext'
      exact absurd rfl hnext'
    · have han : a ≠ HEAP_START + h.total_allocated := fun e => hnS (e ▸ ha)
      rw [if_neg han] at hnext' ⊢
      rw [if_neg han]
      by_cases hat : a = t ∧ t ≠ 0
      · rw [if_pos hat, if_pos rfl]
        exact Or.inr rfl
      · rw [if_neg hat] at hnext' ⊢
        have hcn : (h.mem a).next ≠ HEAP_START + h.total_allocated :=
          fun e => hnS (e ▸ (inv.struct.next_ok a ha hnext').1)
        rw [if_neg hcn]
        exact inv.nofree a ha hnext'
  · intro q
    show q ∈ insert _ live ↔ ∃ a, a ∈ insert (HEAP_START + h.total_allocated) S ∧
      (appended h.mem (HEAP_START + h.total_allocated) need t a).used = true ∧
      q = a + sizeof_memory_block_t
    constructor
    · intro hq
      rcases hq with hq | hq
      · exact ⟨_, Set.mem_insert _ _, by rw [appended_used, if_pos rfl], hq⟩
      · obtain ⟨a, haS, hau, rfl⟩ := (inv.live q).1 hq
        have han : a ≠ HEAP_START + h.total_allocated := fun e => hnS (e ▸ haS)
        exact ⟨a, Set.mem_insert_of_mem _ haS, by rw [appended_used, if_neg han]; exact hau,
          rfl⟩
    · rintro ⟨a, haS, hau, rfl⟩
      rcases haS with haS | haS
      · left
        have : a = HEAP_START + h.total_allocated := haS
        rw [this]
      · right
        have han : a ≠ HEAP_START + h.total_allocated := fun e => hnS (e ▸ haS)
        rw [appended_used, if_neg han] at hau
        exact (inv.live _).2 ⟨a, haS, hau, rfl⟩

theorem scan_cases (h : Heap) (S live : Set Nat) (inv : HeapInv h S live) (need : Nat) :
    ∀ (fuel block prev : Nat) (r : Heap × Nat),
      (block = 0 ∨ block ∈ S) →
      ((prev = 0 ∧ h.memory_blocks_head = block) ∨ (prev ∈ S ∧ (h.mem prev).next = block)) →
      kmalloc_scan need fuel h block prev = some r →
      (∃ t, r = kmalloc_bump h need t ∧
        ((t = 0 ∧ h.memory_blocks_head = 0) ∨ (t ∈ S ∧ (h.mem t).next = 0))) ∨
      ∃ b, b ∈ S ∧ (h.mem b).used = false ∧ need ≤ (h.mem b).size ∧
        r = kmalloc_take h need b := by
  intro fuel
  induction fuel with
  | zero => intro block prev r _ _ hr; simp [kmalloc_scan] at hr
  | succ fuel ih =>
    intro block prev r hblock hprev hr
    unfold kmalloc_scan at hr
    by_cases hb0 : block = 0
    · rw [if_pos hb0] at hr
      injection hr with hr
      left
      refine ⟨prev, hr.symm, ?_⟩
      rw [hb0] at hprev
      exact hprev
    · rw [if_neg hb0] at hr
      have hbS : block ∈ S := by
        rcases hblock with h0 | h0
        · exact absurd h0 hb0
        · exact h0
      by_cases hfit : (h.mem block).used = false ∧ (h.mem block).size ≥ need
      · rw [if_pos hfit] at hr
        injection hr with hr
        right
        exact ⟨block, hbS, hfit.1, hfit.2, hr.symm⟩
      · rw [if_neg hfit] at hr
        refine ih (h.mem block).next block r ?_ (Or.inr ⟨hbS, rfl⟩) hr
        by_cases hn : (h.mem block).next = 0
        · exact Or.inl hn
        · exact Or.inr (inv.struct.next_ok block hbS hn).1

theorem need_eq (h : Heap) (size alignment : Nat) (hw : NoWrap h size alignment) :
    block_need size alignment = align_up size alignment + sizeof_memory_block_t ∧
    sizeof_memory_block_t ≤ block_need size alignment ∧
    h.total_allocated + block_need size alignment < W32 := by
  have e : block_need size alignment = align_up size alignment + sizeof_memory_block_t := by
    unfold block_need
    apply Nat.mod_eq_of_lt
    have := hw.2
    omega
  refine ⟨e, by rw [e]; omega, ?_⟩
  rw [e]
  have := hw.2
  omega

theorem kmalloc_inv (h : Heap) (S live : Set Nat) (inv : HeapInv h S live)
    (fuel size alignment : Nat) (hw : NoWrap h size alignment) (h' : Heap) (p : Nat)
    (hr : kmalloc_aligned fuel h size alignment = some (h', p)) :
    ∃ S', HeapInv h' S' (if p = 0 then live else insert p live) := by
  unfold kmalloc_aligned at hr
  by_cases hs0 : size = 0
  · rw [if_pos hs0] at hr
    injection hr with hr
    injection hr with h1 h2
    subst h1 h2
    exact ⟨S, by rw [if_pos rfl]; exact inv⟩
  · rw [if_neg hs0] at hr
    obtain ⟨_, hneed, hsum⟩ := need_eq h size alignment hw
    have hhead : h.memory_blocks_head = 0 ∨ h.memory_blocks_head ∈ S := by
      by_cases h0 : h.memory_blocks_head = 0
      · exact Or.inl h0
      · exact Or.inr (inv.struct.head_mem h0).1
    rcases scan_cases h S live inv _ fuel h.memory_blocks_head 0 (h', p) hhead
      (Or.inl ⟨rfl, rfl⟩) hr with ⟨t, hb, htail⟩ | ⟨b, hbS, hfree, hfit, ht⟩
    · by_cases hroom : h.total_allocated + block_need size alignment ≤ HEAP_SIZE
      · obtain ⟨hp, S', hinv⟩ := bump_inv h S live inv _ t htail hneed hroom
        rw [← hb] at hp hinv
        have hp' : p = HEAP_START + h.total_allocated + sizeof_memory_block_t := hp
        have hp0 : p ≠ 0 := by
          rw [hp']; unfold sizeof_memory_block_t; omega
        rw [if_neg hp0, hp']
        exact ⟨S', hinv⟩
      · have e : kmalloc_bump h (block_need size alignment) t = (h, 0) := by
          unfold kmalloc_bump
          rw [if_pos]
          rw [Nat.mod_eq_of_lt hsum]
          omega
        rw [e] at hb
        injection hb with h1 h2
        subst h1 h2
        exact ⟨S, by rw [if_pos rfl]; exact inv⟩
    · obtain ⟨hp, S', hinv⟩ := take_inv h S live inv _ b hbS hfree hfit hneed hw.1
      rw [← ht] at hp hinv
      have hp' : p = b + sizeof_memory_block_t := hp
      have hp0 : p ≠ 0 := by
        rw [hp']; unfold sizeof_memory_block_t; omega
      rw [if_neg hp0, hp']
      exact ⟨S', hinv⟩

theorem init_inv (h0 : Heap) : HeapInv (init_memory h0) ∅ ∅ := by
  refine ⟨⟨fun hh => absurd rfl hh, fun _ a ha => ha, fun a ha => absurd ha id,
    fun a ha => absurd ha id, fun a ha => absurd ha id, fun a c ha => absurd ha id⟩,
    fun a ha => absurd ha id, fun p => ?_⟩
  constructor
  · intro hp; exact absurd hp id
  · rintro ⟨a, ha, _⟩; exact absurd ha id

theorem reach_inv (h : Heap) (live : Set Nat) (hr : HeapReachNoWrap h live) :
    ∃ S, HeapInv h S live := by
  induction hr with
  | init h0 => exact ⟨∅, init_inv h0⟩
  | @alloc h live fuel size k h' p _ _ _ hw hres ih =>
    obtain ⟨S, inv⟩ := ih
    exact kmalloc_inv h S live inv fuel size (2 ^ k) hw h' p hres
  | @free h live p _ hp ih =>
    obtain ⟨S, inv⟩ := ih
    exact kfree_inv h S live inv p hp

theorem inList_mem {h : Heap} {S live : Set Nat} (inv : HeapInv h S live) {a : Nat}
    (ha : InList h a) : a ∈ S := by
  induction ha with
  | head h0 => exact (inv.struct.head_mem h0).1
  | next _ hn ih => exact (inv.struct.next_ok _ ih hn).1

/-- Without 32-bit wrap-around the eager coalescing of `kfree` and the split of
`kmalloc_aligned` keep the list free of neighbouring free blocks. -/
theorem no_adjacent_free_without_wrap (h : Heap) (live : Set Nat)
    (hr : HeapReachNoWrap h live) : ¬ AdjacentFree h := by
  obtain ⟨S, inv⟩ := reach_inv h live hr
  rintro ⟨b, hb, hn, _, h1, h2⟩
  rcases inv.nofree b (inList_mem inv hb) hn with h3 | h3
  · rw [h1] at h3; cases h3
  · rw [h2] at h3; cases h3

theorem kfree_unfold (h : Heap) (b : Nat) (hlt : b + sizeof_memory_block_t < W32)
    (hmg : (h.mem b).magic = HEAP_MAGIC) :
    kfree h (b + sizeof_memory_block_t) =
      { h with
        mem := kfree_merge_prev
          (kfree_merge_next (setBlock h.mem b fun x => { x with used := false }) b) b
        memory_frees := (h.memory_frees + 1) % W64 } := by
  have hp : b + sizeof_memory_block_t ≠ 0 := by
    unfold sizeof_memory_block_t; omega
  unfold kfree
  rw [if_neg hp]
  simp only [block_of_ptr b hlt, hmg, ne_eq, not_true_eq_false, if_false]

theorem setUsed_same (m : Nat → memory_block_t) (b : Nat) (u : Bool) (hu : (m b).used = u) :
    (setBlock m b fun x => { x with used := u }) = m := by
  funext a
  unfold setBlock
  split_ifs with hab
  · subst hab; subst hu; rfl
  · rfl

/-- C4 (amended). A second `kfree(p)` that directly follows the first `kfree(p)` of a live
pointer is not detected (the sentinel still matches and `memory_frees` counts it), but it
changes no header, the list head or `total_allocated`, provided that at the first `kfree`
the block had no left neighbour or a left neighbour in use, in every heap reachable without
32-bit wrap-around. -/
theorem second_kfree_ignored (h : Heap) (live : Set Nat) (p : Nat)
    (hr : HeapReachNoWrap h live) (hp : p ∈ live)
    (hleft : (h.mem (p - sizeof_memory_block_t)).prev = 0 ∨
      (h.mem (h.mem (p - sizeof_memory_block_t)).prev).used = true) :
    (kfree (kfree h p) p).mem = (kfree h p).mem ∧
    (kfree (kfree h p) p).memory_blocks_head = (kfree h p).memory_blocks_head ∧
    (kfree (kfree h p) p).total_allocated = (kfree h p).total_allocated ∧
    (kfree (kfree h p) p).memory_frees = ((kfree h p).memory_frees + 1) % W64 := by
  obtain ⟨S, inv⟩ := reach_inv h live hr
  obtain ⟨b, hb, hu, rfl⟩ := (inv.live p).1 hp
  rw [Nat.add_sub_cancel] at hleft
  obtain ⟨hlt, hb0⟩ := inv_block_lt inv hb
  have hB := bound_lt h.total_allocated
  obtain ⟨S4, hmid, hpv4, hu4⟩ := kfree_phase2 h.mem h.memory_blocks_head S _ b inv.struct hB hb
    inv.nofree
  generalize hm4 : kfree_merge_next (setBlock h.mem b fun x => { x with used := false }) b
    = m4 at hmid hpv4 hu4
  -- the left merge does nothing
  have hprev : kfree_merge_prev m4 b = m4 := by
    unfold kfree_merge_prev
    rw [if_neg]
    rintro ⟨h1, h2⟩
    rw [hpv4] at h1 h2
    rcases hleft with h0 | h0
    · exact h1 h0
    · have hpS := (inv.struct.prev_ok b hb h1).1
      have hne : (h.mem b).prev ≠ b := by
        intro e
        have hn := (inv.struct.prev_ok b hb h1).2
        rw [e] at hn
        have := struct_next_gt inv.struct hb (by rw [hn]; exact hb0)
        omega
      have := ((hu4 _).2 ⟨hpS, h0, hne⟩).2
      rw [h2] at this
      cases this
  -- nor does the right merge, the second time
  have hnext : kfree_merge_next m4 b = m4 := by
    unfold kfree_merge_next
    rw [if_neg]
    rintro ⟨h1, h2⟩
    have hgt := struct_next_gt hmid.struct hmid.mem h1
    rcases hmid.nofree b hmid.mem h1 (by omega) with h3 | h3
    · rw [hmid.free] at h3; cases h3
    · rw [h2] at h3; cases h3
  have e1 : kfree h (b + sizeof_memory_block_t) =
      { h with mem := m4, memory_frees := (h.memory_frees + 1) % W64 } := by
    rw [kfree_unfold h b hlt (inv.struct.node b hb).2.2.2.1, hm4, hprev]
  rw [e1]
  have hmg4 : (m4 b).magic = HEAP_MAGIC := (hmid.struct.node b hmid.mem).2.2.2.1
  rw [kfree_unfold _ b hlt hmg4]
  simp only [setUsed_same m4 b false hmid.free, hnext, hprev, and_self]

theorem scan_bump (h : Heap) (S live : Set Nat) (inv : HeapInv h S live) (need : Nat)
    (hfit : ∀ a, InList h a → ¬ ((h.mem a).used = false ∧ need ≤ (h.mem a).size)) :
    ∀ (fuel block prev : Nat),
      (block = 0 ∨ (block ∈ S ∧ InList h block)) →
      ((prev = 0 ∧ h.memory_blocks_head = block) ∨
        (prev ∈ S ∧ InList h prev ∧ (h.mem prev).next = block)) →
      (block = 0 → 1 ≤ fuel) →
      (block ≠ 0 → HEAP_START + min h.total_allocated HEAP_SIZE + 1 ≤ fuel + block) →
      ∃ t, ((t = 0 ∧ h.memory_blocks_head = 0) ∨
          (t ∈ S ∧ InList h t ∧ (h.mem t).next = 0)) ∧
        kmalloc_scan need fuel h block prev = some (kmalloc_bump h need t) := by
  intro fuel
  induction fuel with
  | zero =>
    intro block prev hblock _ h1 h2
    by_cases hb0 : block = 0
    · have := h1 hb0; omega
    · rcases hblock with h0 | ⟨hbS, _⟩
      · exact absurd h0 hb0
      · have := struct_lt_bound inv.struct hbS
        have := h2 hb0
        omega
  | succ fuel ih =>
    intro block prev hblock hprev h1 h2
    unfold kmalloc_scan
    by_cases hb0 : block = 0
    · rw [if_pos hb0]
      rw [hb0] at hprev
      exact ⟨prev, hprev, rfl⟩
    · rw [if_neg hb0]
      obtain ⟨hbS, hbL⟩ : block ∈ S ∧ InList h block := by
        rcases hblock with h0 | h0
        · exact absurd h0 hb0
        · exact h0
      rw [if_neg (hfit block hbL)]
      have hlt := struct_lt_bound inv.struct hbS
      have hfuel := h2 hb0
      by_cases hn : (h.mem block).next = 0
      · refine ih _ block (Or.inl hn) (Or.inr ⟨hbS, hbL, rfl⟩) (fun _ => by omega)
          (fun hne => absurd hn hne)
      · have hgt := struct_next_gt inv.struct hbS hn
        refine ih _ block (Or.inr ⟨(inv.struct.next_ok block hbS hn).1, InList.next hbL hn⟩)
          (Or.inr ⟨hbS, hbL, rfl⟩) (fun h0 => absurd h0 hn) (fun _ => by omega)

theorem kmalloc_bumps (h : Heap) (S live : Set Nat) (inv : HeapInv h S live)
    (size alignment : Nat) (hs0 : size ≠ 0)
    (hfit : ∀ a, InList h a →
      ¬ ((h.mem a).used = false ∧ block_need size alignment ≤ (h.mem a).size)) :
    ∃ t, ((t = 0 ∧ h.memory_blocks_head = 0) ∨
        (t ∈ S ∧ InList h t ∧ (h.mem t).next = 0)) ∧
      ∀ fuel, HEAP_SIZE + 2 ≤ fuel → kmalloc_aligned fuel h size alignment
        = some (kmalloc_bump h (block_need size alignment) t) := by
  have hhead : h.memory_blocks_head = 0 ∨
      (h.memory_blocks_head ∈ S ∧ InList h h.memory_blocks_head) := by
    by_cases h0 : h.memory_blocks_head = 0
    · exact Or.inl h0
    · exact Or.inr ⟨(inv.struct.head_mem h0).1, InList.head h0⟩
  have key : ∀ fuel, HEAP_SIZE + 2 ≤ fuel → ∃ t, ((t = 0 ∧ h.memory_blocks_head = 0) ∨
        (t ∈ S ∧ InList h t ∧ (h.mem t).next = 0)) ∧
      kmalloc_scan (block_need size alignment) fuel h h.memory_blocks_head 0
        = some (kmalloc_bump h (block_need size alignment) t) := by
    intro fuel hfuel
    refine scan_bump h S live inv _ hfit fuel h.memory_blocks_head 0 hhead
      (Or.inl ⟨rfl, rfl⟩) (fun _ => by omega) (fun hne => ?_)
    have := (inv.struct.node _ (inv.struct.head_mem hne).1).1
    omega
  obtain ⟨t, ht, _⟩ := key (HEAP_SIZE + 2) le_rfl
  refine ⟨t, ht, fun fuel hfuel => ?_⟩
  obtain ⟨t', ht', hres⟩ := key fuel hfuel
  have htt : t' = t := by
    rcases ht with ⟨h1, h2⟩ | ⟨h1, _, h3⟩
    · rcases ht' with ⟨h1', _⟩ | ⟨h1', _, _⟩
      · rw [h1, h1']
      · exact absurd h1' (inv.struct.head_zero h2 t')
    · rcases ht' with ⟨_, h2'⟩ | ⟨h1', _, h3'⟩
      · exact absurd h1 (inv.struct.head_zero h2' t)
      · by_contra hne
        rcases Nat.lt_or_gt_of_ne hne with hl | hl
        · exact (inv.struct.next_least t' t h1' h1 hl).1 h3'
        · exact (inv.struct.next_least t t' h1 h1' hl).1 h3
  unfold kmalloc_aligned
  rw [if_neg hs0, hres, htt]

/-- C2 (amended). In every heap reachable without 32-bit wrap-around, when `kmalloc(n)`
finds no fitting free block and bump-allocates the block `B` at `heap_start +
total_allocated` behind the tail `t` of the list, `kfree(kmalloc(n))` does not undo
the allocation: `total_allocated` stays increased by the size of `B`; `B` stays in the list
as a free block behind `t` (as the head if the list was empty), or, if `t` is free,
is merged into `t`, whose size grows by the size of `B`; every other header is unchanged. -/
theorem kfree_kmalloc_bump (h : Heap) (live : Set Nat) (n : Nat)
    (hr : HeapReachNoWrap h live) (hn : 0 < n) (hw : NoWrap h n 16)
    (hfit : ∀ a, InList h a →
      ¬ ((h.mem a).used = false ∧ block_need n 16 ≤ (h.mem a).size))
    (hroom : h.total_allocated + block_need n 16 ≤ HEAP_SIZE) :
    ∃ t h1, ((t = 0 ∧ h.memory_blocks_head = 0) ∨ (InList h t ∧ (h.mem t).next = 0)) ∧
      (∀ fuel, HEAP_SIZE + 2 ≤ fuel → kmalloc fuel h n
        = some (h1, HEAP_START + h.total_allocated + sizeof_memory_block_t)) ∧
      (kfree h1 (HEAP_START + h.total_allocated + sizeof_memory_block_t)).total_allocated
        = h.total_allocated + block_need n 16 ∧
      0 < block_need n 16 ∧
      (kfree h1 (HEAP_START + h.total_allocated + sizeof_memory_block_t)).memory_blocks_head
        = (if t = 0 then HEAP_START + h.total_allocated else h.memory_blocks_head) ∧
      (∀ a, a ≠ HEAP_START + h.total_allocated → a ≠ t →
        (kfree h1 (HEAP_START + h.total_allocated + sizeof_memory_block_t)).mem a
          = h.mem a) ∧
      (t ≠ 0 → (h.mem t).used = false →
        (kfree h1 (HEAP_START + h.total_allocated + sizeof_memory_block_t)).mem t
          = { h.mem t with size := (h.mem t).size + block_need n 16 }) ∧
      (t = 0 ∨ (h.mem t).used = true →
        (kfree h1 (HEAP_START + h.total_allocated + sizeof_memory_block_t)).mem
            (HEAP_START + h.total_allocated)
          = { address := HEAP_START + h.total_allocated + sizeof_memory_block_t,
              size := block_need n 16, used := false, magic := HEAP_MAGIC, next := 0,
              prev := t } ∧
        (t ≠ 0 →
          (kfree h1 (HEAP_START + h.total_allocated + sizeof_memory_block_t)).mem t
            = { h.mem t with next := HEAP_START + h.total_allocated })) := by
  obtain ⟨S, inv⟩ := reach_inv h live hr
  obtain ⟨_, hneed, _⟩ := need_eq h n 16 hw
  have hn0 : 0 < block_need n 16 := by unfold sizeof_memory_block_t at hneed; omega
  obtain ⟨t, ht, hres⟩ := kmalloc_bumps h S live inv n 16 (by omega) hfit
  have htail : (t = 0 ∧ h.memory_blocks_head = 0) ∨ (t ∈ S ∧ (h.mem t).next = 0) := by
    rcases ht with h1 | ⟨h1, _, h3⟩
    · exact Or.inl h1
    · exact Or.inr ⟨h1, h3⟩
  have hB : HEAP_START + min h.total_allocated HEAP_SIZE = HEAP_START + h.total_allocated := by
    rw [Nat.min_eq_left (by omega)]
  have hnS : HEAP_START + h.total_allocated ∉ S := fun hmem => by
    have := struct_lt_bound inv.struct hmem; omega
  have htn : t ≠ HEAP_START + h.total_allocated := by
    intro e
    rcases htail with ⟨h1, _⟩ | ⟨h1, _⟩
    · unfold HEAP_START at e; omega
    · exact hnS (e ▸ h1)
  have hbe := bump_eq h (block_need n 16) t hroom htn
  generalize hnew : HEAP_START + h.total_allocated = new at *
  generalize hneedv : block_need n 16 = need at *
  have hnewlt : new + sizeof_memory_block_t < W32 := by
    rw [← hnew]; unfold HEAP_START HEAP_SIZE W32 sizeof_memory_block_t at *; omega
  -- memory after the first phase of `kfree`
  have hm1next : (setBlock (appended h.mem new need t) new
      (fun x => { x with used := false }) new).next = 0 := by
    rw [setUsed_next, appended_next, if_pos rfl]
  have hmn : kfree_merge_next (setBlock (appended h.mem new need t) new
      fun x => { x with used := false }) new
      = setBlock (appended h.mem new need t) new fun x => { x with used := false } := by
    unfold kfree_merge_next
    rw [if_neg (fun hc => hc.1 hm1next)]
  have hkf := kfree_unfold
    { h with
        mem := appended h.mem new need t
        memory_blocks_head := if t ≠ 0 then h.memory_blocks_head else new
        total_allocated := h.total_allocated + need
        allocation_count := (h.allocation_count + 1) % W32
        memory_allocations := (h.memory_allocations + 1) % W64 }
    new hnewlt (by show (appended h.mem new need t new).magic = _
                   rw [appended_magic, if_pos rfl])
  simp only [hmn] at hkf
  refine ⟨t,
    { h with
        mem := appended h.mem new need t
        memory_blocks_head := if t ≠ 0 then h.memory_blocks_head else new
        total_allocated := h.total_allocated + need
        allocation_count := (h.allocation_count + 1) % W32
        memory_allocations := (h.memory_allocations + 1) % W64 },
    ?_, fun fuel hfuel => ?_, ?_⟩
  · rcases ht with h1 | ⟨_, h2, h3⟩
    · exact Or.inl h1
    · exact Or.inr ⟨h2, h3⟩
  · unfold kmalloc
    rw [hres fuel hfuel, hbe]
  · rw [hkf]
    refine ⟨rfl, hn0, ?_, ?_, ?_, ?_⟩
    · show (if t ≠ 0 then h.memory_blocks_head else new) = _
      by_cases h0 : t = 0 <;> simp [h0]
    · intro a ha1 ha2
      show kfree_merge_prev _ new a = _
      unfold kfree_merge_prev
      split_ifs with hc
      · simp [setBlock, appended, ha1, ha2, htn, htn.symm, Ne.symm ha1]
      · simp [setBlock, appended, ha1, ha2]
    · intro ht0 htfree
      show kfree_merge_prev _ new t = _
      obtain ⟨htS, htz⟩ : t ∈ S ∧ (h.mem t).next = 0 := by
        rcases htail with ⟨h1, _⟩ | h1
        · exact absurd h1 ht0
        · exact h1
      have hsz : ((h.mem t).size + need) % W32 = (h.mem t).size + need := by
        apply Nat.mod_eq_of_lt
        have := (inv.struct.node t htS).2.2.1
        unfold HEAP_START HEAP_SIZE W32 at *
        omega
      unfold kfree_merge_prev
      simp [setBlock, appended, htn, htn.symm, ht0, htfree, hsz, htz]
    · intro hcase
      have hnomerge : kfree_merge_prev (setBlock (appended h.mem new need t) new
          fun x => { x with used := false }) new
          = setBlock (appended h.mem new need t) new fun x => { x with used := false } := by
        unfold kfree_merge_prev
        rw [if_neg]
        rintro ⟨h1, h2⟩
        rw [setUsed_prev, appended_prev, if_pos rfl] at h1 h2
        rw [setUsed_used, if_neg htn, appended_used, if_neg htn] at h2
        rcases hcase with h0 | h0
        · exact h1 h0
        · rw [h0] at h2; cases h2
      show kfree_merge_prev _ new new = _ ∧ (t ≠ 0 → kfree_merge_prev _ new t = _)
      rw [hnomerge]
      refine ⟨by simp [setBlock, appended], fun ht0 => ?_⟩
      simp [setBlock, appended, htn, ht0]

/-- C4 (amended), on `X = kmalloc(16); A = kmalloc(16)`: `kfree(A)` directly followed by
`kfree(A)`. -/
theorem second_kfree_ignored_witness :
    (kfree (kfree scen_h2 0x400040) 0x400040).mem = (kfree scen_h2 0x400040).mem ∧
    (kfree (kfree scen_h2 0x400040) 0x400040).memory_blocks_head
      = (kfree scen_h2 0x400040).memory_blocks_head ∧
    (kfree (kfree scen_h2 0x400040) 0x400040).total_allocated
      = (kfree scen_h2 0x400040).total_allocated ∧
    (kfree (kfree scen_h2 0x400040) 0x400040).memory_frees
      = ((kfree scen_h2 0x400040).memory_frees + 1) % W64 := by
  have r0 : HeapReachNoWrap (init_memory boot_heap) ∅ := HeapReachWith.init _
  have r1 := HeapReachWith.alloc 8 16 4 scen_h1 0x400018 r0 (by decide) (by decide)
    ⟨by decide, by decide⟩ rfl
  have r2 := HeapReachWith.alloc 8 16 4 scen_h2 0x400040 r1 (by decide) (by decide)
    ⟨by decide, by decide⟩ rfl
  exact second_kfree_ignored scen_h2 _ 0x400040 r2 (by simp) (Or.inr (by decide))

theorem inList_scen_h1 (a : Nat) (ha : InList scen_h1 a) : a = 0x400000 := by
  induction ha with
  | head _ => rfl
  | next _ hn ih =>
    rw [ih] at hn
    exact absurd rfl hn

/-- C2 (amended), on the heap after `X = kmalloc(16)`: `kfree(kmalloc(16))` leaves
`total_allocated` at 80. -/
theorem kfree_kmalloc_bump_witness :
    ∃ h1, (∀ fuel, HEAP_SIZE + 2 ≤ fuel → kmalloc fuel scen_h1 16
        = some (h1, HEAP_START + scen_h1.total_allocated + sizeof_memory_block_t)) ∧
      (kfree h1 (HEAP_START + scen_h1.total_allocated + sizeof_memory_block_t)).total_allocated
        = scen_h1.total_allocated + block_need 16 16 := by
  have r0 : HeapReachNoWrap (init_memory boot_heap) ∅ := HeapReachWith.init _
  have r1 := HeapReachWith.alloc 8 16 4 scen_h1 0x400018 r0 (by decide) (by decide)
    ⟨by decide, by decide⟩ rfl
  obtain ⟨_, h1, _, hk, ht, _⟩ := kfree_kmalloc_bump scen_h1 _ 16 r1 (by decide)
    ⟨by decide, by decide⟩
    (fun a ha => by
      rw [inList_scen_h1 a ha]
      decide)
    (by decide)
  exact ⟨h1, hk, ht⟩

/-! ## Interrupt controller -/

/-- C11 (code defect). The mask bytes that `pic_remap` writes last are `0xFD` to port `0x21`
and `0xFF` to port `0xA1`: all eight slave lines are masked and the keyboard line (bit 1) is
unmasked on the master, but bit 0 of `0xFD` is set, so the timer line IRQ 0 is masked. -/
theorem pic_remap_masks_timer (k : Kernel) :
    last_outb (pic_remap k) PIC1_DATA = some 0xFD ∧
    last_outb (pic_remap k) PIC2_DATA = some 0xFF ∧
    irq_masked 0xFD 0 = true ∧ irq_masked 0xFD 1 = false ∧
    (∀ irq, irq < 8 → irq_masked 0xFF irq = true) := by
  refine ⟨?_, ?_, by decide, by decide, by decide⟩
  · simp [last_outb, pic_remap, io_wait, outb, PIC1_COMMAND, PIC1_DATA, PIC2_COMMAND,
      PIC2_DATA, List.foldl_append]
  · simp [last_outb, pic_remap, io_wait, outb, PIC1_COMMAND, PIC1_DATA, PIC2_COMMAND,
      PIC2_DATA, List.foldl_append]

/-! ## Heap: rejected frees and the range of the blocks -/

/-- C18. `kfree(NULL)`, and `kfree` of a non-null pointer whose header does not carry the
sentinel `0xDEADBEEF`, leave the whole heap state as it was: every header (used flag, size,
links), the list head, `total_allocated` and the counter `memory_frees`. -/
theorem kfree_bad_magic_dropped (h : Heap) (ptr : Nat)
    (hbad : ptr = 0 ∨
      (h.mem ((ptr + W32 - sizeof_memory_block_t) % W32)).magic ≠ HEAP_MAGIC) :
    kfree h ptr = h := by
  unfold kfree
  by_cases hp : ptr = 0
  · rw [if_pos hp]
  · rw [if_neg hp]
    rcases hbad with h0 | hm
    · exact absurd h0 hp
    · simp only [hm, ne_eq, not_false_eq_true, if_true]

/-- C18, on the heap after `kmalloc(16)`: `0x400040` is not null and the header at
`0x400028` was never written, so `kfree(0x400040)` is dropped. -/
theorem kfree_bad_magic_dropped_witness :
    (scen_h1.mem ((0x400040 + W32 - sizeof_memory_block_t) % W32)).magic ≠ HEAP_MAGIC ∧
    kfree scen_h1 0x400040 = scen_h1 :=
  ⟨by decide, kfree_bad_magic_dropped scen_h1 0x400040 (Or.inr (by decide))⟩

/-- Without 32-bit wrap-around every block of the list carries the sentinel and lies inside
the heap. -/
theorem blocks_in_heap_without_wrap (h : Heap) (live : Set Nat)
    (hr : HeapReachNoWrap h live) (b : Nat) (hb : InList h b) :
    (h.mem b).magic = HEAP_MAGIC ∧ HEAP_START ≤ b ∧
      b + (h.mem b).size ≤ HEAP_START + HEAP_SIZE := by
  obtain ⟨S, inv⟩ := reach_inv h live hr
  obtain ⟨h1, _, h3, h4, _⟩ := inv.struct.node b (inList_mem inv hb)
  refine ⟨h4, h1, ?_⟩
  have := Nat.min_le_right h.total_allocated HEAP_SIZE
  omega

/-- C19 (code defect). After `X = kmalloc(16); A = kmalloc(16); H = kmalloc(0xFFFFFFC0)`
the list holds the block `0x400050` with the sentinel and size `0xFFFFFFD8`: the request
plus the header wrapped past the `HEAP_SIZE` check, and the byte range of the block ends
far beyond `HEAP_START + HEAP_SIZE`. -/
theorem block_beyond_heap :
    ∃ live, HeapReach scen_h3 live ∧ InList scen_h3 0x400050 ∧
      (scen_h3.mem 0x400050).magic = HEAP_MAGIC ∧
      (scen_h3.mem 0x400050).size = 0xFFFFFFD8 ∧
      ¬ (0x400050 + (scen_h3.mem 0x400050).size ≤ HEAP_START + HEAP_SIZE) := by
  have r0 : HeapReach (init_memory boot_heap) ∅ := HeapReachWith.init _
  have r1 := HeapReachWith.alloc 8 16 4 scen_h1 0x400018 r0
    (by decide) (by decide) trivial rfl
  have r2 := HeapReachWith.alloc 8 16 4 scen_h2 0x400040 r1
    (by decide) (by decide) trivial rfl
  have r3 := HeapReachWith.alloc 8 0xFFFFFFC0 4 scen_h3 0x400068 r2
    (by decide) (by decide) trivial rfl
  have i0 : InList scen_h3 0x400000 := InList.head (by decide)
  have e0 : (scen_h3.mem 0x400000).next = 0x400028 := by decide
  have i1 : InList scen_h3 0x400028 := e0 ▸ InList.next i0 (by decide)
  have e1 : (scen_h3.mem 0x400028).next = 0x400050 := by decide
  have i2 : InList scen_h3 0x400050 := e1 ▸ InList.next i1 (by decide)
  exact ⟨_, r3, i2, by decide, by decide, by decide⟩

/-! ## Page-frame allocator: the zero result -/

/-- In every reachable state a zero result of `alloc_frame` has one of two meanings: frame 0
was free and has just been allocated, or no frame is free and nothing changed. -/
theorem alloc_frame_zero_cases (fa : page_frame_allocator_t) (h : FrameReach fa)
    (hz : (alloc_frame fa).2 = 0) :
    (frame_bit fa 0 = 0 ∧ alloc_frame fa = (take_frame fa 0, 0)) ∨
    (alloc_frame fa = (fa, 0) ∧ ∀ i, i < fa.total_frames → frame_bit fa i ≠ 0) := by
  have inv := frameReach_inv fa h
  rcases alloc_frame_spec fa with ⟨h1, h2⟩ | ⟨j, h1, h2, h3, h4, h5⟩
  · right
    refine ⟨h1, fun i hi hc => ?_⟩
    exact h2 i (inv.hint i hi hc) hi hc
  · left
    rw [h5] at hz
    have ht := inv.total
    have hj : j = 0 := by
      have hz2 : j * PAGE_SIZE % W32 = 0 := hz
      unfold PAGE_SIZE W32 at hz2
      omega
    subst hj
    exact ⟨h3, by rw [h5, Nat.zero_mul, Nat.zero_mod]⟩

/-- C20 (code defect). In the state right after `init_paging` the first `alloc_frame`
returns 0 although it has allocated a frame: bit 0 of the bitmap was clear and is now set,
`used_frames` went from 0 to 1 and `free_frames` from 32768 to 32767. -/
theorem alloc_frame_zero_allocates :
    FrameReach boot_frames ∧ (alloc_frame boot_frames).2 = 0 ∧
    frame_bit boot_frames 0 = 0 ∧ frame_bit (alloc_frame boot_frames).1 0 ≠ 0 ∧
    boot_frames.used_frames = 0 ∧ (alloc_frame boot_frames).1.used_frames = 1 ∧
    boot_frames.free_frames = 32768 ∧ (alloc_frame boot_frames).1.free_frames = 32767 := by
  refine ⟨?_, by decide, by decide, by decide, by decide, by decide, by decide, by decide⟩
  exact FrameReach.init 2 { boot_kernel with heap := init_memory boot_heap }
    ((init_paging 2 { boot_kernel with heap := init_memory boot_heap }).getD boot_kernel) rfl

/-! ## Heap: allocate twice, free twice -/

theorem and_mask16 (x : Nat) (hx : x < 2 ^ 32) : x &&& 4294967280 = x / 16 * 16 := by
  apply Nat.eq_of_testBit_eq
  intro i
  have e1 : (4294967280 : Nat) = (2 ^ 28 - 1) <<< 4 := by decide
  have e2 : x / 16 * 16 = (x >>> 4) <<< 4 := by
    rw [Nat.shiftLeft_eq, Nat.shiftRight_eq_div_pow]
  rw [e2, Nat.testBit_and, e1, Nat.testBit_shiftLeft, Nat.testBit_shiftLeft,
    Nat.testBit_two_pow_sub_one, Nat.testBit_shiftRight]
  by_cases h4 : 4 ≤ i
  · by_cases h32 : i < 32
    · have : i - 4 < 28 := by omega
      simp [h4, this]
    · have hf : x.testBit i = false :=
        Nat.testBit_eq_false_of_lt (lt_of_lt_of_le hx (Nat.pow_le_pow_right (by decide) (by omega)))
      have e : 4 + (i - 4) = i := by omega
      simp [h4, hf, e]
  · simp [h4]

theorem align_up_16 (n : Nat) (hn : n + 15 < W32) : align_up n 16 = (n + 15) / 16 * 16 := by
  unfold align_up
  have e1 : (n + 16 + W32 - 1) % W32 = n + 15 := by
    unfold W32 at *; omega
  have e2 : (W32 - 1) ^^^ ((16 + W32 - 1) % W32) = 4294967280 := by decide
  rw [e1, e2]
  exact and_mask16 _ hn
theorem pair_alloc (h0 : Heap) (d f : Nat) (hd : 0 < d) (hfit : 2 * d ≤ HEAP_SIZE) :
    ∃ h1 h2,
      kmalloc_scan d (f + 2) (init_memory h0) (init_memory h0).memory_blocks_head 0
        = some (h1, HEAP_START + sizeof_memory_block_t) ∧
      kmalloc_scan d (f + 2) h1 h1.memory_blocks_head 0
        = some (h2, HEAP_START + d + sizeof_memory_block_t) ∧
      h2.memory_blocks_head = HEAP_START ∧ h2.total_allocated = 2 * d ∧
      h2.memory_frees = h0.memory_frees ∧
      h2.mem HEAP_START =
        { address := HEAP_START + sizeof_memory_block_t, size := d, used := true,
          magic := HEAP_MAGIC, next := HEAP_START + d, prev := 0 } ∧
      h2.mem (HEAP_START + d) =
        { address := HEAP_START + d + sizeof_memory_block_t, size := d, used := true,
          magic := HEAP_MAGIC, next := 0, prev := HEAP_START } := by
  have b1 := bump_eq (init_memory h0) d 0 (by simp only [init_memory]; omega)
    (by unfold HEAP_START; omega)
  have t1 : (kmalloc_bump (init_memory h0) d 0).1.total_allocated = d := by
    rw [b1]; simp [init_memory]
  have hd1 : (kmalloc_bump (init_memory h0) d 0).1.memory_blocks_head = HEAP_START := by
    rw [b1]; simp [init_memory]
  have m1 : (kmalloc_bump (init_memory h0) d 0).1.mem HEAP_START =
      { address := HEAP_START + sizeof_memory_block_t, size := d, used := true,
        magic := HEAP_MAGIC, next := 0, prev := 0 } := by
    rw [b1]; simp [init_memory, appended]
  have b2 := bump_eq (kmalloc_bump (init_memory h0) d 0).1 d HEAP_START
    (by rw [t1]; omega) (by rw [t1]; omega)
  rw [t1] at b2
  have hne : HEAP_START ≠ HEAP_START + d := by omega
  have hs0 : HEAP_START ≠ 0 := by decide
  refine ⟨(kmalloc_bump (init_memory h0) d 0).1,
    (kmalloc_bump (kmalloc_bump (init_memory h0) d 0).1 d HEAP_START).1, ?_, ?_, ?_, ?_, ?_,
    ?_, ?_⟩
  · have : (kmalloc_bump (init_memory h0) d 0).2 = HEAP_START + sizeof_memory_block_t := by
      rw [b1]; simp [init_memory]
    rw [← this]
    simp [kmalloc_scan, init_memory]
  · have : (kmalloc_bump (kmalloc_bump (init_memory h0) d 0).1 d HEAP_START).2
        = HEAP_START + d + sizeof_memory_block_t := by
      rw [b2]
    rw [← this, hd1]
    simp [kmalloc_scan, m1, hs0]
  · rw [b2]; simp [hs0, hd1]
  · rw [b2]; simp; omega
  · rw [b2]; simp; rw [b1]; simp [init_memory]
  · rw [b2]; simp [appended, hne, hs0, m1]
  · rw [b2]; simp [appended]
theorem pair_free (h2 : Heap) (d : Nat) (hd : 0 < d) (hfit : 2 * d ≤ HEAP_SIZE)
    (mA : h2.mem HEAP_START =
      { address := HEAP_START + sizeof_memory_block_t, size := d, used := true,
        magic := HEAP_MAGIC, next := HEAP_START + d, prev := 0 })
    (mB : h2.mem (HEAP_START + d) =
      { address := HEAP_START + d + sizeof_memory_block_t, size := d, used := true,
        magic := HEAP_MAGIC, next := 0, prev := HEAP_START }) :
    (kfree (kfree h2 (HEAP_START + sizeof_memory_block_t))
        (HEAP_START + d + sizeof_memory_block_t)).mem HEAP_START =
      { address := HEAP_START + sizeof_memory_block_t, size := 2 * d, used := false,
        magic := HEAP_MAGIC, next := 0, prev := 0 } ∧
    (kfree (kfree h2 (HEAP_START + sizeof_memory_block_t))
        (HEAP_START + d + sizeof_memory_block_t)).memory_blocks_head = h2.memory_blocks_head ∧
    (kfree (kfree h2 (HEAP_START + sizeof_memory_block_t))
        (HEAP_START + d + sizeof_memory_block_t)).total_allocated = h2.total_allocated := by
  have hne : HEAP_START ≠ HEAP_START + d := by omega
  have hne2 : HEAP_START + d ≠ HEAP_START := by omega
  have hs0 : HEAP_START ≠ 0 := by decide
  have hsd0 : HEAP_START + d ≠ 0 := by unfold HEAP_START; omega
  have e2 : (d + d) % W32 = 2 * d := by
    unfold HEAP_SIZE at hfit
    unfold W32
    omega
  have k1 := kfree_unfold h2 HEAP_START (by decide) (by rw [mA])
  have mem3 : (kfree h2 (HEAP_START + sizeof_memory_block_t)).mem
      = setBlock h2.mem HEAP_START fun x => { x with used := false } := by
    rw [k1]
    simp [kfree_merge_next, kfree_merge_prev, setBlock, mA, mB, hne, hne2, hs0, hsd0]
  have k2 := kfree_unfold (kfree h2 (HEAP_START + sizeof_memory_block_t)) (HEAP_START + d)
    (by unfold HEAP_START HEAP_SIZE W32 sizeof_memory_block_t at *; omega)
    (by rw [mem3]; simp [setBlock, hne2, mB])
  rw [k2, mem3, k1]
  refine ⟨?_, rfl, rfl⟩
  simp [kfree_merge_next, kfree_merge_prev, setBlock, mA, mB, hne, hne2, hs0, hsd0, e2]
theorem block_need_16 (n : Nat) (hfit : 2 * ((n + 15) / 16 * 16 + sizeof_memory_block_t) ≤ HEAP_SIZE) :
    block_need n 16 = (n + 15) / 16 * 16 + sizeof_memory_block_t := by
  have hb : n + 15 < W32 := by
    unfold HEAP_SIZE sizeof_memory_block_t at hfit
    unfold W32
    omega
  unfold block_need
  rw [align_up_16 n hb]
  apply Nat.mod_eq_of_lt
  unfold HEAP_SIZE at hfit
  unfold W32
  omega

theorem block_need_200 : block_need 200 16 = 232 := by decide

theorem inList_single (h : Heap) (a : Nat) (hh : h.memory_blocks_head = a) (ha : a ≠ 0)
    (hn : (h.mem a).next = 0) (b : Nat) : InList h b ↔ b = a := by
  constructor
  · intro hb
    induction hb with
    | head _ => exact hh
    | next _ hne ih =>
      rw [ih] at hne
      exact absurd hn hne
  · intro e
    rw [e, ← hh]
    exact InList.head (by rw [hh]; exact ha)

theorem served_from_coalesced (h4 : Heap) (f : Nat) (hh : h4.memory_blocks_head = HEAP_START)
    (hm : h4.mem HEAP_START =
      { address := HEAP_START + sizeof_memory_block_t, size := 272, used := false,
        magic := HEAP_MAGIC, next := 0, prev := 0 }) :
    kmalloc (f + 1) h4 200
      = some ((kmalloc_take h4 232 HEAP_START).1, HEAP_START + sizeof_memory_block_t) ∧
    (kmalloc_take h4 232 HEAP_START).1.memory_blocks_head = HEAP_START ∧
    (kmalloc_take h4 232 HEAP_START).1.mem HEAP_START =
      { address := HEAP_START + sizeof_memory_block_t, size := 272, used := true,
        magic := HEAP_MAGIC, next := 0, prev := 0 } := by
  have hs0 : HEAP_START ≠ 0 := by decide
  refine ⟨?_, ?_, ?_⟩
  · simp [kmalloc, kmalloc_aligned, block_need_200, kmalloc_scan, hh, hm, hs0, kmalloc_take,
      kmalloc_split, setBlock, W32, sizeof_memory_block_t]
  · simp [kmalloc_take, hh]
  · simp [kmalloc_take, kmalloc_split, setBlock, hm, W32, sizeof_memory_block_t]

/-- C17 (counterexample). For `n = HEAP_SIZE` both `kmalloc(n)` calls on the empty heap
return `NULL` (the request plus its header exceeds the heap), the two `kfree(NULL)` calls do
nothing, and the block list is empty at the end: there is no coalesced block. -/
theorem coalesce_needs_room :
    0 < HEAP_SIZE ∧
    kmalloc 2 (init_memory boot_heap) HEAP_SIZE = some (init_memory boot_heap, 0) ∧
    (kfree (kfree (init_memory boot_heap) 0) 0).memory_blocks_head = 0 ∧
    ∀ b, ¬ InList (kfree (kfree (init_memory boot_heap) 0) 0) b := by
  refine ⟨by decide, rfl, rfl, ?_⟩
  intro b hb
  have h0 : (kfree (kfree (init_memory boot_heap) 0) 0).memory_blocks_head = 0 := rfl
  induction hb with
  | head hne => exact hne h0
  | next _ _ ih => exact ih

/-- C17 (amended). On the empty heap, for every `n > 0` whose two blocks fit in the heap
(`2 * (n rounded up to 16 + 24) ≤ HEAP_SIZE`), both `kmalloc(n)` calls succeed with blocks
of size `n rounded up to 16 + 24` each, at `HEAP_START` and right behind it; after
`kfree(p1); kfree(p2)` the list consists of the single block `HEAP_START`, which is free and
whose size is the sum of the two. For `n = 100` a following `kmalloc(200)` returns `p1`
again, and the list still consists of that one block, now in use. -/
theorem alloc_free_coalesce (h0 : Heap) (fuel n : Nat) (hfuel : 2 ≤ fuel) (hn : 0 < n)
    (hfit : 2 * ((n + 15) / 16 * 16 + sizeof_memory_block_t) ≤ HEAP_SIZE) :
    ∃ h1 h2,
      kmalloc fuel (init_memory h0) n = some (h1, HEAP_START + sizeof_memory_block_t) ∧
      kmalloc fuel h1 n
        = some (h2, HEAP_START + ((n + 15) / 16 * 16 + sizeof_memory_block_t) + sizeof_memory_block_t) ∧
      (h2.mem HEAP_START).size = ((n + 15) / 16 * 16 + sizeof_memory_block_t) ∧
      (h2.mem HEAP_START).next = HEAP_START + ((n + 15) / 16 * 16 + sizeof_memory_block_t) ∧
      (h2.mem (HEAP_START + ((n + 15) / 16 * 16 + sizeof_memory_block_t))).size
        = ((n + 15) / 16 * 16 + sizeof_memory_block_t) ∧
      (∀ b, InList (kfree (kfree h2 (HEAP_START + sizeof_memory_block_t))
          (HEAP_START + ((n + 15) / 16 * 16 + sizeof_memory_block_t) + sizeof_memory_block_t)) b
        ↔ b = HEAP_START) ∧
      ((kfree (kfree h2 (HEAP_START + sizeof_memory_block_t))
          (HEAP_START + ((n + 15) / 16 * 16 + sizeof_memory_block_t) + sizeof_memory_block_t)).mem
        HEAP_START).used = false ∧
      ((kfree (kfree h2 (HEAP_START + sizeof_memory_block_t))
          (HEAP_START + ((n + 15) / 16 * 16 + sizeof_memory_block_t) + sizeof_memory_block_t)).mem
        HEAP_START).size = 2 * ((n + 15) / 16 * 16 + sizeof_memory_block_t) ∧
      (n = 100 → ∃ h5,
        kmalloc fuel (kfree (kfree h2 (HEAP_START + sizeof_memory_block_t))
            (HEAP_START + ((n + 15) / 16 * 16 + sizeof_memory_block_t) + sizeof_memory_block_t)) 200
          = some (h5, HEAP_START + sizeof_memory_block_t) ∧
        (∀ b, InList h5 b ↔ b = HEAP_START) ∧
        (h5.mem HEAP_START).used = true ∧ (h5.mem HEAP_START).size = 272) := by
  obtain ⟨f, rfl⟩ : ∃ f, fuel = f + 2 := ⟨fuel - 2, by omega⟩
  have hd : 0 < (n + 15) / 16 * 16 + sizeof_memory_block_t := by
    unfold sizeof_memory_block_t; omega
  obtain ⟨h1, h2, a1, a2, hhead, _, _, mA, mB⟩ := pair_alloc h0 _ f hd hfit
  obtain ⟨fm, fh, _⟩ := pair_free h2 _ hd hfit mA mB
  have hn0 : n ≠ 0 := by omega
  have hs0 : HEAP_START ≠ 0 := by decide
  refine ⟨h1, h2, ?_, ?_, by rw [mA], by rw [mA], by rw [mB], ?_, by rw [fm], by rw [fm], ?_⟩
  · simp only [kmalloc, kmalloc_aligned, hn0, if_false, block_need_16 n hfit]
    exact a1
  · simp only [kmalloc, kmalloc_aligned, hn0, if_false, block_need_16 n hfit]
    exact a2
  · exact inList_single _ _ (by rw [fh, hhead]) hs0 (by rw [fm])
  · intro e
    subst e
    have hm : (kfree (kfree h2 (HEAP_START + sizeof_memory_block_t))
        (HEAP_START + ((100 + 15) / 16 * 16 + sizeof_memory_block_t)
          + sizeof_memory_block_t)).mem HEAP_START =
      { address := HEAP_START + sizeof_memory_block_t, size := 272, used := false,
        magic := HEAP_MAGIC, next := 0, prev := 0 } := by
      rw [fm]
      rfl
    obtain ⟨s1, s2, s3⟩ := served_from_coalesced _ (f + 1) (by rw [fh, hhead]) hm
    exact ⟨_, s1, inList_single _ _ s2 hs0 (by rw [s3]), by rw [s3], by rw [s3]⟩

/-- C17 (amended), for `n = 100` on the boot heap. -/
theorem alloc_free_coalesce_witness :
    0 < 100 ∧ 2 * ((100 + 15) / 16 * 16 + sizeof_memory_block_t) ≤ HEAP_SIZE ∧
    ∃ h1 h2,
      kmalloc 2 (init_memory boot_heap) 100 = some (h1, HEAP_START + sizeof_memory_block_t) ∧
      kmalloc 2 h1 100
        = some (h2, HEAP_START + ((100 + 15) / 16 * 16 + sizeof_memory_block_t) + sizeof_memory_block_t) ∧
      (h2.mem HEAP_START).size = ((100 + 15) / 16 * 16 + sizeof_memory_block_t) ∧
      (h2.mem HEAP_START).next = HEAP_START + ((100 + 15) / 16 * 16 + sizeof_memory_block_t) ∧
      (h2.mem (HEAP_START + ((100 + 15) / 16 * 16 + sizeof_memory_block_t))).size
        = ((100 + 15) / 16 * 16 + sizeof_memory_block_t) ∧
      (∀ b, InList (kfree (kfree h2 (HEAP_START + sizeof_memory_block_t))
          (HEAP_START + ((100 + 15) / 16 * 16 + sizeof_memory_block_t) + sizeof_memory_block_t)) b
        ↔ b = HEAP_START) ∧
      ((kfree (kfree h2 (HEAP_START + sizeof_memory_block_t))
          (HEAP_START + ((100 + 15) / 16 * 16 + sizeof_memory_block_t) + sizeof_memory_block_t)).mem
        HEAP_START).used = false ∧
      ((kfree (kfree h2 (HEAP_START + sizeof_memory_block_t))
          (HEAP_START + ((100 + 15) / 16 * 16 + sizeof_memory_block_t) + sizeof_memory_block_t)).mem
        HEAP_START).size = 2 * ((100 + 15) / 16 * 16 + sizeof_memory_block_t) ∧
      (100 = 100 → ∃ h5,
        kmalloc 2 (kfree (kfree h2 (HEAP_START + sizeof_memory_block_t))
            (HEAP_START + ((100 + 15) / 16 * 16 + sizeof_memory_block_t) + sizeof_memory_block_t)) 200
          = some (h5, HEAP_START + sizeof_memory_block_t) ∧
        (∀ b, InList h5 b ↔ b = HEAP_START) ∧
        (h5.mem HEAP_START).used = true ∧ (h5.mem HEAP_START).size = 272) :=
  ⟨by decide, by decide,
    alloc_free_coalesce boot_heap 2 100 (le_refl 2) (by decide) (by decide)⟩

/-! ## Keyboard driver: ring buffer and decoding -/

theorem holds_getKey_empty (d : KeyboardDriver) (h : Holds d []) :
    d.getKey = (d, 0) ∧ d.hasKey = false := by
  have hw := h.wr
  have hr := h.rd
  simp only [List.length_nil, Nat.add_zero] at hw
  rw [Nat.mod_eq_of_lt hr] at hw
  constructor
  · unfold KeyboardDriver.getKey
    rw [if_pos hw.symm]
  · simp [KeyboardDriver.hasKey, hw]

theorem holds_getKey_cons (d : KeyboardDriver) (c : Nat) (L : List Nat)
    (h : Holds d (c :: L)) (hl : (c :: L).length < BUFFER_SIZE) :
    d.getKey.2 = c ∧ Holds d.getKey.1 L ∧ d.hasKey = true ∧
      d.getKey.1.writePos = d.writePos := by
  have hw := h.wr
  have hr := h.rd
  simp only [List.length_cons] at hw hl
  unfold BUFFER_SIZE at *
  have hne : d.readPos ≠ d.writePos := by
    rw [hw]
    omega
  have h0 := h.item 0 (by simp)
  simp only [Nat.add_zero, List.getD_cons_zero] at h0
  unfold BUFFER_SIZE at h0
  rw [Nat.mod_eq_of_lt hr] at h0
  have e : d.getKey = ({ d with readPos := (d.readPos + 1) % 256 }, d.buffer d.readPos) := by
    unfold KeyboardDriver.getKey BUFFER_SIZE
    rw [if_neg hne]
  rw [e]
  refine ⟨h0, ⟨?_, ?_, ?_, ?_⟩, ?_, rfl⟩
  · exact Nat.mod_lt _ (by decide)
  · show d.writePos = ((d.readPos + 1) % 256 + L.length) % 256
    rw [hw]
    omega
  · unfold BUFFER_SIZE; omega
  · intro i hi
    have := h.item (i + 1) (by simp; omega)
    simp only [List.getD_cons_succ] at this
    show d.buffer (((d.readPos + 1) % 256 + i) % 256) = L.getD i 0
    rw [← this]
    congr 1
    unfold BUFFER_SIZE
    omega
  · simp [KeyboardDriver.hasKey, hne]

theorem holds_read_keys (L : List Nat) : ∀ (d : KeyboardDriver), Holds d L →
    L.length < BUFFER_SIZE →
    (d.read_keys (L.length + 1)).1 = L ++ [0] ∧
    (d.read_keys L.length).1 = L ∧
    Holds (d.read_keys L.length).2 [] := by
  induction L with
  | nil =>
    intro d h _
    refine ⟨?_, rfl, h⟩
    simp [KeyboardDriver.read_keys, (holds_getKey_empty d h).1]
  | cons c L ih =>
    intro d h hl
    obtain ⟨h1, h2, _, _⟩ := holds_getKey_cons d c L h hl
    obtain ⟨i1, i2, i3⟩ := ih _ h2 (by simp only [List.length_cons] at hl; omega)
    refine ⟨?_, ?_, ?_⟩
    · show (d.read_keys (L.length + 1 + 1)).1 = c :: (L ++ [0])
      rw [KeyboardDriver.read_keys]
      simp only [h1, i1]
    · show (d.read_keys (L.length + 1)).1 = c :: L
      rw [KeyboardDriver.read_keys]
      simp only [h1, i2]
    · show Holds (d.read_keys (L.length + 1)).2 []
      rw [KeyboardDriver.read_keys]
      exact i3

theorem holds_push (d : KeyboardDriver) (L : List Nat) (c : Nat) (h : Holds d L)
    (hl : L.length < BUFFER_SIZE) (d' : KeyboardDriver) (hr : d'.readPos = d.readPos)
    (hw : d'.writePos = (d.writePos + 1) % BUFFER_SIZE)
    (hb : d'.buffer = fun i => if i = d.writePos then c else d.buffer i) :
    Holds d' (L ++ [c]) := by
  have w0 := h.wr
  have r0 := h.rd
  unfold BUFFER_SIZE at *
  refine ⟨?_, ?_, ?_, ?_⟩
  · rw [hr]; exact r0
  · rw [hw, hr, w0, List.length_append, List.length_singleton]
    unfold BUFFER_SIZE
    omega
  · rw [List.length_append, List.length_singleton]
    unfold BUFFER_SIZE
    omega
  · intro i hi
    rw [List.length_append, List.length_singleton] at hi
    rw [hb, hr]
    by_cases hil : i = L.length
    · subst hil
      have e : (d.readPos + L.length) % BUFFER_SIZE = d.writePos := by
        rw [w0]; rfl
      simp [e]
    · have hil2 : i < L.length := by omega
      have ne : (d.readPos + i) % BUFFER_SIZE ≠ d.writePos := by
        rw [w0]
        unfold BUFFER_SIZE
        omega
      simp only [ne, if_false]
      rw [h.item i hil2, List.getD_append _ _ _ _ hil2]
theorem entry_special (s : Bool) :
    ((if s = true then scancodeToAsciiShift else scancodeToAscii).getD 0x1D '\x00').toNat = 0 ∧
    ((if s = true then scancodeToAsciiShift else scancodeToAscii).getD 0x9D '\x00').toNat = 0 ∧
    ((if s = true then scancodeToAsciiShift else scancodeToAscii).getD 0x38 '\x00').toNat = 0 ∧
    ((if s = true then scancodeToAsciiShift else scancodeToAscii).getD 0xB8 '\x00').toNat = 0 := by
  cases s <;> decide

theorem entry_high (s : Bool) (code : Nat) (h : 128 ≤ code) :
    ((if s = true then scancodeToAsciiShift else scancodeToAscii).getD code '\x00').toNat = 0 := by
  have e : (if s = true then scancodeToAsciiShift else scancodeToAscii).length = 58 := by
    cases s <;> rfl
  rw [List.getD_eq_default _ _ (by rw [e]; omega)]
  rfl

/-- One `handleInterrupt` call with caps lock off and a scancode other than caps lock:
it stores at most one item, the one `expected_keys` names. -/
theorem handle_step (d : KeyboardDriver) (code : Nat) (hc : d.capsLock = false)
    (h3a : code ≠ 0x3A) :
    ∃ (s' : Bool) (item : List Nat),
      (∀ rest, expected_keys d.shiftPressed (code :: rest) = item ++ expected_keys s' rest) ∧
      (d.handleInterrupt code).shiftPressed = s' ∧
      (d.handleInterrupt code).capsLock = false ∧
      (d.handleInterrupt code).readPos = d.readPos ∧
      ((item = [] ∧ (d.handleInterrupt code).writePos = d.writePos ∧
          (d.handleInterrupt code).buffer = d.buffer) ∨
        (∃ c, item = [c] ∧ c ≠ 0 ∧
          (d.handleInterrupt code).writePos = (d.writePos + 1) % BUFFER_SIZE ∧
          (d.handleInterrupt code).buffer = fun i => if i = d.writePos then c else d.buffer i)) := by
  by_cases h1 : code = 0x2A ∨ code = 0x36
  · refine ⟨true, [], fun rest => ?_, ?_, ?_, ?_, Or.inl ⟨rfl, ?_, ?_⟩⟩ <;>
      simp [-List.getD_eq_getElem?_getD, expected_keys, KeyboardDriver.handleInterrupt, h1, hc]
  by_cases h2 : code = 0xAA ∨ code = 0xB6
  · refine ⟨false, [], fun rest => ?_, ?_, ?_, ?_, Or.inl ⟨rfl, ?_, ?_⟩⟩ <;>
      simp [-List.getD_eq_getElem?_getD, expected_keys, KeyboardDriver.handleInterrupt, h1, h2, hc]
  by_cases h3 : code = 0x1D
  · subst h3
    refine ⟨d.shiftPressed, [], fun rest => ?_, ?_, ?_, ?_, Or.inl ⟨rfl, ?_, ?_⟩⟩ <;>
      simp [-List.getD_eq_getElem?_getD, expected_keys, KeyboardDriver.handleInterrupt, hc, (entry_special d.shiftPressed).1]
  by_cases h4 : code = 0x9D
  · subst h4
    refine ⟨d.shiftPressed, [], fun rest => ?_, ?_, ?_, ?_, Or.inl ⟨rfl, ?_, ?_⟩⟩ <;>
      simp [-List.getD_eq_getElem?_getD, expected_keys, KeyboardDriver.handleInterrupt, hc,
        (entry_special d.shiftPressed).2.1]
  by_cases h5 : code = 0x38
  · subst h5
    refine ⟨d.shiftPressed, [], fun rest => ?_, ?_, ?_, ?_, Or.inl ⟨rfl, ?_, ?_⟩⟩ <;>
      simp [-List.getD_eq_getElem?_getD, expected_keys, KeyboardDriver.handleInterrupt, hc,
        (entry_special d.shiftPressed).2.2.1]
  by_cases h6 : code = 0xB8
  · subst h6
    refine ⟨d.shiftPressed, [], fun rest => ?_, ?_, ?_, ?_, Or.inl ⟨rfl, ?_, ?_⟩⟩ <;>
      simp [-List.getD_eq_getElem?_getD, expected_keys, KeyboardDriver.handleInterrupt, hc,
        (entry_special d.shiftPressed).2.2.2]
  by_cases h7 : code < 128
  · by_cases h8 : ((if d.shiftPressed = true then scancodeToAsciiShift
        else scancodeToAscii).getD code '\x00').toNat = 0
    · refine ⟨d.shiftPressed, [], fun rest => ?_, ?_, ?_, ?_, Or.inl ⟨rfl, ?_, ?_⟩⟩ <;>
        simp [-List.getD_eq_getElem?_getD, expected_keys, KeyboardDriver.handleInterrupt, hc, h1, h2, h3, h4, h5, h6, h7,
          h8, h3a]
    · refine ⟨d.shiftPressed, [_], fun rest => ?_, ?_, ?_, ?_, Or.inr ⟨_, rfl, h8, ?_, ?_⟩⟩ <;>
        simp [-List.getD_eq_getElem?_getD, expected_keys, KeyboardDriver.handleInterrupt, hc, h1, h2, h3, h4, h5, h6, h7,
          h8, h3a]
  · have h8 := entry_high d.shiftPressed code (by omega)
    refine ⟨d.shiftPressed, [], fun rest => ?_, ?_, ?_, ?_, Or.inl ⟨rfl, ?_, ?_⟩⟩ <;>
      simp [-List.getD_eq_getElem?_getD, expected_keys, KeyboardDriver.handleInterrupt, hc, h1, h2, h3, h4, h5, h6, h7,
        h8, h3a]
theorem holds_congr (d d' : KeyboardDriver) (L : List Nat) (h : Holds d L)
    (hr : d'.readPos = d.readPos) (hw : d'.writePos = d.writePos)
    (hb : d'.buffer = d.buffer) : Holds d' L :=
  ⟨by rw [hr]; exact h.rd, by rw [hw, hr]; exact h.wr, h.len,
    fun i hi => by rw [hb, hr]; exact h.item i hi⟩

theorem holds_feed (codes : List Nat) : ∀ (d : KeyboardDriver) (L : List Nat), Holds d L →
    d.capsLock = false → 0x3A ∉ codes →
    (L ++ expected_keys d.shiftPressed codes).length ≤ BUFFER_SIZE →
    Holds (d.feed codes) (L ++ expected_keys d.shiftPressed codes) ∧
      (d.feed codes).readPos = d.readPos := by
  induction codes with
  | nil =>
    intro d L h _ _ _
    simp only [expected_keys, List.append_nil]
    exact ⟨h, rfl⟩
  | cons code rest ih =>
    intro d L h hc hm hl
    have h3a : code ≠ 0x3A := fun e => hm (by rw [e]; exact List.mem_cons_self _ _)
    have hm2 : 0x3A ∉ rest := fun e => hm (List.mem_cons_of_mem _ e)
    obtain ⟨s', item, he, hs, hc', hr', hcase⟩ := handle_step d code hc h3a
    have ef : d.feed (code :: rest) = (d.handleInterrupt code).feed rest := rfl
    rw [ef, he rest]
    rw [he rest] at hl
    rcases hcase with ⟨hi, hw, hb⟩ | ⟨c, hi, _, hw, hb⟩
    · subst hi
      have h1 := holds_congr d _ L h hr' hw hb
      simp only [List.nil_append] at hl ⊢
      rw [← hs] at hl ⊢
      obtain ⟨i1, i2⟩ := ih _ L h1 hc' hm2 hl
      exact ⟨i1, by rw [i2, hr']⟩
    · subst hi
      have hlt : L.length < BUFFER_SIZE := by
        simp only [List.length_append, List.length_cons] at hl
        omega
      have h1 := holds_push d L c h hlt _ hr' hw hb
      have ea : L ++ ([c] ++ expected_keys s' rest) = (L ++ [c]) ++ expected_keys s' rest := by
        simp
      rw [ea] at hl ⊢
      rw [← hs] at hl ⊢
      obtain ⟨i1, i2⟩ := ih _ (L ++ [c]) h1 hc' hm2 hl
      exact ⟨i1, by rw [i2, hr']⟩

theorem holds_of_empty (d : KeyboardDriver) (hempty : d.readPos = d.writePos)
    (hr : d.readPos < BUFFER_SIZE) : Holds d [] :=
  ⟨hr, by
    rw [← hempty, List.length_nil, Nat.add_zero, Nat.mod_eq_of_lt hr],
    by simp, fun i hi => absurd hi (Nat.not_lt_zero i)⟩

theorem expected_keys_length_le (codes : List Nat) : ∀ s : Bool,
    (expected_keys s codes).length ≤ codes.length := by
  induction codes with
  | nil => intro s; simp [expected_keys]
  | cons code rest ih =>
    intro s
    simp only [expected_keys]
    have h1 := ih true
    have h2 := ih false
    have h3 := ih s
    split_ifs <;> simp only [List.length_cons] <;> omega

/-- C13 (amended). Fewer than 256 scancodes fed to `handleInterrupt` on an empty buffer with
caps lock off (as the constructor leaves it; the caps-lock code `0x3A` does not occur) are read
back by `getKey` as `expected_keys` says: the non-zero table entries in arrival order, taken
from the shifted table between a shift make and the next shift break and from the base
table otherwise; the next `getKey` returns 0. -/
theorem keyboard_fifo (d : KeyboardDriver) (codes : List Nat)
    (hempty : d.readPos = d.writePos) (hr : d.readPos < BUFFER_SIZE)
    (hcaps : d.capsLock = false) (hcodes : 0x3A ∉ codes)
    (hlen : codes.length < BUFFER_SIZE) :
    ((d.feed codes).read_keys ((expected_keys d.shiftPressed codes).length + 1)).1
      = expected_keys d.shiftPressed codes ++ [0] := by
  have hl := expected_keys_length_le codes d.shiftPressed
  obtain ⟨h1, _⟩ := holds_feed codes d [] (holds_of_empty d hempty hr) hcaps hcodes
    (by simp only [List.nil_append]; omega)
  simp only [List.nil_append] at h1
  exact (holds_read_keys _ _ h1 (by omega)).1

/-- C13 (amended), on a freshly constructed driver: `0x1E, 0x30, 0x2E` read back as `a`, `b`, `c`
and then 0; `0x2A, 0x1E` as `A`; `0x2A, 0x1E, 0xAA, 0x1E` as `A`, `a`. -/
theorem keyboard_fifo_witness :
    (((KeyboardDriver.create fun _ => 0).feed [0x1E, 0x30, 0x2E]).read_keys 4).1
      = ['a'.toNat, 'b'.toNat, 'c'.toNat, 0] ∧
    (((KeyboardDriver.create fun _ => 0).feed [0x2A, 0x1E]).read_keys 2).1
      = ['A'.toNat, 0] ∧
    (((KeyboardDriver.create fun _ => 0).feed [0x2A, 0x1E, 0xAA, 0x1E]).read_keys 3).1
      = ['A'.toNat, 'a'.toNat, 0] :=
  ⟨keyboard_fifo (KeyboardDriver.create fun _ => 0) [0x1E, 0x30, 0x2E] rfl (by decide) rfl
      (by decide) (by decide),
    keyboard_fifo (KeyboardDriver.create fun _ => 0) [0x2A, 0x1E] rfl (by decide) rfl
      (by decide) (by decide),
    keyboard_fifo (KeyboardDriver.create fun _ => 0) [0x2A, 0x1E, 0xAA, 0x1E] rfl (by decide)
      rfl (by decide) (by decide)⟩
theorem press_key (d : KeyboardDriver) (code c : Nat) (hc : d.capsLock = false)
    (hs : d.shiftPressed = false) (hcode : code = 0x1E ∨ code = 0x30)
    (he : (scancodeToAscii.getD code '\x00').toNat = c) (hc0 : c ≠ 0) :
    d.handleInterrupt code =
      { d with
        buffer := fun i => if i = d.writePos then c else d.buffer i
        writePos := (d.writePos + 1) % BUFFER_SIZE } := by
  rcases hcode with e | e <;> subst e <;>
    simp [-List.getD_eq_getElem?_getD, KeyboardDriver.handleInterrupt, hc, hs, he, hc0]

theorem feed_presses (n : Nat) : ∀ d : KeyboardDriver, d.capsLock = false →
    d.shiftPressed = false → d.writePos < BUFFER_SIZE →
    (d.feed (List.replicate n 0x1E)).capsLock = false ∧
    (d.feed (List.replicate n 0x1E)).shiftPressed = false ∧
    (d.feed (List.replicate n 0x1E)).readPos = d.readPos ∧
    (d.feed (List.replicate n 0x1E)).writePos = (d.writePos + n) % BUFFER_SIZE := by
  induction n with
  | zero =>
    intro d hc hs hw
    exact ⟨hc, hs, rfl, by rw [Nat.add_zero, Nat.mod_eq_of_lt hw]; rfl⟩
  | succ n ih =>
    intro d hc hs hw
    have e : d.feed (List.replicate (n + 1) 0x1E) =
        (d.handleInterrupt 0x1E).feed (List.replicate n 0x1E) := rfl
    rw [e, press_key d 0x1E 97 hc hs (Or.inl rfl) (by decide) (by decide)]
    obtain ⟨i1, i2, i3, i4⟩ := ih
      { d with
        buffer := fun i => if i = d.writePos then 97 else d.buffer i
        writePos := (d.writePos + 1) % BUFFER_SIZE } hc hs (Nat.mod_lt _ (by decide))
    refine ⟨i1, i2, i3, ?_⟩
    rw [i4]
    show ((d.writePos + 1) % BUFFER_SIZE + n) % BUFFER_SIZE
      = (d.writePos + (n + 1)) % BUFFER_SIZE
    unfold BUFFER_SIZE
    omega

theorem kernel_press (k : Kernel) (code c : Nat) (hcode : code = 0x1E ∨ code = 0x30)
    (he : (scancode_to_ascii.getD code '\x00').toNat = c) (hc0 : c ≠ 0) :
    (keyboard_handler k code).kb_write_pos = (k.kb_write_pos + 1) % 256 ∧
    (keyboard_handler k code).kb_read_pos = k.kb_read_pos ∧
    (keyboard_handler k code).keyboard_buffer
      = fun i => if i = k.kb_write_pos then c else k.keyboard_buffer i := by
  have hl : scancode_to_ascii.length = 58 := rfl
  rcases hcode with e | e <;> subst e <;>
    simp [-List.getD_eq_getElem?_getD, keyboard_handler, outb, he, hc0, hl]

theorem kernel_presses (n : Nat) : ∀ k : Kernel, k.kb_write_pos < 256 →
    (keyboard_feed k (List.replicate n 0x1E)).kb_read_pos = k.kb_read_pos ∧
    (keyboard_feed k (List.replicate n 0x1E)).kb_write_pos = (k.kb_write_pos + n) % 256 := by
  induction n with
  | zero =>
    intro k hw
    exact ⟨rfl, by rw [Nat.add_zero, Nat.mod_eq_of_lt hw]; rfl⟩
  | succ n ih =>
    intro k hw
    have e : keyboard_feed k (List.replicate (n + 1) 0x1E) =
        keyboard_feed (keyboard_handler k 0x1E) (List.replicate n 0x1E) := rfl
    obtain ⟨p1, p2, _⟩ := kernel_press k 0x1E 97 (Or.inl rfl) (by decide) (by decide)
    obtain ⟨i1, i2⟩ := ih (keyboard_handler k 0x1E) (by rw [p1]; exact Nat.mod_lt _ (by decide))
    rw [e, i1, i2, p1, p2]
    exact ⟨rfl, by omega⟩

theorem feed_append (d : KeyboardDriver) (a b : List Nat) :
    d.feed (a ++ b) = (d.feed a).feed b := by
  simp [KeyboardDriver.feed, List.foldl_append]

theorem keyboard_feed_append (k : Kernel) (a b : List Nat) :
    keyboard_feed k (a ++ b) = keyboard_feed (keyboard_feed k a) b := by
  simp [keyboard_feed, List.foldl_append]

/-- C12 (counterexample). 255 key presses `0x1E` on a freshly constructed driver leave the
write index at 255; the 256th press (`0x30`) is not dropped: it is stored in slot 255 and the
write index wraps to 0, the read index, so `hasKey` is false and `getKey` returns 0 with 256
unread items in the buffer. `keyboard_handler` of `Kernel.c` wraps `kb_write_pos` onto
`kb_read_pos` in the same way. -/
theorem keyboard_ring_overwrites :
    ((KeyboardDriver.create fun _ => 0).feed (List.replicate 255 0x1E)).writePos = 255 ∧
    ((KeyboardDriver.create fun _ => 0).feed (List.replicate 255 0x1E)).hasKey = true ∧
    ((KeyboardDriver.create fun _ => 0).feed (List.replicate 255 0x1E ++ [0x30])).writePos
      = 0 ∧
    ((KeyboardDriver.create fun _ => 0).feed (List.replicate 255 0x1E ++ [0x30])).readPos
      = 0 ∧
    ((KeyboardDriver.create fun _ => 0).feed (List.replicate 255 0x1E ++ [0x30])).buffer 255
      = 'b'.toNat ∧
    ((KeyboardDriver.create fun _ => 0).feed (List.replicate 255 0x1E ++ [0x30])).hasKey
      = false ∧
    ((KeyboardDriver.create fun _ => 0).feed (List.replicate 255 0x1E
      ++ [0x30])).getKey.2 = 0 ∧
    (keyboard_feed boot_kernel (List.replicate 255 0x1E)).kb_write_pos = 255 ∧
    (keyboard_feed boot_kernel (List.replicate 255 0x1E ++ [0x30])).kb_write_pos = 0 ∧
    (keyboard_feed boot_kernel (List.replicate 255 0x1E ++ [0x30])).kb_read_pos = 0 := by
  obtain ⟨a1, a2, a3, a4⟩ := feed_presses 255 (KeyboardDriver.create fun _ => 0) rfl rfl
    (by decide)
  obtain ⟨k1, k2⟩ := kernel_presses 255 boot_kernel (by decide)
  rw [feed_append, keyboard_feed_append]
  generalize (KeyboardDriver.create fun _ => 0).feed (List.replicate 255 0x1E) = d at *
  generalize keyboard_feed boot_kernel (List.replicate 255 0x1E) = k at *
  have a3' : d.readPos = 0 := a3
  have a4' : d.writePos = 255 := a4
  have k1' : k.kb_read_pos = 0 := k1
  have k2' : k.kb_write_pos = 255 := k2
  have e : d.feed [0x30] = d.handleInterrupt 0x30 := rfl
  have ek : keyboard_feed k [0x30] = keyboard_handler k 0x30 := rfl
  obtain ⟨q1, q2, _⟩ := kernel_press k 0x30 98 (Or.inr rfl) (by decide) (by decide)
  rw [e, press_key d 0x30 98 a1 a2 (Or.inr rfl) (by decide) (by decide), ek, q1, q2, k1', k2']
  refine ⟨a4', ?_, ?_, a3', ?_, ?_, ?_, rfl, rfl, rfl⟩
  · simp [KeyboardDriver.hasKey, a3', a4']
  · simp [a4', BUFFER_SIZE]
  · simp [a4']
  · simp [KeyboardDriver.hasKey, a3', a4', BUFFER_SIZE]
  · simp [KeyboardDriver.getKey, a3', a4', BUFFER_SIZE]
/-- C12 (amended). Scancodes fed to `handleInterrupt` on an empty buffer with caps lock off
and no reads in between. While they produce fewer than 256 characters, the consumer reads
exactly these characters in order and the buffer is not reported empty unless there is none.
When they produce exactly 256 characters, the last one has not been dropped: all 256 are in
the buffer, the write index is back on the read index, `hasKey` is false and `getKey`
returns 0. -/
theorem keyboard_ring_wraps (d : KeyboardDriver) (codes : List Nat)
    (hempty : d.readPos = d.writePos) (hr : d.readPos < BUFFER_SIZE)
    (hcaps : d.capsLock = false) (hcodes : 0x3A ∉ codes) :
    (((expected_keys d.shiftPressed codes).length < BUFFER_SIZE →
      ((d.feed codes).read_keys (expected_keys d.shiftPressed codes).length).1
          = expected_keys d.shiftPressed codes ∧
        (expected_keys d.shiftPressed codes ≠ [] →
          (d.feed codes).hasKey = true)) ∧
    ((expected_keys d.shiftPressed codes).length = BUFFER_SIZE →
      (d.feed codes).writePos = d.writePos ∧
      (d.feed codes).readPos = d.readPos ∧
      (∀ i, i < BUFFER_SIZE →
        (d.feed codes).buffer ((d.readPos + i) % BUFFER_SIZE)
          = (expected_keys d.shiftPressed codes).getD i 0) ∧
      (d.feed codes).hasKey = false ∧
      (d.feed codes).getKey.2 = 0)) := by
  constructor
  · intro hlen
    obtain ⟨h1, _⟩ := holds_feed codes d [] (holds_of_empty d hempty hr) hcaps hcodes
      (by simp only [List.nil_append]; omega)
    simp only [List.nil_append] at h1
    refine ⟨(holds_read_keys _ _ h1 hlen).2.1, fun hne => ?_⟩
    generalize expected_keys d.shiftPressed codes = L at *
    cases L with
    | nil => exact absurd rfl hne
    | cons c L => exact (holds_getKey_cons _ c L h1 hlen).2.2.1
  · intro hlen
    obtain ⟨h1, h2⟩ := holds_feed codes d [] (holds_of_empty d hempty hr) hcaps hcodes
      (by simp only [List.nil_append]; omega)
    simp only [List.nil_append] at h1
    have hw : (d.feed codes).writePos = (d.feed codes).readPos := by
      rw [h1.wr, hlen, Nat.add_mod_right, Nat.mod_eq_of_lt h1.rd]
    refine ⟨by rw [hw, h2, hempty], h2, fun i hi => ?_, ?_, ?_⟩
    · rw [← h2]
      exact h1.item i (by omega)
    · simp [KeyboardDriver.hasKey, hw]
    · simp [KeyboardDriver.getKey, hw]

/-- C12 (amended), for 256 presses of `0x1E` on a freshly constructed driver. -/
theorem keyboard_ring_wraps_witness :
    0x3A ∉ List.replicate 256 0x1E ∧
    (((expected_keys (KeyboardDriver.create fun _ => 0).shiftPressed (List.replicate 256 0x1E)).length < BUFFER_SIZE →
      (((KeyboardDriver.create fun _ => 0).feed (List.replicate 256 0x1E)).read_keys (expected_keys (KeyboardDriver.create fun _ => 0).shiftPressed (List.replicate 256 0x1E)).length).1
          = expected_keys (KeyboardDriver.create fun _ => 0).shiftPressed (List.replicate 256 0x1E) ∧
        (expected_keys (KeyboardDriver.create fun _ => 0).shiftPressed (List.replicate 256 0x1E) ≠ [] →
          ((KeyboardDriver.create fun _ => 0).feed (List.replicate 256 0x1E)).hasKey = true)) ∧
    ((expected_keys (KeyboardDriver.create fun _ => 0).shiftPressed (List.replicate 256 0x1E)).length = BUFFER_SIZE →
      ((KeyboardDriver.create fun _ => 0).feed (List.replicate 256 0x1E)).writePos = (KeyboardDriver.create fun _ => 0).writePos ∧
      ((KeyboardDriver.create fun _ => 0).feed (List.replicate 256 0x1E)).readPos = (KeyboardDriver.create fun _ => 0).readPos ∧
      (∀ i, i < BUFFER_SIZE →
        ((KeyboardDriver.create fun _ => 0).feed (List.replicate 256 0x1E)).buffer (((KeyboardDriver.create fun _ => 0).readPos + i) % BUFFER_SIZE)
          = (expected_keys (KeyboardDriver.create fun _ => 0).shiftPressed (List.replicate 256 0x1E)).getD i 0) ∧
      ((KeyboardDriver.create fun _ => 0).feed (List.replicate 256 0x1E)).hasKey = false ∧
      ((KeyboardDriver.create fun _ => 0).feed (List.replicate 256 0x1E)).getKey.2 = 0)) :=
  ⟨fun h => absurd (List.eq_of_mem_replicate h) (by decide),
    keyboard_ring_wraps (KeyboardDriver.create fun _ => 0) (List.replicate 256 0x1E)
      rfl (by decide) rfl (fun h => absurd (List.eq_of_mem_replicate h) (by decide))⟩

/-! ## Driver registry -/

theorem unregister_loop_count (id : Nat) : ∀ (fuel : Nat) (dm : DriverManager) (i : Nat),
    (unregister_loop id fuel dm i).driverCount ≤ dm.driverCount := by
  intro fuel
  induction fuel with
  | zero => intro dm i; exact le_rfl
  | succ fuel ih =>
    intro dm i
    unfold unregister_loop
    split_ifs
    · exact Nat.sub_le _ _
    · exact ih dm (i + 1)
    · exact le_rfl

theorem driverReach_count (dm : DriverManager) (h : DriverReach dm) :
    dm.driverCount ≤ MAX_DRIVERS := by
  induction h with
  | create objs => exact Nat.zero_le _
  | @register dm driver init_result dm' r _ hreg ih =>
    unfold DriverManager.registerDriver at hreg
    split_ifs at hreg with h1 h2 h3
    · cases hreg; exact ih
    · cases hreg
      show dm.driverCount + 1 ≤ MAX_DRIVERS
      omega
    · cases hreg; exact ih
  | @unregister dm id _ ih =>
    exact le_trans (unregister_loop_count id _ dm 0) ih
  | shutdownAll _ _ => exact Nat.zero_le _
  | @handle_irq dm irq _ ih =>
    unfold driver_manager_handle_irq
    simp only []
    split_ifs
    · exact ih
    · exact ih

/-- C14. In every reachable registry state `driverCount` is at most 32. `registerDriver(d)`
with fewer than 32 drivers registered calls `d->init()`; when that returns true, `d` is
stored at index `driverCount`, `driverCount` grows by one, every other entry is unchanged
and the result is true; when it returns false, the array and `driverCount` are unchanged
and the result is false. With 32 drivers registered the registry is unchanged (`init` is
not even called) and the result is false. -/
theorem registerDriver_spec (dm : DriverManager) (hr : DriverReach dm) (driver : Nat)
    (hd : driver ≠ 0) :
    dm.driverCount ≤ MAX_DRIVERS ∧
    (dm.driverCount < MAX_DRIVERS →
      (∃ dm', dm.registerDriver driver true = some (dm', true) ∧
        dm'.drivers dm.driverCount = driver ∧ dm'.driverCount = dm.driverCount + 1 ∧
        (∀ i, i ≠ dm.driverCount → dm'.drivers i = dm.drivers i) ∧
        dm'.calls = dm.calls ++ [(driver, driver_call.init)]) ∧
      (∃ dm', dm.registerDriver driver false = some (dm', false) ∧
        dm'.drivers = dm.drivers ∧ dm'.driverCount = dm.driverCount ∧
        dm'.calls = dm.calls ++ [(driver, driver_call.init)])) ∧
    (dm.driverCount = MAX_DRIVERS →
      ∀ init_result, dm.registerDriver driver init_result = some (dm, false)) := by
  refine ⟨driverReach_count dm hr, fun hlt => ⟨?_, ?_⟩, fun heq r => ?_⟩
  · have h1 : ¬ dm.driverCount ≥ MAX_DRIVERS := by omega
    refine ⟨{ dm with
        drivers := fun i => if i = dm.driverCount then driver else dm.drivers i
        driverCount := dm.driverCount + 1
        calls := dm.calls ++ [(driver, driver_call.init)] }, ?_, ?_, rfl, fun i hi => ?_, rfl⟩
    · simp only [DriverManager.registerDriver, h1, hd, if_false, if_true]
    · simp
    · simp [hi]
  · have h1 : ¬ dm.driverCount ≥ MAX_DRIVERS := by omega
    refine ⟨{ dm with calls := dm.calls ++ [(driver, driver_call.init)] }, ?_, rfl, rfl, rfl⟩
    simp [DriverManager.registerDriver, h1, hd]
  · have h1 : dm.driverCount ≥ MAX_DRIVERS := by omega
    simp only [DriverManager.registerDriver, h1, if_true]

/-- C14, on the registry that holds the RTC driver, for a second driver at `0x2000`. -/
theorem registerDriver_spec_witness :
    DriverReach rtc_registry ∧ 0x2000 ≠ 0 ∧
    rtc_registry.driverCount ≤ MAX_DRIVERS ∧
    (rtc_registry.driverCount < MAX_DRIVERS →
      (∃ dm', rtc_registry.registerDriver 0x2000 true = some (dm', true) ∧
        dm'.drivers rtc_registry.driverCount = 0x2000 ∧ dm'.driverCount = rtc_registry.driverCount + 1 ∧
        (∀ i, i ≠ rtc_registry.driverCount → dm'.drivers i = rtc_registry.drivers i) ∧
        dm'.calls = rtc_registry.calls ++ [(0x2000, driver_call.init)]) ∧
      (∃ dm', rtc_registry.registerDriver 0x2000 false = some (dm', false) ∧
        dm'.drivers = rtc_registry.drivers ∧ dm'.driverCount = rtc_registry.driverCount ∧
        dm'.calls = rtc_registry.calls ++ [(0x2000, driver_call.init)])) ∧
    (rtc_registry.driverCount = MAX_DRIVERS →
      ∀ init_result, rtc_registry.registerDriver 0x2000 init_result = some (rtc_registry, false)) :=
  ⟨DriverReach.register 0x1000 true rtc_registry true (DriverReach.create _) rfl, by decide,
    registerDriver_spec rtc_registry
      (DriverReach.register 0x1000 true rtc_registry true (DriverReach.create _) rfl)
      0x2000 (by decide)⟩
theorem unregister_shift_eq (cnt : Nat) : ∀ (fuel : Nat) (drivers : Nat → Nat) (j : Nat),
    j + fuel = cnt - 1 → ∀ x, unregister_shift cnt fuel drivers j x
      = if j ≤ x ∧ x < cnt - 1 then drivers (x + 1) else drivers x := by
  intro fuel
  induction fuel with
  | zero =>
    intro drivers j hj x
    have : ¬ (j ≤ x ∧ x < cnt - 1) := by omega
    simp only [unregister_shift, this, if_false]
  | succ fuel ih =>
    intro drivers j hj x
    have hlt : j < cnt - 1 := by omega
    unfold unregister_shift
    rw [if_pos hlt, ih _ (j + 1) (by omega) x]
    by_cases h1 : j + 1 ≤ x ∧ x < cnt - 1
    · have h2 : j ≤ x ∧ x < cnt - 1 := by omega
      have h3 : x + 1 ≠ j := by omega
      simp only [h1, h2, h3, and_self, if_true, if_false]
    · by_cases h4 : x = j
      · subst h4
        have h2 : x ≤ x ∧ x < cnt - 1 := by omega
        have h5 : ¬ x + 1 ≤ x := by omega
        simp [h2, h5]
      · have h2 : ¬ (j ≤ x ∧ x < cnt - 1) := by omega
        simp only [h1, h2, h4, if_false]

theorem unregister_loop_none (id : Nat) (dm : DriverManager) : ∀ (fuel k : Nat),
    (∀ j, k ≤ j → j < dm.driverCount → ¬ HasId dm id j) →
    unregister_loop id fuel dm k = dm := by
  intro fuel
  induction fuel with
  | zero => intro k _; rfl
  | succ fuel ih =>
    intro k hno
    unfold unregister_loop
    by_cases hk : k < dm.driverCount
    · have hn : ¬ (dm.drivers k ≠ 0 ∧ (dm.objs (dm.drivers k)).id = id) := hno k le_rfl hk
      rw [if_pos hk, if_neg hn]
      exact ih (k + 1) fun j h1 h2 => hno j (by omega) h2
    · rw [if_neg hk]

theorem unregister_loop_first (id : Nat) (dm : DriverManager) (i : Nat)
    (hi : i < dm.driverCount) (hm : HasId dm id i) : ∀ (fuel k : Nat), k ≤ i → i < k + fuel →
    (∀ j, k ≤ j → j < i → ¬ HasId dm id j) →
    unregister_loop id fuel dm k =
      { dm with
        calls := dm.calls ++ [(dm.drivers i, driver_call.shutdown)]
        drivers := fun x => if x = dm.driverCount - 1 then 0
          else unregister_shift dm.driverCount (dm.driverCount - 1 - i) dm.drivers i x
        driverCount := dm.driverCount - 1 } := by
  intro fuel
  induction fuel with
  | zero => intro k h1 h2; omega
  | succ fuel ih =>
    intro k h1 h2 hno
    unfold unregister_loop
    have hk : k < dm.driverCount := by omega
    rw [if_pos hk]
    by_cases hki : k = i
    · subst hki
      have hm' : dm.drivers k ≠ 0 ∧ (dm.objs (dm.drivers k)).id = id := hm
      rw [if_pos hm']
    · have hn : ¬ (dm.drivers k ≠ 0 ∧ (dm.objs (dm.drivers k)).id = id) :=
        hno k le_rfl (by omega)
      rw [if_neg hn]
      exact ih (k + 1) (by omega) (by omega) fun j h3 h4 => hno j (by omega) h4

/-- C15. `unregisterDriver(id)`: when index `i` is the first one below `driverCount` that
holds a driver with this identifier, `shutdown()` is called on that driver and on no other,
the entries before `i` stay, the entries behind `i` move one index down in their order, the
slot that becomes free is set to null and `driverCount` drops by one; when no index below
`driverCount` holds such a driver, nothing changes and no `shutdown()` is called. -/
theorem unregisterDriver_spec (dm : DriverManager) (id : Nat) :
    (∀ i, i < dm.driverCount → HasId dm id i → (∀ j, j < i → ¬ HasId dm id j) →
      (dm.unregisterDriver id).calls = dm.calls ++ [(dm.drivers i, driver_call.shutdown)] ∧
      (dm.unregisterDriver id).driverCount + 1 = dm.driverCount ∧
      (∀ j, j < i → (dm.unregisterDriver id).drivers j = dm.drivers j) ∧
      (∀ j, i ≤ j → j + 1 < dm.driverCount →
        (dm.unregisterDriver id).drivers j = dm.drivers (j + 1)) ∧
      (dm.unregisterDriver id).drivers (dm.driverCount - 1) = 0 ∧
      (∀ j, dm.driverCount ≤ j → (dm.unregisterDriver id).drivers j = dm.drivers j)) ∧
    ((∀ i, i < dm.driverCount → ¬ HasId dm id i) → dm.unregisterDriver id = dm) := by
  constructor
  · intro i hi hm hfirst
    have e := unregister_loop_first id dm i hi hm dm.driverCount 0 (Nat.zero_le _) (by omega)
      (fun j _ h => hfirst j h)
    have es := unregister_shift_eq dm.driverCount (dm.driverCount - 1 - i) dm.drivers i
      (by omega)
    unfold DriverManager.unregisterDriver
    rw [e]
    refine ⟨rfl, ?_, fun j hj => ?_, fun j h1 h2 => ?_, ?_, fun j hj => ?_⟩
    · show dm.driverCount - 1 + 1 = dm.driverCount
      omega
    · have h1 : j ≠ dm.driverCount - 1 := by omega
      have h2 : ¬ (i ≤ j ∧ j < dm.driverCount - 1) := by omega
      simp only [h1, if_false, es, h2]
    · have h3 : j ≠ dm.driverCount - 1 := by omega
      have h4 : i ≤ j ∧ j < dm.driverCount - 1 := by omega
      simp only [h3, if_false, es, h4, and_self, if_true]
    · simp only [if_true]
    · have h1 : j ≠ dm.driverCount - 1 := by omega
      have h2 : ¬ (i ≤ j ∧ j < dm.driverCount - 1) := by omega
      simp only [h1, if_false, es, h2]
  · intro hno
    exact unregister_loop_none id dm dm.driverCount 0 fun j _ h => hno j h

/-- C15, on a registry with identifiers 1, 2, 1: `unregisterDriver(2)` removes the driver at
index 1 and the third driver moves to index 1. -/
theorem unregisterDriver_spec_witness :
    1 < three_drivers.driverCount ∧ HasId three_drivers 2 1 ∧
    (∀ j, j < 1 → ¬ HasId three_drivers 2 j) ∧
    (three_drivers.unregisterDriver 2).calls = three_drivers.calls ++ [(three_drivers.drivers 1, driver_call.shutdown)] ∧
    (three_drivers.unregisterDriver 2).driverCount + 1 = three_drivers.driverCount ∧
    (∀ j, j < 1 → (three_drivers.unregisterDriver 2).drivers j = three_drivers.drivers j) ∧
    (∀ j, 1 ≤ j → j + 1 < three_drivers.driverCount →
      (three_drivers.unregisterDriver 2).drivers j = three_drivers.drivers (j + 1)) ∧
    (three_drivers.unregisterDriver 2).drivers (three_drivers.driverCount - 1) = 0 ∧
    (∀ j, three_drivers.driverCount ≤ j → (three_drivers.unregisterDriver 2).drivers j = three_drivers.drivers j) :=
  have hfirst : ∀ j, j < 1 → ¬ HasId three_drivers 2 j := fun j hj hm => by
    have e : j = 0 := by omega
    subst e
    exact absurd hm.2 (by decide)
  ⟨by decide, ⟨by decide, by decide⟩, hfirst,
    (unregisterDriver_spec three_drivers 2).1 1 (by decide) ⟨by decide, by decide⟩ hfirst⟩

/-- C21. When every bit of the bitmap below `total_frames` is set, `alloc_frame` returns 0
and leaves the allocator (bitmap, `used_frames`, `free_frames`, `first_free`) as it was. -/
theorem alloc_frame_exhausted (fa : page_frame_allocator_t)
    (hfull : ∀ i, i < fa.total_frames → frame_bit fa i ≠ 0) :
    alloc_frame fa = (fa, 0) := by
  rcases alloc_frame_spec fa with ⟨h1, _⟩ | ⟨j, _, h2, h3, _, _⟩
  · exact h1
  · exact absurd h3 (hfull j h2)

/-- C21, on the allocator with all 32768 frames allocated. -/
theorem alloc_frame_exhausted_witness :
    (∀ i, i < full_frames.total_frames → frame_bit full_frames i ≠ 0) ∧
    alloc_frame full_frames = (full_frames, 0) :=
  have hfull : ∀ i, i < full_frames.total_frames → frame_bit full_frames i ≠ 0 := by
    intro i _
    rw [frame_bit_ne_zero]
    show (2 ^ 32 - 1).testBit (i % 32) = true
    rw [Nat.testBit_two_pow_sub_one]
    exact decide_eq_true (Nat.mod_lt _ (by decide))
  ⟨hfull, alloc_frame_exhausted full_frames hfull⟩

/-- C22. For an in-range frame address whose bit is clear, `free_frame` leaves the allocator
(bitmap, `used_frames`, `free_frames`, `first_free`) as it was; and for every in-range frame
address a second `free_frame` of the same address changes nothing any more. -/
theorem free_frame_idempotent (fa : page_frame_allocator_t) (frame : Nat)
    (hr : frame / PAGE_SIZE < fa.total_frames) :
    (frame_bit fa (frame / PAGE_SIZE) = 0 → free_frame fa frame = fa) ∧
    free_frame (free_frame fa frame) frame = free_frame fa frame := by
  have h1 : frame_bit fa (frame / PAGE_SIZE) = 0 → free_frame fa frame = fa := by
    intro hc
    simp [free_frame, hc]
  refine ⟨h1, ?_⟩
  by_cases hc : frame_bit fa (frame / PAGE_SIZE) = 0
  · rw [h1 hc, h1 hc]
  · have e : free_frame fa frame = release_frame fa (frame / PAGE_SIZE) := by
      simp [free_frame, hc]
    have hz : frame_bit (release_frame fa (frame / PAGE_SIZE)) (frame / PAGE_SIZE) = 0 := by
      by_contra hne
      exact ((frame_bit_release fa _ _).1 hne).1 rfl
    rw [e]
    simp [free_frame, hz]

/-- C22, on the state after `init_paging` and one `alloc_frame`: frame 0 is allocated, and
freeing it twice gives the same state as freeing it once; frame 1 is free, and freeing it
changes nothing. -/
theorem free_frame_idempotent_witness :
    (0x1000 / PAGE_SIZE < (alloc_frame boot_frames).1.total_frames ∧
      (frame_bit (alloc_frame boot_frames).1 (0x1000 / PAGE_SIZE) = 0 →
        free_frame (alloc_frame boot_frames).1 0x1000 = (alloc_frame boot_frames).1) ∧
      free_frame (free_frame (alloc_frame boot_frames).1 0x1000) 0x1000
        = free_frame (alloc_frame boot_frames).1 0x1000) ∧
    (0 / PAGE_SIZE < (alloc_frame boot_frames).1.total_frames ∧
      frame_bit (alloc_frame boot_frames).1 (0 / PAGE_SIZE) ≠ 0 ∧
      free_frame (free_frame (alloc_frame boot_frames).1 0) 0
        = free_frame (alloc_frame boot_frames).1 0) :=
  ⟨⟨by decide, free_frame_idempotent (alloc_frame boot_frames).1 0x1000 (by decide)⟩,
    by decide, by decide,
    (free_frame_idempotent (alloc_frame boot_frames).1 0 (by decide)).2⟩

/-! ## System calls -/

/-- C25. For every system-call number outside 1..16 and all arguments, `syscall_handler`
returns `0xFFFFFFFF` (−1 as a `u32`), and the kernel state is as before except that the
counter `syscalls` has grown by one: `current_process`, every process state and every
quantum are unchanged. -/
theorem unknown_syscall (fuel : Nat) (k : Kernel) (num a1 a2 a3 a4 : Nat)
    (hnum : num = 0 ∨ 16 < num) :
    syscall_handler fuel k num a1 a2 a3 a4
      = some ({ k with syscalls := (k.syscalls + 1) % W64 }, 0xFFFFFFFF) := by
  have h1 : num ≠ 1 := by omega
  have h9 : num ≠ 9 := by omega
  have h4 : num ≠ 4 := by omega
  have h11 : num ≠ 11 := by omega
  simp only [syscall_handler, h1, h9, h4, h11, if_false]
  rfl

/-- C25, for the numbers 0 and 17 on the kernel right after `init_tasking`. -/
theorem unknown_syscall_witness :
    ((0 : Nat) = 0 ∨ 16 < 0) ∧
    syscall_handler 1 idle_kernel 0 1 2 3 4
      = some ({ idle_kernel with syscalls := (idle_kernel.syscalls + 1) % W64 }, 0xFFFFFFFF) ∧
    syscall_handler 1 idle_kernel 17 1 2 3 4
      = some ({ idle_kernel with syscalls := (idle_kernel.syscalls + 1) % W64 }, 0xFFFFFFFF) :=
  ⟨Or.inl rfl, unknown_syscall 1 idle_kernel 0 1 2 3 4 (Or.inl rfl),
    unknown_syscall 1 idle_kernel 17 1 2 3 4 (Or.inr (by decide))⟩

/-- C26 (counterexample). Right after `init_tasking`, with `system_ticks = 0`, the idle
process calls `sleep(1)` (system call 10): the call returns `0xFFFFFFFF`, the process is still
`RUNNING` and its `sleep_until` is still 0, not `BLOCKED` with `sleep_until = 100`, and
`context_switches` is still 0: the scheduler was not invoked. -/
theorem sleep_not_handled :
    idle_kernel.system_ticks = 0 ∧
    (syscall_handler 1 idle_kernel 10 1 0 0 0).map
      (fun r => (r.2, (r.1.procs r.1.current_process).state,
        (r.1.procs r.1.current_process).sleep_until, r.1.context_switches))
      = some (0xFFFFFFFF, PROC_STATE_RUNNING, 0, 0) := by
  refine ⟨rfl, rfl⟩

/-- C26 (amended). System call 10 has no case in `syscall_handler`: for every state and
all arguments it takes the default branch, returns `0xFFFFFFFF` and leaves the kernel state
as it was except that the counter `syscalls` has grown by one; no `sleep_until` and no
process state is written and `schedule` is not invoked. -/
theorem sleep_is_unknown_syscall (fuel : Nat) (k : Kernel) (a1 a2 a3 a4 : Nat) :
    syscall_handler fuel k 10 a1 a2 a3 a4
      = some ({ k with syscalls := (k.syscalls + 1) % W64 }, 0xFFFFFFFF) := by
  simp only [syscall_handler]
  rfl

/-! ## Real-time clock -/

theorem bcd_roundtrip : ∀ n, n < 100 → bcdToBinary (bcd_encode n) = n ∧ bcd_encode n < 256 := by
  decide

theorem rtc_wait_returns (status : Nat → Nat) : ∀ (d fuel i : Nat), d + 1 ≤ fuel →
    readRegister status (i + d) &&& 0x80 = 0 → ∃ r, rtc_wait status fuel i = some r := by
  intro d
  induction d with
  | zero =>
    intro fuel i hf hc
    obtain ⟨f, rfl⟩ : ∃ f, fuel = f + 1 := ⟨fuel - 1, by omega⟩
    rw [Nat.add_zero] at hc
    exact ⟨i + 1, by simp [rtc_wait, hc]⟩
  | succ d ih =>
    intro fuel i hf hc
    obtain ⟨f, rfl⟩ : ∃ f, fuel = f + 1 := ⟨fuel - 1, by omega⟩
    unfold rtc_wait
    by_cases hb : readRegister status i &&& 0x80 ≠ 0
    · rw [if_pos hb]
      exact ih f (i + 1) (by omega) (by rw [show i + 1 + d = i + (d + 1) by omega]; exact hc)
    · rw [if_neg hb]
      exact ⟨_, rfl⟩

/-- C27. `bcdToBinary` undoes the packed-BCD encoding of every `n` below 100, and the
encoded byte and the result fit in 8 bits; when some read of status register `0x0A` has the
update-in-progress bit clear, `getDateTime` returns (given the fuel for that many reads) and
its `year` field is the BCD-decoded year register `0x09` plus 2000. -/
theorem bcd_decode (n : Nat) (hn : n < 100) (status cmos : Nat → Nat) (i fuel : Nat)
    (hclear : readRegister status i &&& 0x80 = 0) (hfuel : i + 1 ≤ fuel) :
    bcdToBinary (bcd_encode n) = n ∧ bcd_encode n < 256 ∧ bcdToBinary (bcd_encode n) < 256 ∧
    ∃ dt, getDateTime fuel status cmos = some dt ∧
      dt.year = bcdToBinary (readRegister cmos 0x09) + 2000 := by
  obtain ⟨h1, h2⟩ := bcd_roundtrip n hn
  refine ⟨h1, h2, by rw [h1]; omega, ?_⟩
  obtain ⟨r, hr⟩ := rtc_wait_returns status i fuel 0 hfuel (by rw [Nat.zero_add]; exact hclear)
  have hlt : bcdToBinary (readRegister cmos 0x09) < 256 := Nat.mod_lt _ (by decide)
  refine ⟨{ second := bcdToBinary (readRegister cmos 0x00)
            minute := bcdToBinary (readRegister cmos 0x02)
            hour := bcdToBinary (readRegister cmos 0x04)
            day := bcdToBinary (readRegister cmos 0x07)
            month := bcdToBinary (readRegister cmos 0x08)
            year := (bcdToBinary (readRegister cmos 0x09) + 2000) % 65536 }, ?_, ?_⟩
  · simp only [getDateTime, hr]
  · show (bcdToBinary (readRegister cmos 0x09) + 2000) % 65536 = _
    omega

/-- C27, for `n = 59` and a clock whose year register holds `0x26` and whose third status
read is the first with the update-in-progress bit clear. -/
theorem bcd_decode_witness :
    bcd_encode 59 = 0x59 ∧ bcdToBinary 0x59 = 59 ∧
    (getDateTime 3 (fun i => if i < 2 then 0x80 else 0)
      (fun reg => if reg = 9 then 0x26 else 0)).map DateTime.year = some 2026 ∧
    (59 < 100 ∧ readRegister (fun i => if i < 2 then 0x80 else 0) 2 &&& 0x80 = 0 ∧
      bcdToBinary (bcd_encode 59) = 59 ∧ bcd_encode 59 < 256 ∧
      bcdToBinary (bcd_encode 59) < 256 ∧
      ∃ dt, getDateTime 3 (fun i => if i < 2 then 0x80 else 0)
          (fun reg => if reg = 9 then 0x26 else 0) = some dt ∧
        dt.year = bcdToBinary (readRegister (fun reg => if reg = 9 then 0x26 else 0) 0x09)
          + 2000) :=
  ⟨by decide, by decide, by decide, by decide, by decide,
    bcd_decode 59 (by decide) (fun i => if i < 2 then 0x80 else 0)
      (fun reg => if reg = 9 then 0x26 else 0) 2 3 (by decide) (by decide)⟩

/-! ## Scheduler: the walk of `schedule` -/

theorem schedule_idle_returns (fuel : Nat) (k : Kernel) (inv : TaskInv k) :
    schedule (fuel + 1) k = some { k with context_switches := (k.context_switches + 1) % W64 } := by
  obtain ⟨hne, hcur, hs0, _, hn, hst⟩ := inv
  rw [← hcur] at hne hs0 hn hst
  rcases hst with hst | hst
  · simp [schedule, hne, hn, hs0, schedule_search, hst]
  · simp [schedule, hne, hn, hs0, schedule_search, hst]

/-- With only the idle process in the table (every state reachable from `init_tasking`),
`schedule` returns with `current_process`, every process and every quantum unchanged; the
counter `context_switches` grows by one all the same. -/
theorem schedule_idle_only_counts (fuel : Nat) (k : Kernel) (h : TaskReach k) :
    schedule (fuel + 1) k
      = some { k with context_switches := (k.context_switches + 1) % W64 } :=
  schedule_idle_returns fuel k (taskReach_inv _ k h).1

/-- C23 (code defect). Right after `init_tasking` the idle process is the only process;
`schedule()` leaves `current_process`, the state and the quantum of the idle process as they
were, but the counter `context_switches` goes from 0 to 1 although nothing was switched. -/
theorem schedule_counts_without_switch :
    TaskReach idle_kernel ∧ idle_kernel.context_switches = 0 ∧
    (schedule 1 idle_kernel).map (fun k => (k.current_process,
        (k.procs k.current_process).state, (k.procs k.current_process).quantum,
        k.context_switches))
      = some (idle_kernel.current_process,
        (idle_kernel.procs idle_kernel.current_process).state,
        (idle_kernel.procs idle_kernel.current_process).quantum, 1) := by
  refine ⟨?_, rfl, rfl⟩
  exact TaskReachWith.init 1 { boot_kernel with heap := init_memory boot_heap } idle_kernel
    (fun _ => rfl) rfl

theorem search_congr (k k' : Kernel) (h1 : k'.procs = k.procs)
    (h2 : k'.process_list = k.process_list) (h3 : k'.current_process = k.current_process) :
    ∀ fuel n, schedule_search k' fuel n = schedule_search k fuel n := by
  intro fuel
  induction fuel with
  | zero => intro n; rfl
  | succ fuel ih =>
    intro n
    unfold schedule_search
    simp only [h1, h2, h3, ih]

/-- The function `schedule` in terms of its search on the state it was called in. -/
theorem schedule_eq (fuel : Nat) (k : Kernel) (hc : k.current_process ≠ 0) :
    schedule fuel k = (schedule_search k fuel (sched_succ k k.current_process)).map fun next =>
      if next ≠ 0 ∧ next ≠ k.current_process then switched_to k next
      else { k with context_switches := (k.context_switches + 1) % W64 } := by
  unfold schedule
  rw [if_neg hc]
  simp only []
  rw [search_congr k { k with context_switches := (k.context_switches + 1) % W64 } rfl rfl rfl]
  unfold sched_succ
  cases schedule_search k fuel
      (if (k.procs k.current_process).next = 0 then k.process_list 0
        else (k.procs k.current_process).next) with
  | none => rfl
  | some next =>
    simp only [Option.map, switched_to]
    split_ifs <;> rfl

theorem search_off_chain : ∀ fuel, schedule_search off_chain fuel 0x1000 = none := by
  intro fuel
  induction fuel with
  | zero => rfl
  | succ fuel ih =>
    unfold schedule_search
    rw [if_pos (by decide)]
    simp only []
    rw [if_neg (by decide)]
    exact ih

/-- C30 (counterexample). The table `off_chain` is the case the sentence names: every `next`
chain ends in null, the current process is not on the chain of `process_list[0]` and the one
process on that chain is `BLOCKED`. The search of `schedule` goes round that chain for ever:
whatever the number of iterations allowed, `schedule` has not returned. -/
theorem schedule_never_returns :
    (off_chain.procs off_chain.current_process).next = 0 ∧
    off_chain.process_list 0 = 0x1000 ∧ (off_chain.procs 0x1000).next = 0 ∧
    (off_chain.procs 0x1000).state = PROC_STATE_BLOCKED ∧
    ∀ fuel, schedule fuel off_chain = none := by
  refine ⟨rfl, rfl, rfl, rfl, fun fuel => ?_⟩
  rw [schedule_eq fuel off_chain (by decide)]
  have e : sched_succ off_chain off_chain.current_process = 0x1000 := by decide
  rw [e, search_off_chain fuel]
  rfl

theorem search_walk (k : Kernel) (r : Nat) : ∀ (d j fuel : Nat), d + 1 ≤ fuel →
    (∀ i, j ≤ i → i < j + d → sched_walk k i ≠ 0 ∧ ¬ Runnable k (sched_walk k i) ∧
      sched_walk k (i + 1) ≠ k.current_process) →
    ((sched_walk k (j + d) = 0 ∧ r = 0) ∨
      (Runnable k (sched_walk k (j + d)) ∧ r = sched_walk k (j + d)) ∨
      (sched_walk k (j + d) ≠ 0 ∧ ¬ Runnable k (sched_walk k (j + d)) ∧
        sched_walk k (j + d + 1) = k.current_process ∧ r = k.current_process)) →
    schedule_search k fuel (sched_walk k j) = some r := by
  intro d
  induction d with
  | zero =>
    intro j fuel hf _ hstop
    obtain ⟨f, rfl⟩ : ∃ f, fuel = f + 1 := ⟨fuel - 1, by omega⟩
    rw [Nat.add_zero] at hstop
    unfold schedule_search
    rcases hstop with ⟨h0, hr⟩ | ⟨hrun, hr⟩ | ⟨h0, hnr, hcur, hr⟩
    · rw [if_neg (fun h => h.1 h0), h0, hr]
    · rw [if_neg (fun h => by
        rcases hrun with h1 | h1
        · exact h.2.1 h1
        · exact h.2.2 h1), hr]
    · have hc : sched_walk k j ≠ 0 ∧ (k.procs (sched_walk k j)).state ≠ PROC_STATE_READY ∧
          (k.procs (sched_walk k j)).state ≠ PROC_STATE_RUNNING :=
        ⟨h0, fun h => hnr (Or.inl h), fun h => hnr (Or.inr h)⟩
      rw [if_pos hc]
      have e : (if (k.procs (sched_walk k j)).next = 0 then k.process_list 0
          else (k.procs (sched_walk k j)).next) = sched_walk k (j + 1) := rfl
      simp only [e]
      rw [if_pos hcur, hcur, hr]
  | succ d ih =>
    intro j fuel hf hskip hstop
    obtain ⟨f, rfl⟩ : ∃ f, fuel = f + 1 := ⟨fuel - 1, by omega⟩
    obtain ⟨h0, hnr, hne⟩ := hskip j le_rfl (by omega)
    have hc : sched_walk k j ≠ 0 ∧ (k.procs (sched_walk k j)).state ≠ PROC_STATE_READY ∧
        (k.procs (sched_walk k j)).state ≠ PROC_STATE_RUNNING :=
      ⟨h0, fun h => hnr (Or.inl h), fun h => hnr (Or.inr h)⟩
    unfold schedule_search
    rw [if_pos hc]
    have e : (if (k.procs (sched_walk k j)).next = 0 then k.process_list 0
        else (k.procs (sched_walk k j)).next) = sched_walk k (j + 1) := rfl
    simp only [e]
    rw [if_neg hne]
    have e2 : j + 1 + d = j + (d + 1) := by omega
    exact ih (j + 1) f (by omega) (fun i h1 h2 => hskip i (by omega) (by omega))
      (by rw [e2]; exact hstop)

/-- Round-robin selection where the search of `schedule` stops. The walk from
`current_process` follows `next` links and continues at `process_list[0]` after a null
link. If its first `n` processes are neither `READY` nor `RUNNING` and the walk has not
come back to `current_process`, then: when the next process is `READY` or `RUNNING` and is
not `current_process`, `schedule` switches to it; when the walk ends there (null), or is
back at `current_process`, `schedule` stays on `current_process`. -/
theorem round_robin (k : Kernel) (n fuel : Nat) (hc : k.current_process ≠ 0)
    (hfuel : n + 1 ≤ fuel)
    (hskip : ∀ i, i < n → sched_walk k i ≠ 0 ∧ ¬ Runnable k (sched_walk k i) ∧
      sched_walk k (i + 1) ≠ k.current_process) :
    (sched_walk k n ≠ 0 → Runnable k (sched_walk k n) →
      sched_walk k n ≠ k.current_process →
      schedule fuel k = some (switched_to k (sched_walk k n))) ∧
    ((sched_walk k n = 0 ∨ (Runnable k (sched_walk k n) ∧ sched_walk k n = k.current_process) ∨
        (¬ Runnable k (sched_walk k n) ∧ sched_walk k (n + 1) = k.current_process)) →
      schedule fuel k = some { k with context_switches := (k.context_switches + 1) % W64 }) := by
  have hs : ∀ i, 0 ≤ i → i < 0 + n → sched_walk k i ≠ 0 ∧ ¬ Runnable k (sched_walk k i) ∧
      sched_walk k (i + 1) ≠ k.current_process := fun i _ h => hskip i (by omega)
  have w0 : sched_succ k k.current_process = sched_walk k 0 := rfl
  constructor
  · intro h0 hrun hne
    have e := search_walk k (sched_walk k n) n 0 fuel hfuel hs
      (Or.inr (Or.inl ⟨by rw [Nat.zero_add]; exact hrun, by rw [Nat.zero_add]⟩))
    rw [schedule_eq fuel k hc, w0, e]
    simp only [Option.map]
    rw [if_pos ⟨h0, hne⟩]
  · intro hstop
    by_cases h0 : sched_walk k n = 0
    · have e := search_walk k 0 n 0 fuel hfuel hs
        (Or.inl ⟨by rw [Nat.zero_add]; exact h0, rfl⟩)
      rw [schedule_eq fuel k hc, w0, e]
      simp only [Option.map]
      rw [if_neg (fun h => h.1 rfl)]
    · by_cases hrun : Runnable k (sched_walk k n)
      · have hcur : sched_walk k n = k.current_process := by
          rcases hstop with h | h | h
          · exact absurd h h0
          · exact h.2
          · exact absurd hrun h.1
        have e := search_walk k (sched_walk k n) n 0 fuel hfuel hs
          (Or.inr (Or.inl ⟨by rw [Nat.zero_add]; exact hrun, by rw [Nat.zero_add]⟩))
        rw [schedule_eq fuel k hc, w0, e]
        simp only [Option.map]
        rw [if_neg (fun h => h.2 hcur)]
      · have hcur : sched_walk k (n + 1) = k.current_process := by
          rcases hstop with h | h | h
          · exact absurd h h0
          · exact absurd h.1 hrun
          · exact h.2
        have e := search_walk k k.current_process n 0 fuel hfuel hs
          (Or.inr (Or.inr ⟨by rw [Nat.zero_add]; exact h0, by rw [Nat.zero_add]; exact hrun,
            by rw [Nat.zero_add]; exact hcur, rfl⟩))
        rw [schedule_eq fuel k hc, w0, e]
        simp only [Option.map]
        rw [if_neg (fun h => h.2 rfl)]

/-- The selection on the two-process ring: `schedule` switches from `A` to `B`. -/
theorem round_robin_two_procs :
    schedule 1 (two_procs 20) = some (switched_to (two_procs 20) 0x2000) :=
  (round_robin (two_procs 20) 0 1 (by decide) (le_refl 1)
    (fun i hi => absurd hi (Nat.not_lt_zero i))).1
    (by decide) (Or.inl rfl) (by decide)

theorem search_off_chain_exited : ∀ fuel,
    schedule_search off_chain_exited fuel 0x1000 = none ∧
    schedule_search off_chain_exited fuel 0x2000 = none := by
  intro fuel
  induction fuel with
  | zero => exact ⟨rfl, rfl⟩
  | succ fuel ih =>
    constructor
    · unfold schedule_search
      rw [if_pos (by decide)]
      simp only []
      rw [if_neg (by decide)]
      exact ih.2
    · unfold schedule_search
      rw [if_pos (by decide)]
      simp only []
      rw [if_neg (by decide)]
      exact ih.1

/-- Outside the ring. In the table `off_chain_exited` every `next` chain ends in null
(`0x3000 -> 0x1000 -> 0x2000 -> NULL`), the current process `0x3000` is `TERMINATED`, is
not on the chain of `process_list[0]`, and no other process is `READY` or `RUNNING`. The walk
goes `0x1000, 0x2000`, continues at `process_list[0] = 0x1000` and never meets `0x3000`
again, so `schedule` has not returned after any number of iterations. -/
theorem schedule_walk_misses_current :
    (off_chain_exited.procs 0x3000).next = 0x1000 ∧
    (off_chain_exited.procs 0x1000).next = 0x2000 ∧
    (off_chain_exited.procs 0x2000).next = 0 ∧
    off_chain_exited.process_list 0 = 0x1000 ∧
    ¬ Runnable off_chain_exited 0x1000 ∧ ¬ Runnable off_chain_exited 0x2000 ∧
    ∀ fuel, schedule fuel off_chain_exited = none := by
  refine ⟨rfl, rfl, rfl, rfl, ?_, ?_, fun fuel => ?_⟩
  · rintro (h | h) <;> exact absurd h (by decide)
  · rintro (h | h) <;> exact absurd h (by decide)
  · rw [schedule_eq fuel off_chain_exited (by decide)]
    have e : sched_succ off_chain_exited off_chain_exited.current_process = 0x1000 := by decide
    rw [e, (search_off_chain_exited fuel).1]
    rfl

/-! ## Heap: overlap of blocks, first fit -/

/-- Without 32-bit wrap-around two distinct blocks of the list have disjoint byte ranges,
also when addresses are taken modulo `2 ^ 32`. -/
theorem blocks_disjoint_without_wrap (h : Heap) (live : Set Nat)
    (hr : HeapReachNoWrap h live) (a c : Nat) (ha : InList h a) (hc : InList h c)
    (hne : a ≠ c) :
    (a + (h.mem a).size ≤ c ∨ c + (h.mem c).size ≤ a) ∧
    ∀ x, x < W32 → ¬ (InBlock h a x ∧ InBlock h c x) := by
  obtain ⟨S, inv⟩ := reach_inv h live hr
  have haS := inList_mem inv ha
  have hcS := inList_mem inv hc
  obtain ⟨a1, _, a3, _, _⟩ := inv.struct.node a haS
  obtain ⟨c1, _, c3, _, _⟩ := inv.struct.node c hcS
  have hB := bound_lt h.total_allocated
  have hd : a + (h.mem a).size ≤ c ∨ c + (h.mem c).size ≤ a := by
    rcases Nat.lt_or_gt_of_ne hne with hlt | hlt
    · exact Or.inl (struct_disjoint inv.struct haS hcS hlt)
    · exact Or.inr (struct_disjoint inv.struct hcS haS hlt)
  refine ⟨hd, fun x hx => ?_⟩
  unfold InBlock
  unfold W32 HEAP_START at *
  rintro ⟨h1, h2⟩
  rcases hd with hd | hd <;> omega

/-- C28 (code defect). After `X = kmalloc(16); A = kmalloc(16); H = kmalloc(0xFFFFFFC0)` the
three pointers are live and the blocks `X = 0x400000` and `H = 0x400050` are both in the list
and in use. `H` has size `0xFFFFFFD8`, so its byte range wraps round the 32-bit address space:
the first byte of `X` and the pointer `0x400018` that `kmalloc` returned for `X` both lie in
the range of `H`. -/
theorem live_ranges_overlap :
    ∃ live, HeapReach scen_h3 live ∧ 0x400018 ∈ live ∧ 0x400068 ∈ live ∧
      InList scen_h3 0x400000 ∧ InList scen_h3 0x400050 ∧
      (scen_h3.mem 0x400000).used = true ∧ (scen_h3.mem 0x400050).used = true ∧
      (scen_h3.mem 0x400050).size = 0xFFFFFFD8 ∧
      InBlock scen_h3 0x400000 0x400000 ∧ InBlock scen_h3 0x400050 0x400000 ∧
      InBlock scen_h3 0x400050 0x400018 := by
  have r0 : HeapReach (init_memory boot_heap) ∅ := HeapReachWith.init _
  have r1 := HeapReachWith.alloc 8 16 4 scen_h1 0x400018 r0
    (by decide) (by decide) trivial rfl
  have r2 := HeapReachWith.alloc 8 16 4 scen_h2 0x400040 r1
    (by decide) (by decide) trivial rfl
  have r3 := HeapReachWith.alloc 8 0xFFFFFFC0 4 scen_h3 0x400068 r2
    (by decide) (by decide) trivial rfl
  have i0 : InList scen_h3 0x400000 := InList.head (by decide)
  have e0 : (scen_h3.mem 0x400000).next = 0x400028 := by decide
  have i1 : InList scen_h3 0x400028 := e0 ▸ InList.next i0 (by decide)
  have e1 : (scen_h3.mem 0x400028).next = 0x400050 := by decide
  have i2 : InList scen_h3 0x400050 := e1 ▸ InList.next i1 (by decide)
  refine ⟨_, r3, by simp, by simp, i0, i2, by decide, by decide, by decide, ?_, ?_, ?_⟩
  · unfold InBlock; decide
  · unfold InBlock; decide
  · unfold InBlock; decide

/-- C29 (code defect). After `X = kmalloc(16); A = kmalloc(16); H = kmalloc(0xFFFFFFC0);
kfree(X); kfree(H)` the call `kmalloc(0xFFFFFFC0)` needs `0xFFFFFFD8` bytes; the first free
block that large is `H = 0x400050` (third in the list, behind `X`, free but 40 bytes, and `A`,
in use), and its size `0xFFFFFFD8` does not exceed the need plus 24 plus 64. The call returns
the payload of `H`, yet it has split `H`: the 32-bit sum `need + 24 + 64` wrapped to 48, and
the remainder header was written at `H + need = 0x400028` (mod `2 ^ 32`), the live block `A`,
which is now free with size 0. -/
theorem split_hits_neighbour :
    ∃ live, HeapReach scen_h5 live ∧ 0x400040 ∈ live ∧
      block_need 0xFFFFFFC0 16 = 0xFFFFFFD8 ∧
      nth_block scen_h5 0 = 0x400000 ∧ nth_block scen_h5 1 = 0x400028 ∧
      nth_block scen_h5 2 = 0x400050 ∧
      (scen_h5.mem 0x400000).used = false ∧ (scen_h5.mem 0x400000).size = 40 ∧
      (scen_h5.mem 0x400028).used = true ∧ (scen_h5.mem 0x400028).size = 40 ∧
      (scen_h5.mem 0x400050).used = false ∧ (scen_h5.mem 0x400050).size = 0xFFFFFFD8 ∧
      ¬ ((scen_h5.mem 0x400050).size > 0xFFFFFFD8 + sizeof_memory_block_t + 64) ∧
      kmalloc 8 scen_h5 0xFFFFFFC0 = some (scen_h6, 0x400068) ∧
      (scen_h6.mem 0x400050).next = 0x400028 ∧
      (scen_h6.mem 0x400028).used = false ∧ (scen_h6.mem 0x400028).size = 0 := by
  have r0 : HeapReach (init_memory boot_heap) ∅ := HeapReachWith.init _
  have r1 := HeapReachWith.alloc 8 16 4 scen_h1 0x400018 r0
    (by decide) (by decide) trivial rfl
  have r2 := HeapReachWith.alloc 8 16 4 scen_h2 0x400040 r1
    (by decide) (by decide) trivial rfl
  have r3 := HeapReachWith.alloc 8 0xFFFFFFC0 4 scen_h3 0x400068 r2
    (by decide) (by decide) trivial rfl
  have r4 := HeapReachWith.free 0x400018 r3 (by simp)
  have r5 := HeapReachWith.free 0x400068 r4 (by simp)
  refine ⟨_, r5, by simp, by decide, by decide, by decide, by decide, by decide, by decide,
    by decide, by decide, by decide, by decide, by decide, rfl, by decide, by decide,
    by decide⟩

theorem and_mask_pow2 (x k : Nat) (hx : x < 2 ^ 32) (hk : k ≤ 32) :
    x &&& ((2 ^ 32 - 1) ^^^ (2 ^ k - 1)) = x / 2 ^ k * 2 ^ k := by
  apply Nat.eq_of_testBit_eq
  intro i
  have e2 : x / 2 ^ k * 2 ^ k = (x >>> k) <<< k := by
    rw [Nat.shiftLeft_eq, Nat.shiftRight_eq_div_pow]
  rw [e2, Nat.testBit_and, Nat.testBit_xor, Nat.testBit_two_pow_sub_one,
    Nat.testBit_two_pow_sub_one, Nat.testBit_shiftLeft, Nat.testBit_shiftRight]
  by_cases hki : k ≤ i
  · have e : k + (i - k) = i := by omega
    have h1 : ¬ i < k := by omega
    by_cases h32 : i < 32
    · simp [hki, h1, h32, e]
    · have hf : x.testBit i = false :=
        Nat.testBit_eq_false_of_lt
          (lt_of_lt_of_le hx (Nat.pow_le_pow_right (by decide) (by omega)))
      simp [hki, hf, e]
  · have h1 : i < k := by omega
    have h32 : i < 32 := by omega
    simp [hki, h1, h32]

/-- For a power-of-two alignment and a request whose rounding does not pass `2 ^ 32`,
`align_up` is the request rounded up to the next multiple of the alignment. -/
theorem align_up_pow2 (size k : Nat) (hs : 0 < size) (hr : size + 2 ^ k ≤ W32) :
    align_up size (2 ^ k) = (size + 2 ^ k - 1) / 2 ^ k * 2 ^ k := by
  have hpos : 0 < 2 ^ k := Nat.two_pow_pos k
  have hk : k ≤ 32 := by
    by_contra hgt
    have : 2 ^ 33 ≤ 2 ^ k := Nat.pow_le_pow_right (by decide) (by omega)
    unfold W32 at hr
    omega
  unfold align_up
  have e1 : (size + 2 ^ k + W32 - 1) % W32 = size + 2 ^ k - 1 := by
    unfold W32 at *; omega
  have e2 : (2 ^ k + W32 - 1) % W32 = 2 ^ k - 1 := by
    unfold W32 at *; omega
  rw [e1, e2]
  exact and_mask_pow2 _ k (by unfold W32 at hr; omega) hk

theorem take_mem (h : Heap) (S live : Set Nat) (inv : HeapInv h S live) (need b : Nat)
    (hb : b ∈ S) (hfree : (h.mem b).used = false) (hfit : need ≤ (h.mem b).size)
    (hneed : sizeof_memory_block_t ≤ need) :
    ((h.mem b).size > need + sizeof_memory_block_t + 64 →
      (kmalloc_take h need b).1.mem
        = setBlock (splitted h.mem b (b + need) need) b fun x => { x with used := true }) ∧
    (¬ (h.mem b).size > need + sizeof_memory_block_t + 64 →
      (kmalloc_take h need b).1.mem = setBlock h.mem b fun x => { x with used := true }) ∧
    (kmalloc_take h need b).2 = b + sizeof_memory_block_t := by
  obtain ⟨nb1, nb2, nb3, nb4, nb5⟩ := inv.struct.node b hb
  have hb0 : b ≠ 0 := struct_ne_zero inv.struct hb
  have hBlt := bound_lt h.total_allocated
  have hn0 : 0 < need := by unfold sizeof_memory_block_t at hneed; omega
  have hmin := Nat.min_le_right h.total_allocated HEAP_SIZE
  have hszH : (h.mem b).size ≤ HEAP_SIZE := by omega
  have e88 : (need + sizeof_memory_block_t + 64) % W32 = need + sizeof_memory_block_t + 64 := by
    apply Nat.mod_eq_of_lt
    unfold HEAP_SIZE W32 sizeof_memory_block_t at *
    omega
  have hn_gt : (h.mem b).next ≠ 0 → b + (h.mem b).size ≤ (h.mem b).next :=
    fun h0 => (inv.struct.next_ok b hb h0).2.2
  have hsp : (h.mem b).size > need + sizeof_memory_block_t + 64 →
      kmalloc_split h.mem need b = splitted h.mem b (b + need) need := by
    intro hc'
    have hc : (h.mem b).size > (need + sizeof_memory_block_t + 64) % W32 := by
      rw [e88]; exact hc'
    have hlt : b + need + sizeof_memory_block_t < W32 := by
      unfold HEAP_START HEAP_SIZE W32 sizeof_memory_block_t at *
      omega
    have hn1 : (h.mem b).next ≠ b + need := by
      intro e
      by_cases h0 : (h.mem b).next = 0
      · omega
      · have := hn_gt h0; omega
    have hn2 : (h.mem b).next ≠ b := by
      intro e
      by_cases h0 : (h.mem b).next = 0
      · omega
      · have := hn_gt h0; omega
    exact split_eq h.mem need b hc hlt hn0 hfit
      (by unfold HEAP_SIZE W32 at *; omega) hn1 hn2
  have hwh : ¬ (h.mem b).size > need + sizeof_memory_block_t + 64 →
      kmalloc_split h.mem need b = h.mem := by
    intro hc'
    have hc : ¬ (h.mem b).size > (need + sizeof_memory_block_t + 64) % W32 := by
      rw [e88]; exact hc'
    unfold kmalloc_split; rw [if_neg hc]
  have hbn : b ≠ b + need := by omega
  refine ⟨fun hc => ?_, fun hc => ?_, ?_⟩
  · unfold kmalloc_take
    rw [hsp hc]
  · unfold kmalloc_take
    rw [hwh hc]
  · show ((setBlock (kmalloc_split h.mem need b) b fun x => { x with used := true }) b).address
      = _
    by_cases hc : (h.mem b).size > need + sizeof_memory_block_t + 64
    · rw [hsp hc, setUsed_address, splitted_address, if_neg hbn]
      exact nb5
    · rw [hwh hc, setUsed_address]
      exact nb5

theorem scan_first (need : Nat) (h : Heap) : ∀ (i c prev fuel : Nat), i + 1 ≤ fuel →
    (∀ j, j ≤ i → nth_from h.mem c j ≠ 0) →
    (∀ j, j < i → ¬ ((h.mem (nth_from h.mem c j)).used = false ∧
      (h.mem (nth_from h.mem c j)).size ≥ need)) →
    (h.mem (nth_from h.mem c i)).used = false → (h.mem (nth_from h.mem c i)).size ≥ need →
    kmalloc_scan need fuel h c prev = some (kmalloc_take h need (nth_from h.mem c i)) := by
  intro i
  induction i with
  | zero =>
    intro c prev fuel hf hpos _ hfree hfit
    obtain ⟨f, rfl⟩ : ∃ f, fuel = f + 1 := ⟨fuel - 1, by omega⟩
    have hc0 : c ≠ 0 := hpos 0 le_rfl
    unfold kmalloc_scan
    rw [if_neg hc0, if_pos ⟨hfree, hfit⟩]
    rfl
  | succ i ih =>
    intro c prev fuel hf hpos hskip hfree hfit
    obtain ⟨f, rfl⟩ : ∃ f, fuel = f + 1 := ⟨fuel - 1, by omega⟩
    have hc0 : c ≠ 0 := hpos 0 (by omega)
    have hno : ¬ ((h.mem c).used = false ∧ (h.mem c).size ≥ need) := hskip 0 (by omega)
    unfold kmalloc_scan
    rw [if_neg hc0, if_neg hno]
    exact ih (h.mem c).next c f (by omega) (fun j hj => hpos (j + 1) (by omega))
      (fun j hj => hskip (j + 1) (by omega)) hfree hfit

theorem inList_nth (h : Heap) : ∀ (i c : Nat), InList h c →
    (∀ j, j ≤ i → nth_from h.mem c j ≠ 0) → InList h (nth_from h.mem c i) := by
  intro i
  induction i with
  | zero => intro c hc _; exact hc
  | succ i ih =>
    intro c hc hpos
    have h1 : (h.mem c).next ≠ 0 := hpos 1 (by omega)
    exact ih (h.mem c).next (InList.next hc h1) fun j hj => hpos (j + 1) (by omega)

/-- First fit with split, in every heap reachable without 32-bit wrap-around. When the
`i`-th block of the list is the first free block whose size is at least the need (the
request rounded up to the power-of-two alignment, plus the 24-byte header),
`kmalloc_aligned` returns its payload. If the block is larger than the need plus 24 plus 64,
memory afterwards is `splitted`: the block keeps `need` bytes and is followed by a new free
block with the remainder, linked in between the block and its old successor; otherwise only
the `used` flag of the block changes. No other header is written. -/
theorem first_fit_without_wrap (h : Heap) (live : Set Nat) (hr : HeapReachNoWrap h live)
    (size k i fuel : Nat) (hs : 0 < size) (hround : size + 2 ^ k ≤ W32) (hfuel : i + 1 ≤ fuel)
    (hpos : ∀ j, j ≤ i → nth_block h j ≠ 0)
    (hfree : (h.mem (nth_block h i)).used = false)
    (hfit : (size + 2 ^ k - 1) / 2 ^ k * 2 ^ k + sizeof_memory_block_t
      ≤ (h.mem (nth_block h i)).size)
    (hfirst : ∀ j, j < i → ¬ ((h.mem (nth_block h j)).used = false ∧
      (size + 2 ^ k - 1) / 2 ^ k * 2 ^ k + sizeof_memory_block_t
        ≤ (h.mem (nth_block h j)).size)) :
    ∃ h', kmalloc_aligned fuel h size (2 ^ k)
        = some (h', nth_block h i + sizeof_memory_block_t) ∧
      h'.memory_blocks_head = h.memory_blocks_head ∧
      ((h.mem (nth_block h i)).size
          > (size + 2 ^ k - 1) / 2 ^ k * 2 ^ k + sizeof_memory_block_t
            + sizeof_memory_block_t + 64 →
        h'.mem = setBlock (splitted h.mem (nth_block h i)
          (nth_block h i + ((size + 2 ^ k - 1) / 2 ^ k * 2 ^ k + sizeof_memory_block_t))
          ((size + 2 ^ k - 1) / 2 ^ k * 2 ^ k + sizeof_memory_block_t)) (nth_block h i)
          fun x => { x with used := true }) ∧
      (¬ (h.mem (nth_block h i)).size
          > (size + 2 ^ k - 1) / 2 ^ k * 2 ^ k + sizeof_memory_block_t
            + sizeof_memory_block_t + 64 →
        h'.mem = setBlock h.mem (nth_block h i) fun x => { x with used := true }) := by
  obtain ⟨S, inv⟩ := reach_inv h live hr
  have hhead : h.memory_blocks_head ≠ 0 := hpos 0 (Nat.zero_le _)
  have hbL : InList h (nth_block h i) := inList_nth h i _ (InList.head hhead) hpos
  have hbS := inList_mem inv hbL
  obtain ⟨_, _, nb3, _, _⟩ := inv.struct.node _ hbS
  have hmin := Nat.min_le_right h.total_allocated HEAP_SIZE
  have hneed : block_need size (2 ^ k)
      = (size + 2 ^ k - 1) / 2 ^ k * 2 ^ k + sizeof_memory_block_t := by
    unfold block_need
    rw [align_up_pow2 size k hs hround]
    apply Nat.mod_eq_of_lt
    unfold HEAP_START HEAP_SIZE W32 sizeof_memory_block_t at *
    omega
  have hs0 : size ≠ 0 := by omega
  unfold kmalloc_aligned
  rw [if_neg hs0]
  generalize block_need size (2 ^ k) = N at hneed ⊢
  subst hneed
  have hscan := scan_first _ h i h.memory_blocks_head 0 fuel hfuel hpos hfirst hfree hfit
  obtain ⟨m1, m2, m3⟩ := take_mem h S live inv _ (nth_block h i) hbS hfree hfit
    (Nat.le_add_left _ _)
  refine ⟨(kmalloc_take h _ (nth_block h i)).1, ?_, rfl, m1, m2⟩
  rw [hscan, ← m3]
  rfl


/-- First fit on the heap after `kmalloc(16)` and `kfree` of its pointer: the freed block
of 40 bytes is the first fit for another `kmalloc(16)`, which returns the same pointer. -/
theorem first_fit_reuses_block :
    (kmalloc 1 (kfree scen_h1 0x400018) 16).map Prod.snd = some 0x400018 := by
  have r0 : HeapReachNoWrap (init_memory boot_heap) ∅ := HeapReachWith.init _
  have r1 := HeapReachWith.alloc 8 16 4 scen_h1 0x400018 r0 (by decide) (by decide)
    ⟨by decide, by decide⟩ rfl
  have r2 := HeapReachWith.free 0x400018 r1 (by simp)
  obtain ⟨h', e, _⟩ := first_fit_without_wrap (kfree scen_h1 0x400018) _ r2 16 4 0 1
    (by decide) (by decide) (le_refl 1)
    (fun j hj => by
      have e : j = 0 := by omega
      subst e
      decide)
    (by decide) (by decide) (fun j hj => absurd hj (Nat.not_lt_zero j))
  have e' : kmalloc 1 (kfree scen_h1 0x400018) 16 = some (h', 0x400018) := e
  rw [e']
  rfl

/-! ## Timer: when a tick calls the scheduler -/

/-- The function `timer_handler` for a non-null `current_process`, in terms of the state
at its quantum test. -/
theorem timer_handler_eq (fuel : Nat) (k : Kernel) (hcur : k.current_process ≠ 0) :
    timer_handler fuel k =
      (if ((timer_count k).procs k.current_process).quantum = 0
        then schedule fuel (timer_count k) else some (timer_count k)).map
        fun k5 => outb k5 0x20 0x20 := by
  unfold timer_handler
  simp only [hcur, ne_eq, not_false_eq_true, if_true]
  rfl

theorem timer_count_quantum (k : Kernel) :
    ((timer_count k).procs k.current_process).quantum
      = ((k.procs k.current_process).quantum + W32 - 1) % W32 := by
  simp [timer_count, setProc]

/-- Every `schedule` call that returns with a non-null `current_process` has added one to
`context_switches`. -/
theorem schedule_counts (fuel : Nat) (k k' : Kernel) (hcur : k.current_process ≠ 0)
    (h : schedule fuel k = some k') :
    k'.context_switches = (k.context_switches + 1) % W64 := by
  rw [schedule_eq fuel k hcur] at h
  cases hs : schedule_search k fuel (sched_succ k k.current_process) with
  | none => rw [hs] at h; cases h
  | some next =>
    rw [hs] at h
    simp only [Option.map] at h
    injection h with h
    rw [← h]
    split_ifs <;> rfl

/-- A tick on a quantum other than 1 does not call `schedule`. -/
theorem tick_quiet (fuel : Nat) (k : Kernel) (hcur : k.current_process ≠ 0)
    (hq : (k.procs k.current_process).quantum < W32)
    (h1 : (k.procs k.current_process).quantum ≠ 1) :
    timer_handler fuel k = some (outb (timer_count k) 0x20 0x20) := by
  have hne : ((timer_count k).procs k.current_process).quantum ≠ 0 := by
    rw [timer_count_quantum]
    unfold W32 at *
    omega
  rw [timer_handler_eq fuel k hcur, if_neg hne]
  rfl

theorem ticks_quiet (fuel : Nat) : ∀ (n : Nat) (k : Kernel) (r : Nat),
    k.current_process ≠ 0 → (k.procs k.current_process).quantum = r → n < r → r < W32 →
    ∃ kn, timer_ticks fuel n k = some kn ∧ kn.current_process = k.current_process ∧
      kn.context_switches = k.context_switches ∧
      (kn.procs kn.current_process).quantum = r - n := by
  intro n
  induction n with
  | zero =>
    intro k r _ hq _ _
    exact ⟨k, rfl, rfl, rfl, by rw [hq]; rfl⟩
  | succ n ih =>
    intro k r hcur hq hn hr
    have e := tick_quiet fuel k hcur (by rw [hq]; exact hr) (by rw [hq]; omega)
    have hq1 : ((outb (timer_count k) 0x20 0x20).procs
        (outb (timer_count k) 0x20 0x20).current_process).quantum = r - 1 := by
      show ((timer_count k).procs k.current_process).quantum = r - 1
      rw [timer_count_quantum, hq]
      unfold W32 at *
      omega
    obtain ⟨kn, i1, i2, i3, i4⟩ := ih (outb (timer_count k) 0x20 0x20) (r - 1) hcur hq1
      (by omega) (by omega)
    refine ⟨kn, ?_, i2, i3, by rw [i4]; omega⟩
    show (irq_handler fuel k 32 0).bind (timer_ticks fuel n) = some kn
    have e' : irq_handler fuel k 32 0 = some (outb (timer_count k) 0x20 0x20) := by
      simp only [irq_handler, if_true]
      exact e
    rw [e']
    exact i1

/-- C31. With a current process, `timer_handler` calls `schedule` exactly when the quantum
was 1 before the tick: then the handler is `schedule` run on the counted state (and
`context_switches` grows by one if it returns); for every other quantum the handler returns
the counted state, with `current_process` and `context_switches` unchanged. For a quantum
of 0 the 32-bit decrement wraps to `2 ^ 32 - 1` and none of the next `2 ^ 32 - 1` ticks calls
`schedule`: after `n` of them the process is still current, `context_switches` is unchanged
and the quantum is `2 ^ 32 - n`. -/
theorem timer_schedules_at_one (fuel : Nat) (k : Kernel) (hcur : k.current_process ≠ 0)
    (hq : (k.procs k.current_process).quantum < W32) :
    ((k.procs k.current_process).quantum = 1 →
      timer_handler fuel k
        = (schedule fuel (timer_count k)).map (fun k5 => outb k5 0x20 0x20) ∧
      ∀ k', timer_handler fuel k = some k' →
        k'.context_switches = (k.context_switches + 1) % W64) ∧
    ((k.procs k.current_process).quantum ≠ 1 →
      timer_handler fuel k = some (outb (timer_count k) 0x20 0x20) ∧
      (outb (timer_count k) 0x20 0x20).current_process = k.current_process ∧
      (outb (timer_count k) 0x20 0x20).context_switches = k.context_switches) ∧
    ((k.procs k.current_process).quantum = 0 →
      ((timer_count k).procs k.current_process).quantum = 2 ^ 32 - 1 ∧
      ∀ n, n ≤ 2 ^ 32 - 1 → ∃ kn, timer_ticks fuel n k = some kn ∧
        kn.current_process = k.current_process ∧
        kn.context_switches = k.context_switches ∧
        (kn.procs kn.current_process).quantum = (2 ^ 32 - n) % 2 ^ 32) := by
  have hW : W32 = 2 ^ 32 := rfl
  refine ⟨fun h1 => ⟨?_, fun k' hk => ?_⟩, fun h1 => ⟨tick_quiet fuel k hcur hq h1, rfl, rfl⟩,
    fun h0 => ⟨?_, fun n hn => ?_⟩⟩
  · have hz : ((timer_count k).procs k.current_process).quantum = 0 := by
      rw [timer_count_quantum, h1]
      rfl
    rw [timer_handler_eq fuel k hcur, if_pos hz]
  · have hz : ((timer_count k).procs k.current_process).quantum = 0 := by
      rw [timer_count_quantum, h1]
      rfl
    rw [timer_handler_eq fuel k hcur, if_pos hz] at hk
    cases hs : schedule fuel (timer_count k) with
    | none => rw [hs] at hk; cases hk
    | some k5 =>
      rw [hs] at hk
      simp only [Option.map] at hk
      injection hk with hk
      rw [← hk]
      exact schedule_counts fuel (timer_count k) k5 hcur hs
  · rw [timer_count_quantum, h0]
    rfl
  · cases n with
    | zero => exact ⟨k, rfl, rfl, rfl, by rw [h0]; rfl⟩
    | succ m =>
      have e := tick_quiet fuel k hcur hq (by rw [h0]; decide)
      have hq1 : ((outb (timer_count k) 0x20 0x20).procs
          (outb (timer_count k) 0x20 0x20).current_process).quantum = W32 - 1 := by
        show ((timer_count k).procs k.current_process).quantum = W32 - 1
        rw [timer_count_quantum, h0]
        rfl
      obtain ⟨kn, i1, i2, i3, i4⟩ := ticks_quiet fuel m (outb (timer_count k) 0x20 0x20)
        (W32 - 1) hcur hq1 (by rw [hW]; omega) (by rw [hW]; omega)
      refine ⟨kn, ?_, i2, i3, ?_⟩
      · show (irq_handler fuel k 32 0).bind (timer_ticks fuel m) = some kn
        have e' : irq_handler fuel k 32 0 = some (outb (timer_count k) 0x20 0x20) := by
          simp only [irq_handler, if_true]
          exact e
        rw [e']
        exact i1
      · rw [i4, hW]
        omega

/-- C31, on the kernel right after `init_tasking`: the idle process is current and its
quantum is 0. -/
theorem timer_schedules_at_one_witness :
    idle_kernel.current_process ≠ 0 ∧
    (idle_kernel.procs idle_kernel.current_process).quantum = 0 ∧
    (idle_kernel.procs idle_kernel.current_process).quantum < W32 ∧
    ((idle_kernel.procs idle_kernel.current_process).quantum = 1 →
      timer_handler 1 idle_kernel
        = (schedule 1 (timer_count idle_kernel)).map (fun k5 => outb k5 0x20 0x20) ∧
      ∀ k', timer_handler 1 idle_kernel = some k' →
        k'.context_switches = (idle_kernel.context_switches + 1) % W64) ∧
    ((idle_kernel.procs idle_kernel.current_process).quantum ≠ 1 →
      timer_handler 1 idle_kernel = some (outb (timer_count idle_kernel) 0x20 0x20) ∧
      (outb (timer_count idle_kernel) 0x20 0x20).current_process = idle_kernel.current_process ∧
      (outb (timer_count idle_kernel) 0x20 0x20).context_switches = idle_kernel.context_switches) ∧
    ((idle_kernel.procs idle_kernel.current_process).quantum = 0 →
      ((timer_count idle_kernel).procs idle_kernel.current_process).quantum = 2 ^ 32 - 1 ∧
      ∀ n, n ≤ 2 ^ 32 - 1 → ∃ kn, timer_ticks 1 n idle_kernel = some kn ∧
        kn.current_process = idle_kernel.current_process ∧
        kn.context_switches = idle_kernel.context_switches ∧
        (kn.procs kn.current_process).quantum = (2 ^ 32 - n) % 2 ^ 32) :=
  ⟨by decide, by decide, by decide,
    timer_schedules_at_one 1 idle_kernel (by decide) (by decide)⟩

/-! ## Keyboard: caps lock -/

/-- C13 (counterexample). One caps-lock code `0x3A` on a freshly constructed driver leaves the
buffer empty and caps lock on. The non-modifier make codes `0x1E, 0x30, 0x2E` fed in that
state are read back as `A`, `B`, `C`, not as the base-table entries `a`, `b`, `c`, although
no shift code arrived. -/
theorem caps_lock_upper_cases :
    ((KeyboardDriver.create fun _ => 0).feed [0x3A]).readPos
      = ((KeyboardDriver.create fun _ => 0).feed [0x3A]).writePos ∧
    ((KeyboardDriver.create fun _ => 0).feed [0x3A]).hasKey = false ∧
    ((KeyboardDriver.create fun _ => 0).feed [0x3A]).capsLock = true ∧
    ((KeyboardDriver.create fun _ => 0).feed [0x3A]).shiftPressed = false ∧
    ((((KeyboardDriver.create fun _ => 0).feed [0x3A]).feed [0x1E, 0x30, 0x2E]).read_keys 4).1
      = ['A'.toNat, 'B'.toNat, 'C'.toNat, 0] ∧
    [scancodeToAscii.getD 0x1E '\x00', scancodeToAscii.getD 0x30 '\x00',
      scancodeToAscii.getD 0x2E '\x00'] = ['a', 'b', 'c'] ∧
    expected_keys false [0x1E, 0x30, 0x2E] = ['a'.toNat, 'b'.toNat, 'c'.toNat] := by
  refine ⟨rfl, rfl, rfl, rfl, ?_, rfl, ?_⟩
  · rfl
  · rfl

/-! ## Scheduler: the ring of `process_list[0]` -/

theorem succ_chain (k : Kernel) (L m : Nat) (hring : OnChain k L m) (i : Nat) (hi : i < L) :
    sched_succ k (list_chain k i) = list_chain k ((i + 1) % L) := by
  unfold sched_succ
  by_cases h : i + 1 < L
  · have e : (k.procs (list_chain k i)).next = list_chain k (i + 1) := rfl
    rw [Nat.mod_eq_of_lt h, e, if_neg (hring.nonnull (i + 1) h)]
  · have hL : i + 1 = L := by omega
    have e : (k.procs (list_chain k i)).next = list_chain k (i + 1) := rfl
    rw [e, hL, hring.ends, if_pos rfl, Nat.mod_self]
    rfl

/-- On the ring the walk of `schedule` goes round the chain of `process_list[0]`. -/
theorem walk_chain (k : Kernel) (L m : Nat) (hring : OnChain k L m) :
    ∀ j, sched_walk k j = list_chain k ((m + 1 + j) % L) := by
  have hL : 0 < L := Nat.lt_of_le_of_lt (Nat.zero_le m) hring.pos
  intro j
  induction j with
  | zero =>
    show sched_succ k k.current_process = _
    rw [← hring.cur, succ_chain k L m hring m hring.pos]
  | succ j ih =>
    show sched_succ k (sched_walk k j) = _
    rw [ih, succ_chain k L m hring _ (Nat.mod_lt _ hL), Nat.mod_add_mod]
    rfl

theorem walk_chain_back (k : Kernel) (L m : Nat) (hring : OnChain k L m) :
    sched_walk k (L - 1) = k.current_process := by
  have hL : 0 < L := Nat.lt_of_le_of_lt (Nat.zero_le m) hring.pos
  have e : m + 1 + (L - 1) = m + L := by omega
  rw [walk_chain k L m hring, e, Nat.add_mod_right, Nat.mod_eq_of_lt hring.pos, hring.cur]

/-- Every state reachable from `init_tasking` has `current_process` on the chain of
`process_list[0]`: the chain is the idle process alone. -/
theorem taskReach_on_chain (k : Kernel) (h : TaskReach k) : OnChain k 1 0 := by
  obtain ⟨hne, hcur, hs0, _, hn, _⟩ := (taskReach_inv _ k h).1
  refine ⟨?_, ?_, Nat.zero_lt_one, ?_⟩
  · intro i hi
    have e : i = 0 := by omega
    subst e
    show k.process_list 0 ≠ 0
    rw [hs0]
    exact hne
  · show (k.procs (k.process_list 0)).next = 0
    rw [hs0]
    exact hn
  · show k.process_list 0 = k.current_process
    rw [hs0, hcur]

theorem walk_self (k : Kernel) (h : sched_walk k 0 = k.current_process) :
    ∀ j, sched_walk k j = k.current_process := by
  intro j
  induction j with
  | zero => exact h
  | succ j ih =>
    show sched_succ k (sched_walk k j) = _
    rw [ih]
    exact h

theorem search_stops (k : Kernel) : ∀ (n j fuel : Nat), n + 1 ≤ fuel → WalkStops k (j + n) →
    ∃ r, schedule_search k fuel (sched_walk k j) = some r := by
  intro n
  induction n with
  | zero =>
    intro j fuel hf hs
    obtain ⟨f, rfl⟩ : ∃ f, fuel = f + 1 := ⟨fuel - 1, by omega⟩
    have e : (if (k.procs (sched_walk k j)).next = 0 then k.process_list 0
        else (k.procs (sched_walk k j)).next) = sched_walk k (j + 1) := rfl
    unfold schedule_search
    simp only [e]
    split_ifs with h1 h2
    · exact ⟨_, rfl⟩
    · exfalso
      rcases hs with h | h | h
      · exact h1.1 h
      · rcases h with h | h
        · exact h1.2.1 h
        · exact h1.2.2 h
      · exact h2 h
    · exact ⟨_, rfl⟩
  | succ n ih =>
    intro j fuel hf hs
    obtain ⟨f, rfl⟩ : ∃ f, fuel = f + 1 := ⟨fuel - 1, by omega⟩
    have e : (if (k.procs (sched_walk k j)).next = 0 then k.process_list 0
        else (k.procs (sched_walk k j)).next) = sched_walk k (j + 1) := rfl
    unfold schedule_search
    simp only [e]
    split_ifs with h1 h2
    · exact ⟨_, rfl⟩
    · have e2 : j + (n + 1) = j + 1 + n := by omega
      rw [e2] at hs
      exact ih (j + 1) f (by omega) hs
    · exact ⟨_, rfl⟩

theorem search_never (k : Kernel) (hno : ∀ n, ¬ WalkStops k n) :
    ∀ fuel j, schedule_search k fuel (sched_walk k j) = none := by
  intro fuel
  induction fuel with
  | zero => intro j; rfl
  | succ fuel ih =>
    intro j
    have e : (if (k.procs (sched_walk k j)).next = 0 then k.process_list 0
        else (k.procs (sched_walk k j)).next) = sched_walk k (j + 1) := rfl
    have h := hno j
    unfold WalkStops Runnable at h
    unfold schedule_search
    simp only [e]
    rw [if_pos ⟨fun h0 => h (Or.inl h0), fun h0 => h (Or.inr (Or.inl (Or.inl h0))),
      fun h0 => h (Or.inr (Or.inl (Or.inr h0)))⟩, if_neg (fun h0 => h (Or.inr (Or.inr h0)))]
    exact ih (j + 1)

/-- With enough fuel, `schedule` returns as soon as the walk stops. -/
theorem schedule_stops (k : Kernel) (n fuel : Nat) (hs : WalkStops k n) (hf : n + 1 ≤ fuel) :
    ∃ k', schedule fuel k = some k' := by
  by_cases hc : k.current_process = 0
  · exact ⟨k, by unfold schedule; rw [if_pos hc]⟩
  · obtain ⟨r, hr⟩ := search_stops k n 0 fuel hf (by rw [Nat.zero_add]; exact hs)
    have w0 : sched_succ k k.current_process = sched_walk k 0 := rfl
    rw [schedule_eq fuel k hc, w0, hr]
    exact ⟨_, rfl⟩

theorem onChain_stops (k : Kernel) (L m : Nat) (hring : OnChain k L m) :
    WalkStops k (L - 2) := by
  have hb := walk_chain_back k L m hring
  have hL : 0 < L := Nat.lt_of_le_of_lt (Nat.zero_le m) hring.pos
  by_cases h : L = 1
  · subst h
    exact Or.inr (Or.inr (walk_self k hb 1))
  · have e : L - 2 + 1 = L - 1 := by omega
    refine Or.inr (Or.inr ?_)
    rw [e]
    exact hb

/-- C30 (amended). When `schedule` returns. It returns at once when `current_process` is
null. Otherwise it returns, given fuel for `n + 1` iterations, as soon as the walk from
`current_process` (along `next` links, continuing at `process_list[0]` after a null link)
meets at step `n` a null `process_list[0]`, a `READY` or `RUNNING` process or a process
whose successor is `current_process`; that is so within `L` iterations when
`current_process` is on the null-terminated chain of `L` processes that starts at
`process_list[0]`, and within one iteration in every state reachable from `init_tasking`.
When the walk never meets any of the three, `schedule` does not return, whatever the number
of iterations allowed. -/
theorem schedule_terminates (k : Kernel) :
    (k.current_process = 0 → ∀ fuel, schedule fuel k = some k) ∧
    (∀ n fuel, WalkStops k n → n + 1 ≤ fuel → ∃ k', schedule fuel k = some k') ∧
    (∀ L m fuel, OnChain k L m → L ≤ fuel → ∃ k', schedule fuel k = some k') ∧
    (TaskReach k → ∀ fuel, 1 ≤ fuel → ∃ k', schedule fuel k = some k') ∧
    (k.current_process ≠ 0 → (∀ n, ¬ WalkStops k n) → ∀ fuel, schedule fuel k = none) := by
  refine ⟨?_, ?_, ?_, ?_, ?_⟩
  · intro hc fuel
    unfold schedule
    rw [if_pos hc]
  · intro n fuel hs hf
    exact schedule_stops k n fuel hs hf
  · intro L m fuel hring hf
    have hL : 0 < L := Nat.lt_of_le_of_lt (Nat.zero_le m) hring.pos
    exact schedule_stops k (L - 2) fuel (onChain_stops k L m hring) (by omega)
  · intro h fuel hf
    exact schedule_stops k 0 fuel (onChain_stops k 1 0 (taskReach_on_chain k h)) (by omega)
  · intro hc hno fuel
    have w0 : sched_succ k k.current_process = sched_walk k 0 := rfl
    rw [schedule_eq fuel k hc, w0, search_never k hno fuel 0]
    rfl

/-- C30 (amended), on the idle process alone and on the chain `0x1000 -> 0x2000 -> NULL`
with the process at `0x2000` current: `schedule` returns. -/
theorem schedule_terminates_witness :
    TaskReach idle_kernel ∧ (∃ k', schedule 1 idle_kernel = some k') ∧
    OnChain chain_kernel 2 1 ∧ (∃ k', schedule 2 chain_kernel = some k') :=
  ⟨TaskReachWith.init 1 { boot_kernel with heap := init_memory boot_heap } idle_kernel
      (fun _ => rfl) rfl,
    (schedule_terminates idle_kernel).2.2.2.1
      (TaskReachWith.init 1 { boot_kernel with heap := init_memory boot_heap } idle_kernel
        (fun _ => rfl) rfl) 1 (le_refl 1),
    ⟨by decide, rfl, by decide, rfl⟩,
    (schedule_terminates chain_kernel).2.2.1 2 1 2 ⟨by decide, rfl, by decide, rfl⟩ (le_refl 2)⟩

end MiniOS
